import Mathlib

/-!
# KVM-Nyx: Intel PT trace engine (vmx_pt.c) and fast dirty-page logger (vmx_fdl.c)

A shallow embedding of the two kernel extensions.  Machine integers are
natural numbers (u64 fields hold values below 2^64, reduced explicitly where
the C arithmetic can wrap); `long`/`int` results are integers.  Kernel
pointers into buffers are modelled by the buffer contents (a map from byte
offset to byte value).  `printk` logging has no effect on the state and is
left out.  The per-vCPU spin lock brackets each operation; every operation
below is one atomic step of the sequential model, which is what the lock
provides, so the lock word itself is not represented.
-/

namespace Nyx

/-! ## Constants of vmx_pt.c -/

/-- Kernel `BIT_ULL(n)`. -/
def BIT_ULL (n : Nat) : Nat := 2 ^ n

/-- Errno `EINVAL`. -/
def EINVAL : Int := 22
/-- Errno `ENOMEM`. -/
def ENOMEM : Int := 12

def PT_TRACE_END : Nat := 0b01010101

def TOPA_MASK_OR_TABLE_OFFSET : Nat := 0x00000000FFFFFF80

def TRACE_EN : Nat := BIT_ULL 0
def CTL_OS : Nat := BIT_ULL 2
def CTL_USER : Nat := BIT_ULL 3
def CR3_FILTER : Nat := BIT_ULL 7
def TO_PA : Nat := BIT_ULL 8
def DIS_RETC : Nat := BIT_ULL 11
def BRANCH_EN : Nat := BIT_ULL 13

def ADDR0_EN : Nat := BIT_ULL 32
def ADDR1_EN : Nat := BIT_ULL 36
def ADDR2_EN : Nat := BIT_ULL 40
def ADDR3_EN : Nat := BIT_ULL 44

def PSB_MASK : Nat := 0x0 <<< 24

def PAGE_SHIFT : Nat := 12
def TOPA_MAIN_ORDER : Nat := 10
def TOPA_FALLBACK_ORDER : Nat := 4

def TOPA_MAIN_SIZE : Nat := (1 <<< TOPA_MAIN_ORDER) * (1 <<< PAGE_SHIFT)
def TOPA_FALLBACK_SIZE : Nat := (1 <<< TOPA_FALLBACK_ORDER) * (1 <<< PAGE_SHIFT)

def X64_48_BIT_HOLE_START : Nat := 0x0000800000000000
def X64_48_BIT_HOLE_END : Nat := 0xffff800000000000

/-- Conversion of an unsigned value to the C type `int` (32 bits, signed,
reduced modulo 2^32), as done when a u64 expression is returned from an `int` function. -/
def toInt32 (n : Nat) : Int :=
  if n % 2 ^ 32 < 2 ^ 31 then ((n % 2 ^ 32 : Nat) : Int) else ((n % 2 ^ 32 : Nat) : Int) - 2 ^ 32

/-! ## Data model of vmx_pt.c -/

/-- Modelled from the spec: `struct vcpu_vmx` and `add_atomic_switch_msr` live in vmx.c,
which is not part of the sources.  Only the MSR switch entry for `MSR_IA32_RTIT_CTL`
is kept: the guest-side and host-side value installed last, if any. -/
structure vcpu_vmx where
  rtit_ctl_switch : Option (Nat × Nat)

/-- Argument of the `KVM_VMX_PT_CONFIGURE_ADDRn` commands. -/
structure vmx_pt_filter_iprs where
  a : Nat
  b : Nat

/-- Argument of `KVM_VMX_PT_CONFIGURE_MULTI_CR3` (fields as used by `vmx_pt_ioctl`). -/
structure vmx_pt_multi_cr3 where
  cr3_0 : Nat
  cr3_1 : Nat
  cr3_2 : Nat
  cr3_3 : Nat
  num : Nat

/-- The Intel PT model-specific registers of the physical core the hooks run on. -/
structure pt_msrs where
  rtit_status : Nat
  cr3_match : Nat
  addr0_start : Nat
  addr0_end : Nat
  addr1_start : Nat
  addr1_end : Nat
  addr2_start : Nat
  addr2_end : Nat
  addr3_start : Nat
  addr3_end : Nat
  rtit_output_base : Nat
  rtit_output_mask_ptrs : Nat

/-- The per-vCPU trace session, `struct vcpu_vmx_pt`.  An array `u64 x[2]` is a pair;
`ia32_rtit_addr_configured[n]` is the pair `ia32_rtit_addr_configured_n`.  The two
buffer pointers are kept as addresses (0 is NULL) next to the bytes they point to. -/
structure vcpu_vmx_pt where
  vmx : vcpu_vmx
  ia32_rtit_ctrl_msr : Nat
  ia32_rtit_addr_configured_0 : Bool × Bool
  ia32_rtit_addr_configured_1 : Bool × Bool
  ia32_rtit_addr_configured_2 : Bool × Bool
  ia32_rtit_addr_configured_3 : Bool × Bool
  ia32_rtit_addr_0 : Nat × Nat
  ia32_rtit_addr_1 : Nat × Nat
  ia32_rtit_addr_2 : Nat × Nat
  ia32_rtit_addr_3 : Nat × Nat
  ia32_rtit_cr3_match : Nat
  ia32_rtit_multi_cr3_0_match : Nat
  ia32_rtit_multi_cr3_1_match : Nat
  ia32_rtit_multi_cr3_2_match : Nat
  ia32_rtit_multi_cr3_3_match : Nat
  ia32_rtit_multi_cr3_num : Nat
  multi_cr3_enabled : Bool
  topa_pt_region : Nat
  ia32_rtit_output_base : Nat
  ia32_rtit_output_mask_ptrs : Nat
  ia32_rtit_output_base_init : Nat
  ia32_rtit_output_mask_ptrs_init : Nat
  topa_main_buf_virt_addr : Nat
  topa_main_buf : Nat → Nat
  topa_fallback_buf_virt_addr : Nat
  topa_fallback_buf : Nat → Nat
  topa_virt_addr : Nat
  configured : Bool
  cpu : Nat
  reset : Bool
  state_change_pending : Bool
  state : Bool

/-- The commands of `vmx_pt_ioctl`.  A command that reads its argument from user
memory carries `none` when `copy_from_user` fails. -/
inductive pt_ioctl_cmd where
  | KVM_VMX_PT_CONFIGURE_ADDR0 (argp : Option vmx_pt_filter_iprs)
  | KVM_VMX_PT_CONFIGURE_ADDR1 (argp : Option vmx_pt_filter_iprs)
  | KVM_VMX_PT_CONFIGURE_ADDR2 (argp : Option vmx_pt_filter_iprs)
  | KVM_VMX_PT_CONFIGURE_ADDR3 (argp : Option vmx_pt_filter_iprs)
  | KVM_VMX_PT_ENABLE_ADDR0
  | KVM_VMX_PT_ENABLE_ADDR1
  | KVM_VMX_PT_ENABLE_ADDR2
  | KVM_VMX_PT_ENABLE_ADDR3
  | KVM_VMX_PT_DISABLE_ADDR0
  | KVM_VMX_PT_DISABLE_ADDR1
  | KVM_VMX_PT_DISABLE_ADDR2
  | KVM_VMX_PT_DISABLE_ADDR3
  | KVM_VMX_PT_CONFIGURE_MULTI_CR3 (argp : Option vmx_pt_multi_cr3)
  | KVM_VMX_PT_ENABLE_MULTI_CR3
  | KVM_VMX_PT_DISABLE_MULTI_CR3
  | KVM_VMX_PT_CONFIGURE_CR3 (arg : Nat)
  | KVM_VMX_PT_ENABLE_CR3
  | KVM_VMX_PT_DISABLE_CR3
  | KVM_VMX_PT_ENABLE
  | KVM_VMX_PT_DISABLE
  | KVM_VMX_PT_CHECK_TOPA_OVERFLOW
  | KVM_VMX_PT_GET_TOPA_SIZE
  | OTHER (nr : Nat)

/-! ## Operations of vmx_pt.c -/

/-- Source `vmx_pt_get_data_size`: the size of the traced data, and the session with
the end marker stamped into the extent the output offset points into. -/
def vmx_pt_get_data_size (vmx_pt : vcpu_vmx_pt) : Int × vcpu_vmx_pt :=
  let topa_base := vmx_pt.ia32_rtit_output_mask_ptrs
  if topa_base &&& TOPA_MASK_OR_TABLE_OFFSET ≠ 0 then
    let vmx_pt1 :=
      if topa_base >>> 32 < TOPA_FALLBACK_SIZE then
        { vmx_pt with topa_fallback_buf :=
            Function.update vmx_pt.topa_fallback_buf (topa_base >>> 32) PT_TRACE_END }
      else vmx_pt
    (toInt32 (TOPA_MAIN_SIZE + (topa_base >>> 32)), vmx_pt1)
  else
    (toInt32 (topa_base >>> 32),
      { vmx_pt with topa_main_buf :=
          Function.update vmx_pt.topa_main_buf (topa_base >>> 32) PT_TRACE_END })

/-- Source `topa_reset`. -/
def topa_reset (vmx_pt_config : vcpu_vmx_pt) : vcpu_vmx_pt :=
  { vmx_pt_config with
    ia32_rtit_output_base := vmx_pt_config.ia32_rtit_output_base_init
    ia32_rtit_output_mask_ptrs := vmx_pt_config.ia32_rtit_output_mask_ptrs_init }

/-- Source `vmx_pt_check_overflow`. -/
def vmx_pt_check_overflow (vmx_pt : vcpu_vmx_pt) : Int × vcpu_vmx_pt :=
  let (bytes, vmx_pt1) := vmx_pt_get_data_size vmx_pt
  if bytes ≥ (TOPA_MAIN_SIZE : Int) then
    (bytes, topa_reset vmx_pt1)
  else
    (0, vmx_pt1)

/-- Source `topa_full`. -/
def topa_full (vmx_pt : vcpu_vmx_pt) : Bool × vcpu_vmx_pt :=
  let (bytes, vmx_pt1) := vmx_pt_get_data_size vmx_pt
  if bytes ≥ (TOPA_MAIN_SIZE : Int) then (true, vmx_pt1) else (false, vmx_pt1)

/-- Source `range_check`. -/
def range_check (addr_a addr_b : Nat) : Bool :=
  if addr_a = addr_b ∨ addr_a > addr_b then false
  else if addr_a ≥ X64_48_BIT_HOLE_START ∧ addr_a < X64_48_BIT_HOLE_END then false
  else if addr_b ≥ X64_48_BIT_HOLE_START ∧ addr_b < X64_48_BIT_HOLE_END then false
  else true

/-- Source `vmx_pt_ioctl`, for a non-NULL session: the `long` result and the session
after the call.  `supported_addrn` is the global set by the capability probe. -/
def vmx_pt_ioctl (supported_addrn : Nat) (ioctl : pt_ioctl_cmd) (vmx_pt_config : vcpu_vmx_pt) :
    Int × vcpu_vmx_pt :=
  let is_configured := vmx_pt_config.configured
  let r : Int := -EINVAL
  match ioctl with
  | .KVM_VMX_PT_CONFIGURE_ADDR0 argp =>
    if !is_configured ∧ supported_addrn ≥ 1 then
      match argp with
      | some filter_iprs =>
        if range_check filter_iprs.a filter_iprs.b then
          (0, { vmx_pt_config with
                ia32_rtit_addr_0 := (filter_iprs.a, filter_iprs.b)
                ia32_rtit_addr_configured_0 := (true, true) })
        else (r, vmx_pt_config)
      | none => (r, vmx_pt_config)
    else (r, vmx_pt_config)
  | .KVM_VMX_PT_CONFIGURE_ADDR1 argp =>
    if !is_configured ∧ supported_addrn ≥ 2 then
      match argp with
      | some filter_iprs =>
        if range_check filter_iprs.a filter_iprs.b then
          (0, { vmx_pt_config with
                ia32_rtit_addr_1 := (filter_iprs.a, filter_iprs.b)
                ia32_rtit_addr_configured_1 := (true, true) })
        else (r, vmx_pt_config)
      | none => (r, vmx_pt_config)
    else (r, vmx_pt_config)
  | .KVM_VMX_PT_CONFIGURE_ADDR2 argp =>
    if !is_configured ∧ supported_addrn ≥ 3 then
      match argp with
      | some filter_iprs =>
        if range_check filter_iprs.a filter_iprs.b then
          (0, { vmx_pt_config with
                ia32_rtit_addr_2 := (filter_iprs.a, filter_iprs.b)
                ia32_rtit_addr_configured_2 := (true, true) })
        else (r, vmx_pt_config)
      | none => (r, vmx_pt_config)
    else (r, vmx_pt_config)
  | .KVM_VMX_PT_CONFIGURE_ADDR3 argp =>
    if !is_configured ∧ supported_addrn ≥ 4 then
      match argp with
      | some filter_iprs =>
        if range_check filter_iprs.a filter_iprs.b then
          (0, { vmx_pt_config with
                ia32_rtit_addr_3 := (filter_iprs.a, filter_iprs.b)
                ia32_rtit_addr_configured_3 := (true, true) })
        else (r, vmx_pt_config)
      | none => (r, vmx_pt_config)
    else (r, vmx_pt_config)
  | .KVM_VMX_PT_ENABLE_ADDR0 =>
    if !is_configured ∧ vmx_pt_config.ia32_rtit_addr_configured_0.1
        ∧ vmx_pt_config.ia32_rtit_addr_configured_0.2 ∧ supported_addrn ≥ 1 then
      (0, { vmx_pt_config with ia32_rtit_ctrl_msr := vmx_pt_config.ia32_rtit_ctrl_msr ||| ADDR0_EN })
    else (r, vmx_pt_config)
  | .KVM_VMX_PT_ENABLE_ADDR1 =>
    if !is_configured ∧ vmx_pt_config.ia32_rtit_addr_configured_1.1
        ∧ vmx_pt_config.ia32_rtit_addr_configured_1.2 ∧ supported_addrn ≥ 2 then
      (0, { vmx_pt_config with ia32_rtit_ctrl_msr := vmx_pt_config.ia32_rtit_ctrl_msr ||| ADDR1_EN })
    else (r, vmx_pt_config)
  | .KVM_VMX_PT_ENABLE_ADDR2 =>
    if !is_configured ∧ vmx_pt_config.ia32_rtit_addr_configured_2.1
        ∧ vmx_pt_config.ia32_rtit_addr_configured_2.2 ∧ supported_addrn ≥ 3 then
      (0, { vmx_pt_config with ia32_rtit_ctrl_msr := vmx_pt_config.ia32_rtit_ctrl_msr ||| ADDR2_EN })
    else (r, vmx_pt_config)
  | .KVM_VMX_PT_ENABLE_ADDR3 =>
    if !is_configured ∧ vmx_pt_config.ia32_rtit_addr_configured_3.1
        ∧ vmx_pt_config.ia32_rtit_addr_configured_3.2 ∧ supported_addrn ≥ 4 then
      (0, { vmx_pt_config with ia32_rtit_ctrl_msr := vmx_pt_config.ia32_rtit_ctrl_msr ||| ADDR3_EN })
    else (r, vmx_pt_config)
  | .KVM_VMX_PT_DISABLE_ADDR0 =>
    if !is_configured ∧ vmx_pt_config.ia32_rtit_ctrl_msr &&& ADDR0_EN ≠ 0 then
      (0, { vmx_pt_config with ia32_rtit_ctrl_msr := vmx_pt_config.ia32_rtit_ctrl_msr ^^^ ADDR0_EN })
    else (r, vmx_pt_config)
  | .KVM_VMX_PT_DISABLE_ADDR1 =>
    if !is_configured ∧ vmx_pt_config.ia32_rtit_ctrl_msr &&& ADDR1_EN ≠ 0 then
      (0, { vmx_pt_config with ia32_rtit_ctrl_msr := vmx_pt_config.ia32_rtit_ctrl_msr ^^^ ADDR1_EN })
    else (r, vmx_pt_config)
  | .KVM_VMX_PT_DISABLE_ADDR2 =>
    if !is_configured ∧ vmx_pt_config.ia32_rtit_ctrl_msr &&& ADDR2_EN ≠ 0 then
      (0, { vmx_pt_config with ia32_rtit_ctrl_msr := vmx_pt_config.ia32_rtit_ctrl_msr ^^^ ADDR2_EN })
    else (r, vmx_pt_config)
  | .KVM_VMX_PT_DISABLE_ADDR3 =>
    if !is_configured ∧ vmx_pt_config.ia32_rtit_ctrl_msr &&& ADDR3_EN ≠ 0 then
      (0, { vmx_pt_config with ia32_rtit_ctrl_msr := vmx_pt_config.ia32_rtit_ctrl_msr ^^^ ADDR3_EN })
    else (r, vmx_pt_config)
  | .KVM_VMX_PT_CONFIGURE_MULTI_CR3 argp =>
    if !is_configured then
      match argp with
      | some multi_cr3_addr =>
        (0, { vmx_pt_config with
              ia32_rtit_multi_cr3_0_match := multi_cr3_addr.cr3_0
              ia32_rtit_multi_cr3_1_match := multi_cr3_addr.cr3_1
              ia32_rtit_multi_cr3_2_match := multi_cr3_addr.cr3_2
              ia32_rtit_multi_cr3_3_match := multi_cr3_addr.cr3_3
              ia32_rtit_multi_cr3_num := multi_cr3_addr.num })
      | none => (r, vmx_pt_config)
    else (r, vmx_pt_config)
  | .KVM_VMX_PT_ENABLE_MULTI_CR3 =>
    if !is_configured ∧ ¬ (vmx_pt_config.ia32_rtit_ctrl_msr &&& CR3_FILTER ≠ 0)
        ∧ vmx_pt_config.ia32_rtit_multi_cr3_num ≠ 0 ∧ !vmx_pt_config.multi_cr3_enabled then
      (0, { vmx_pt_config with multi_cr3_enabled := true })
    else (r, vmx_pt_config)
  | .KVM_VMX_PT_DISABLE_MULTI_CR3 =>
    if !is_configured ∧ vmx_pt_config.multi_cr3_enabled then
      (0, { vmx_pt_config with multi_cr3_enabled := false })
    else (r, vmx_pt_config)
  | .KVM_VMX_PT_CONFIGURE_CR3 arg =>
    if !is_configured then
      (0, { vmx_pt_config with ia32_rtit_cr3_match := arg })
    else (r, vmx_pt_config)
  | .KVM_VMX_PT_ENABLE_CR3 =>
    if !is_configured ∧ vmx_pt_config.ia32_rtit_cr3_match ≠ 0
        ∧ !vmx_pt_config.multi_cr3_enabled then
      (0, { vmx_pt_config with ia32_rtit_ctrl_msr := vmx_pt_config.ia32_rtit_ctrl_msr ||| CR3_FILTER })
    else (r, vmx_pt_config)
  | .KVM_VMX_PT_DISABLE_CR3 =>
    if !is_configured ∧ vmx_pt_config.ia32_rtit_ctrl_msr &&& CR3_FILTER ≠ 0 then
      (0, { vmx_pt_config with ia32_rtit_ctrl_msr := vmx_pt_config.ia32_rtit_ctrl_msr ^^^ CR3_FILTER })
    else (r, vmx_pt_config)
  | .KVM_VMX_PT_ENABLE =>
    let (_r1, vmx_pt_config1) :=
      if !is_configured then
        if !vmx_pt_config.state_change_pending then
          (r, { vmx_pt_config with state_change_pending := true, state := true })
        else (-EINVAL, vmx_pt_config)
      else (r, vmx_pt_config)
    -- `r = 0;` after the outer `if`, on every path
    (0, vmx_pt_config1)
  | .KVM_VMX_PT_DISABLE =>
    if is_configured then
      if !vmx_pt_config.state_change_pending then
        let (size, vmx_pt_config1) := vmx_pt_get_data_size vmx_pt_config
        (size, { vmx_pt_config1 with state_change_pending := true, state := false, reset := true })
      else (-EINVAL, vmx_pt_config)
    else (-EINVAL, vmx_pt_config)
  | .KVM_VMX_PT_CHECK_TOPA_OVERFLOW =>
    let (bytes, vmx_pt_config1) := vmx_pt_check_overflow vmx_pt_config
    if bytes ≠ 0 then (bytes, { vmx_pt_config1 with reset := true })
    else (bytes, vmx_pt_config1)
  | .KVM_VMX_PT_GET_TOPA_SIZE =>
    if vmx_pt_config.topa_main_buf_virt_addr ≠ 0 then
      (((TOPA_MAIN_SIZE + TOPA_FALLBACK_SIZE : Nat) : Int), vmx_pt_config)
    else (-ENOMEM, vmx_pt_config)
  | .OTHER _ => (r, vmx_pt_config)

/-! ## Entry and exit hooks, session setup -/

/-- Source `vmx_pt_setup_vmx_autoload_msr`; `add_atomic_switch_msr` records the
guest-side and the host-side value of `MSR_IA32_RTIT_CTL`. -/
def vmx_pt_setup_vmx_autoload_msr (vmx_pt_config : vcpu_vmx_pt) (enable_vmx_pt : Bool) :
    vcpu_vmx_pt :=
  let host_val := vmx_pt_config.ia32_rtit_ctrl_msr
  let host_val := if host_val &&& TRACE_EN ≠ 0 then host_val ^^^ TRACE_EN else host_val
  let guest_val := host_val
  let guest_val := if enable_vmx_pt then guest_val ||| TRACE_EN else guest_val
  if !enable_vmx_pt then
    { vmx_pt_config with vmx := { rtit_ctl_switch := some (host_val, host_val) } }
  else
    { vmx_pt_config with vmx := { rtit_ctl_switch := some (guest_val, host_val) } }

/-- Source `vmx_pt_enable`. -/
def vmx_pt_enable (vmx_pt_config : vcpu_vmx_pt) : vcpu_vmx_pt :=
  if !vmx_pt_config.configured then
    vmx_pt_setup_vmx_autoload_msr { vmx_pt_config with configured := true } true
  else vmx_pt_config

/-- Source `vmx_pt_disable`. -/
def vmx_pt_disable (vmx_pt_config : vcpu_vmx_pt) : vcpu_vmx_pt :=
  if vmx_pt_config.configured then
    topa_reset (vmx_pt_setup_vmx_autoload_msr { vmx_pt_config with configured := false } false)
  else vmx_pt_config

/-- Source `vmx_pt_reconfigure_cpu`: the registers of the core after the rewrite. -/
def vmx_pt_reconfigure_cpu (vmx_pt : vcpu_vmx_pt) (hw : pt_msrs) : pt_msrs :=
  let status := hw.rtit_status
  let status := if status &&& BIT_ULL 5 ≠ 0 then status ^^^ BIT_ULL 5 else status
  let status := if status &&& BIT_ULL 4 ≠ 0 then status ^^^ BIT_ULL 4 else status
  let status := status &&& 0xFFFE0000FFFFFFFF
  let hw := { hw with rtit_status := status }
  let hw := if vmx_pt.ia32_rtit_cr3_match ≠ 0 then
      { hw with cr3_match := vmx_pt.ia32_rtit_cr3_match } else hw
  let hw := if vmx_pt.ia32_rtit_addr_configured_0.1 then
      { hw with addr0_start := vmx_pt.ia32_rtit_addr_0.1, addr0_end := vmx_pt.ia32_rtit_addr_0.2 }
    else hw
  let hw := if vmx_pt.ia32_rtit_addr_configured_1.1 then
      { hw with addr1_start := vmx_pt.ia32_rtit_addr_1.1, addr1_end := vmx_pt.ia32_rtit_addr_1.2 }
    else hw
  let hw := if vmx_pt.ia32_rtit_addr_configured_2.1 then
      { hw with addr2_start := vmx_pt.ia32_rtit_addr_2.1, addr2_end := vmx_pt.ia32_rtit_addr_2.2 }
    else hw
  let hw := if vmx_pt.ia32_rtit_addr_configured_3.1 then
      { hw with addr3_start := vmx_pt.ia32_rtit_addr_3.1, addr3_end := vmx_pt.ia32_rtit_addr_3.2 }
    else hw
  { hw with
    rtit_output_base := vmx_pt.ia32_rtit_output_base
    rtit_output_mask_ptrs := vmx_pt.ia32_rtit_output_mask_ptrs }

/-- Source `vmx_pt_vmentry`, for a non-NULL session.  `enabled` is the global set by
the capability probe, `smp_processor_id` the core the hook runs on. -/
def vmx_pt_vmentry (enabled : Bool) (smp_processor_id : Nat) (hw : pt_msrs)
    (vmx_pt : vcpu_vmx_pt) : pt_msrs × vcpu_vmx_pt :=
  let vmx_pt :=
    if enabled ∧ vmx_pt.state_change_pending then
      let vmx_pt1 := if vmx_pt.state then vmx_pt_enable vmx_pt else vmx_pt_disable vmx_pt
      { vmx_pt1 with state_change_pending := false }
    else vmx_pt
  if enabled ∧ vmx_pt.configured then
    let vmx_pt := { vmx_pt with cpu := smp_processor_id % 256 }
    (vmx_pt_reconfigure_cpu vmx_pt hw, vmx_pt)
  else (hw, vmx_pt)

/-- Source `vmx_pt_vmexit`, for a non-NULL session: the output registers of the core
are read back into the session. -/
def vmx_pt_vmexit (enabled : Bool) (hw : pt_msrs) (vmx_pt : vcpu_vmx_pt) : vcpu_vmx_pt :=
  if enabled ∧ vmx_pt.configured then
    { vmx_pt with
      ia32_rtit_output_base := hw.rtit_output_base
      ia32_rtit_output_mask_ptrs := hw.rtit_output_mask_ptrs }
  else vmx_pt

/-- Source `vmx_pt_toggle_entry`. -/
def vmx_pt_toggle_entry (vmx_pt_config : vcpu_vmx_pt) : vcpu_vmx_pt :=
  if vmx_pt_config.configured then vmx_pt_setup_vmx_autoload_msr vmx_pt_config false
  else vmx_pt_config

/-- Source `vmx_pt_toggle_exit`. -/
def vmx_pt_toggle_exit (vmx_pt_config : vcpu_vmx_pt) : vcpu_vmx_pt :=
  if vmx_pt_config.configured then vmx_pt_setup_vmx_autoload_msr vmx_pt_config true
  else vmx_pt_config

/-- Source `vmx_pt_setup_msrs`.  In the C expression `(!TRACE_EN)` is the logical
negation of a non-zero constant, that is 0. -/
def vmx_pt_setup_msrs (vmx_pt : vcpu_vmx_pt) : vcpu_vmx_pt :=
  { vmx_pt with
    ia32_rtit_ctrl_msr := 0 ||| CTL_OS ||| CTL_USER ||| TO_PA ||| BRANCH_EN ||| DIS_RETC ||| PSB_MASK
    ia32_rtit_addr_configured_0 := (false, false)
    ia32_rtit_addr_configured_1 := (false, false)
    ia32_rtit_addr_configured_2 := (false, false)
    ia32_rtit_addr_configured_3 := (false, false)
    ia32_rtit_addr_0 := (0, 0)
    ia32_rtit_addr_1 := (0, 0)
    ia32_rtit_addr_2 := (0, 0)
    ia32_rtit_addr_3 := (0, 0)
    ia32_rtit_cr3_match := 0
    ia32_rtit_multi_cr3_0_match := 0
    ia32_rtit_multi_cr3_1_match := 0
    ia32_rtit_multi_cr3_2_match := 0
    ia32_rtit_multi_cr3_3_match := 0
    ia32_rtit_multi_cr3_num := 0
    multi_cr3_enabled := false }

/-- Source `vmx_pt_setup_topa`.  The three page allocations are given by the addresses
they return (0 when the allocation fails); `pa` is the kernel `__pa` translation.
The result is the `int` returned and the session; the table of addresses itself
(three entries in the page at `topa`) is not part of the session record. -/
def vmx_pt_setup_topa (pa : Nat → Nat) (main_buffer fallback_buffer topa : Nat)
    (vmx_pt : vcpu_vmx_pt) : Int × vcpu_vmx_pt :=
  if main_buffer = 0 then (-ENOMEM, vmx_pt)
  else if fallback_buffer = 0 then (-ENOMEM, { vmx_pt with topa_main_buf_virt_addr := 0 })
  else if topa = 0 then (-ENOMEM, { vmx_pt with topa_main_buf_virt_addr := 0 })
  else
    (0, { vmx_pt with
          topa_pt_region := topa
          ia32_rtit_output_base := pa topa
          ia32_rtit_output_mask_ptrs := 0x7f
          ia32_rtit_output_base_init := pa topa
          ia32_rtit_output_mask_ptrs_init := 0x7f
          topa_main_buf_virt_addr := main_buffer
          topa_main_buf := fun _ => 0
          topa_fallback_buf_virt_addr := fallback_buffer
          topa_fallback_buf := fun _ => 0
          topa_virt_addr := topa
          reset := true })

/-- A session record after `memset(..., 0x0, sizeof(struct vcpu_vmx_pt))`. -/
def vcpu_vmx_pt_zero : vcpu_vmx_pt where
  vmx := { rtit_ctl_switch := none }
  ia32_rtit_ctrl_msr := 0
  ia32_rtit_addr_configured_0 := (false, false)
  ia32_rtit_addr_configured_1 := (false, false)
  ia32_rtit_addr_configured_2 := (false, false)
  ia32_rtit_addr_configured_3 := (false, false)
  ia32_rtit_addr_0 := (0, 0)
  ia32_rtit_addr_1 := (0, 0)
  ia32_rtit_addr_2 := (0, 0)
  ia32_rtit_addr_3 := (0, 0)
  ia32_rtit_cr3_match := 0
  ia32_rtit_multi_cr3_0_match := 0
  ia32_rtit_multi_cr3_1_match := 0
  ia32_rtit_multi_cr3_2_match := 0
  ia32_rtit_multi_cr3_3_match := 0
  ia32_rtit_multi_cr3_num := 0
  multi_cr3_enabled := false
  topa_pt_region := 0
  ia32_rtit_output_base := 0
  ia32_rtit_output_mask_ptrs := 0
  ia32_rtit_output_base_init := 0
  ia32_rtit_output_mask_ptrs_init := 0
  topa_main_buf_virt_addr := 0
  topa_main_buf := fun _ => 0
  topa_fallback_buf_virt_addr := 0
  topa_fallback_buf := fun _ => 0
  topa_virt_addr := 0
  configured := false
  cpu := 0
  reset := false
  state_change_pending := false
  state := false

/-- Source `vmx_pt_setup`: the `int` returned and the session handed to the vCPU
(`none` is the NULL pointer). -/
def vmx_pt_setup (enabled : Bool) (pa : Nat → Nat) (main_buffer fallback_buffer topa : Nat) :
    Int × Option vcpu_vmx_pt :=
  if enabled then
    let cfg := { vcpu_vmx_pt_zero with configured := false }
    let cfg := vmx_pt_setup_msrs cfg
    let (ret_val, cfg) := vmx_pt_setup_topa pa main_buffer fallback_buffer topa cfg
    let cfg := { cfg with state_change_pending := false, state := false }
    if ret_val ≠ 0 then (ret_val, none)
    else (0, some cfg)
  else (0, none)

/-! ## Sequential runs of a trace session -/

/-- One event in the life of a session: a control command, one of the two hooks of a
guest-execution slice (with the core it runs on), one of the two toggle hooks, or the
core changing its trace registers while the guest runs. -/
inductive pt_event where
  | ioctl (cmd : pt_ioctl_cmd)
  | vmentry (smp_processor_id : Nat)
  | vmexit
  | toggle_entry
  | toggle_exit
  | guest (hw : pt_msrs)

/-- A session together with the trace registers of the core. -/
structure pt_machine where
  hw : pt_msrs
  pt : vcpu_vmx_pt

/-- The effect of one event, with tracing supported (`enabled` set by the probe). -/
def pt_step (supported_addrn : Nat) (m : pt_machine) (e : pt_event) : pt_machine :=
  match e with
  | .ioctl cmd => { m with pt := (vmx_pt_ioctl supported_addrn cmd m.pt).2 }
  | .vmentry cpu =>
    let (hw, pt) := vmx_pt_vmentry true cpu m.hw m.pt
    { hw := hw, pt := pt }
  | .vmexit => { m with pt := vmx_pt_vmexit true m.hw m.pt }
  | .toggle_entry => { m with pt := vmx_pt_toggle_entry m.pt }
  | .toggle_exit => { m with pt := vmx_pt_toggle_exit m.pt }
  | .guest hw => { m with hw := hw }

/-- The machine after a sequence of events. -/
def pt_run (supported_addrn : Nat) (m : pt_machine) (es : List pt_event) : pt_machine :=
  es.foldl (pt_step supported_addrn) m

/-- The four phases of the enable/disable state machine. -/
inductive pt_phase where
  | IDLE
  | ENABLE_PENDING
  | TRACING
  | DISABLE_PENDING
  deriving DecidableEq

/-- The phase a triple `(configured, state_change_pending, state)` stands for, if any. -/
def phase_of (vmx_pt : vcpu_vmx_pt) : Option pt_phase :=
  match vmx_pt.configured, vmx_pt.state_change_pending, vmx_pt.state with
  | false, false, false => some .IDLE
  | false, true, true => some .ENABLE_PENDING
  | true, false, true => some .TRACING
  | true, true, false => some .DISABLE_PENDING
  | _, _, _ => none

/-- Filter range `n` of a session (`ia32_rtit_addr_n`). -/
def addr_range (n : Fin 4) (vmx_pt : vcpu_vmx_pt) : Nat × Nat :=
  match n with
  | 0 => vmx_pt.ia32_rtit_addr_0
  | 1 => vmx_pt.ia32_rtit_addr_1
  | 2 => vmx_pt.ia32_rtit_addr_2
  | 3 => vmx_pt.ia32_rtit_addr_3

/-- The command `KVM_VMX_PT_CONFIGURE_ADDRn`. -/
def CONFIGURE_ADDR (n : Fin 4) (argp : Option vmx_pt_filter_iprs) : pt_ioctl_cmd :=
  match n with
  | 0 => .KVM_VMX_PT_CONFIGURE_ADDR0 argp
  | 1 => .KVM_VMX_PT_CONFIGURE_ADDR1 argp
  | 2 => .KVM_VMX_PT_CONFIGURE_ADDR2 argp
  | 3 => .KVM_VMX_PT_CONFIGURE_ADDR3 argp

/-- The command `KVM_VMX_PT_ENABLE_ADDRn`. -/
def ENABLE_ADDR (n : Fin 4) : pt_ioctl_cmd :=
  match n with
  | 0 => .KVM_VMX_PT_ENABLE_ADDR0
  | 1 => .KVM_VMX_PT_ENABLE_ADDR1
  | 2 => .KVM_VMX_PT_ENABLE_ADDR2
  | 3 => .KVM_VMX_PT_ENABLE_ADDR3

/-- The command `KVM_VMX_PT_DISABLE_ADDRn`. -/
def DISABLE_ADDR (n : Fin 4) : pt_ioctl_cmd :=
  match n with
  | 0 => .KVM_VMX_PT_DISABLE_ADDR0
  | 1 => .KVM_VMX_PT_DISABLE_ADDR1
  | 2 => .KVM_VMX_PT_DISABLE_ADDR2
  | 3 => .KVM_VMX_PT_DISABLE_ADDR3

/-- The commands that change the filter configuration: the claim of the locked
configuration is about exactly these. -/
def is_config_cmd (cmd : pt_ioctl_cmd) : Bool :=
  match cmd with
  | .KVM_VMX_PT_CONFIGURE_ADDR0 _ | .KVM_VMX_PT_CONFIGURE_ADDR1 _
  | .KVM_VMX_PT_CONFIGURE_ADDR2 _ | .KVM_VMX_PT_CONFIGURE_ADDR3 _
  | .KVM_VMX_PT_ENABLE_ADDR0 | .KVM_VMX_PT_ENABLE_ADDR1
  | .KVM_VMX_PT_ENABLE_ADDR2 | .KVM_VMX_PT_ENABLE_ADDR3
  | .KVM_VMX_PT_DISABLE_ADDR0 | .KVM_VMX_PT_DISABLE_ADDR1
  | .KVM_VMX_PT_DISABLE_ADDR2 | .KVM_VMX_PT_DISABLE_ADDR3
  | .KVM_VMX_PT_CONFIGURE_CR3 _ | .KVM_VMX_PT_ENABLE_CR3 | .KVM_VMX_PT_DISABLE_CR3
  | .KVM_VMX_PT_CONFIGURE_MULTI_CR3 _ | .KVM_VMX_PT_ENABLE_MULTI_CR3
  | .KVM_VMX_PT_DISABLE_MULTI_CR3 => true
  | _ => false

/-! ## Constants, macros and data model of vmx_fdl.c -/

/-- Source macro `FAST_IN_RANGE(address, start, end)`. -/
def FAST_IN_RANGE (address start end_ : Nat) : Bool :=
  decide (address < end_) && decide (address ≥ start)

/-- Source macro `PAGE_ALIGNED_SIZE(x)`, in 64-bit arithmetic. -/
def PAGE_ALIGNED_SIZE (x : Nat) : Nat := (x + (0x1000 - (x % 0x1000))) % 2 ^ 64

/-- Source macro `FDL_BITMAP_SIZE(x)`. -/
def FDL_BITMAP_SIZE (x : Nat) : Nat := (x / 0x1000) / 8

/-- Source macro `FDL_STACK_SIZE(x)`, with `sizeof(uint64_t) = 8`, in 64-bit arithmetic. -/
def FDL_STACK_SIZE (x : Nat) : Nat := ((x / 0x1000) * 8) % 2 ^ 64

def FDL_MAX_AREAS : Nat := 8

/-- User-visible `struct fdl_area`. -/
structure fdl_area where
  base_address : Nat
  size : Nat
  mmap_bitmap_offset : Nat
  mmap_stack_offset : Nat
  mmap_bitmap_size : Nat
  mmap_stack_size : Nat

/-- User-visible `struct fdl_conf`.  The array `areas[FDL_MAX_AREAS]` is a map from the
index; indices from 8 on lie outside the C array. -/
structure fdl_conf where
  num : Nat
  mmap_size : Nat
  areas : Nat → fdl_area

/-- User-visible `struct fdl_result`. -/
structure fdl_result where
  num : Nat
  values : Nat → Nat

/-- Kernel `struct vmx_fdl_area`.  The pointers `stack` and `bitmap` are byte offsets
into the allocated buffer (`alloc_buf + offset`). -/
structure vmx_fdl_area where
  base : Nat
  size : Nat
  stack : Nat
  bitmap : Nat
  stack_max : Nat
  stack_index : Nat

/-- Kernel `struct vm_vmx_fdl`.  `alloc_buf` is `none` for NULL and otherwise the bytes
of the buffer by offset; `areas` is a map from the index, indices from 8 on lying
outside the C array. -/
structure vm_vmx_fdl where
  configured : Bool
  alloc_buf : Option (Nat → Nat)
  total_alloc_size : Nat
  num_areas : Nat
  areas : Nat → vmx_fdl_area

/-! ## Memory accesses of the dirty-page logger -/

/-- Kernel `test_and_set_bit_le(nr, addr)` on a little-endian machine: bit `nr % 8` of
the byte at `addr + nr / 8`.  Returns the old bit and the memory with the bit set. -/
def test_and_set_bit_le (nr addr : Nat) (mem : Nat → Nat) : Bool × (Nat → Nat) :=
  let byte := mem (addr + nr / 8)
  (byte.testBit (nr % 8), Function.update mem (addr + nr / 8) (byte ||| (1 <<< (nr % 8))))

/-- Bit `nr` of the bitmap at byte offset `addr`, as `test_bit_le` reads it. -/
def test_bit_le (nr addr : Nat) (mem : Nat → Nat) : Bool :=
  (mem (addr + nr / 8)).testBit (nr % 8)

/-- A 64-bit little-endian store of `v` at byte offset `p`. -/
def store64 (mem : Nat → Nat) (p v : Nat) : Nat → Nat :=
  fun q => if p ≤ q ∧ q < p + 8 then (v >>> (8 * (q - p))) % 256 else mem q

/-- A 64-bit little-endian load at byte offset `p`. -/
def load64 (mem : Nat → Nat) (p : Nat) : Nat :=
  mem p + mem (p + 1) * 2 ^ 8 + mem (p + 2) * 2 ^ 16 + mem (p + 3) * 2 ^ 24
    + mem (p + 4) * 2 ^ 32 + mem (p + 5) * 2 ^ 40 + mem (p + 6) * 2 ^ 48 + mem (p + 7) * 2 ^ 56

/-! ## Operations of vmx_fdl.c -/

/-- The range test of `vmx_fdl_set_addr` for one area:
`FAST_IN_RANGE(gpfn, base, base + (size - 1ULL))`, in 64-bit arithmetic. -/
def area_in_range (gpfn : Nat) (area : vmx_fdl_area) : Bool :=
  FAST_IN_RANGE gpfn area.base ((area.base + ((area.size + 2 ^ 64 - 1) % 2 ^ 64)) % 2 ^ 64)

/-- The `switch` of `vmx_fdl_set_addr` with its fall-through chain: the value of
`ram_area` after it.  `sw` is `FDL_MAX_AREAS - data->num_areas`, an `int`. -/
def vmx_fdl_ram_area (data : vm_vmx_fdl) (gpfn : Nat) : Nat :=
  let sw : Int := (FDL_MAX_AREAS : Int) - (data.num_areas : Int)
  let ram_area : Nat := 0xff
  let ram_area := if sw = 0 then
      (if area_in_range gpfn (data.areas 7) then 7 else ram_area) else ram_area
  let ram_area := if 0 ≤ sw ∧ sw ≤ 1 then
      (if area_in_range gpfn (data.areas 6) then 6 else ram_area) else ram_area
  let ram_area := if 0 ≤ sw ∧ sw ≤ 2 then
      (if area_in_range gpfn (data.areas 5) then 5 else ram_area) else ram_area
  let ram_area := if 0 ≤ sw ∧ sw ≤ 3 then
      (if area_in_range gpfn (data.areas 4) then 4 else ram_area) else ram_area
  let ram_area := if 0 ≤ sw ∧ sw ≤ 4 then
      (if area_in_range gpfn (data.areas 3) then 3 else ram_area) else ram_area
  let ram_area := if 0 ≤ sw ∧ sw ≤ 5 then
      (if area_in_range gpfn (data.areas 2) then 2 else ram_area) else ram_area
  let ram_area := if 0 ≤ sw ∧ sw ≤ 6 then
      (if area_in_range gpfn (data.areas 1) then 1 else ram_area) else ram_area
  let ram_area := if 0 ≤ sw ∧ sw ≤ 7 then
      (if area_in_range gpfn (data.areas 0) then 0 else ram_area) else ram_area
  ram_area

/-- Source `vmx_fdl_set_addr`.  The subtraction `gpfn - area->base` is taken after the
range test has established `gpfn >= base`, so it does not wrap. -/
def vmx_fdl_set_addr (data : vm_vmx_fdl) (gpfn : Nat) : vm_vmx_fdl :=
  match data.alloc_buf with
  | none => data
  | some buf =>
    let ram_area := vmx_fdl_ram_area data gpfn
    if ram_area = 0xff then data
    else
      let area := data.areas ram_area
      let (old, buf1) := test_and_set_bit_le ((gpfn - area.base) >>> 12) area.bitmap buf
      if !old then
        if area.stack_index ≥ area.stack_max then
          { data with alloc_buf := some buf1 }
        else
          { data with
            alloc_buf := some (store64 buf1 (area.stack + 8 * area.stack_index) gpfn)
            areas := Function.update data.areas ram_area
              { area with stack_index := area.stack_index + 1 } }
      else { data with alloc_buf := some buf1 }

/-- Source `vmx_fdl_set_addr_kvm`; `slot_dirty` says whether the memory slot of the
address exists and has a dirty bitmap (`gfn_to_memslot` belongs to the platform). -/
def vmx_fdl_set_addr_kvm (slot_dirty : Bool) (fdl_data : vm_vmx_fdl) (gpa : Nat) : vm_vmx_fdl :=
  if slot_dirty then vmx_fdl_set_addr fdl_data (gpa &&& 0xFFFFFFFFFFFFF000)
  else fdl_data

/-- The body of the first loop of `vmx_fdl_realloc_memory`, for index `i`. -/
def realloc_area (st : vm_vmx_fdl × fdl_conf) (i : Nat) : vm_vmx_fdl × fdl_conf :=
  let data := st.1
  let configuration := st.2
  let size := (configuration.areas i).size
  let area : vmx_fdl_area :=
    { data.areas i with
      base := (configuration.areas i).base_address
      size := size
      stack_index := 0
      stack_max := size / 0x1000 }
  let mmap_bitmap_offset := data.total_alloc_size
  let mmap_bitmap_size := PAGE_ALIGNED_SIZE (FDL_BITMAP_SIZE size)
  let total1 := (data.total_alloc_size + mmap_bitmap_size) % 2 ^ 64
  let mmap_stack_offset := total1
  let mmap_stack_size := PAGE_ALIGNED_SIZE (FDL_STACK_SIZE size)
  let total2 := (total1 + mmap_stack_size) % 2 ^ 64
  ({ data with
     areas := Function.update data.areas i area
     total_alloc_size := total2
     num_areas := data.num_areas + 1 },
   { configuration with
     areas := Function.update configuration.areas i
       { configuration.areas i with
         mmap_bitmap_offset := mmap_bitmap_offset
         mmap_bitmap_size := mmap_bitmap_size
         mmap_stack_offset := mmap_stack_offset
         mmap_stack_size := mmap_stack_size } })

/-- The body of the second loop of `vmx_fdl_realloc_memory`, for index `i`. -/
def realloc_pointers (configuration : fdl_conf) (data : vm_vmx_fdl) (i : Nat) : vm_vmx_fdl :=
  { data with
    areas := Function.update data.areas i
      { data.areas i with
        bitmap := (configuration.areas i).mmap_bitmap_offset
        stack := (configuration.areas i).mmap_stack_offset } }

/-- Source `vmx_fdl_realloc_memory`.  `arg` is the configuration read by
`copy_from_user` (`none` when that fails; `num` is a `uint8_t`), `writable` says
whether `copy_to_user` succeeds; `vmalloc` is taken to succeed.  Returns the result,
the session, and the configuration written back to the caller, if any. -/
def vmx_fdl_realloc_memory (data : vm_vmx_fdl) (arg : Option fdl_conf) (writable : Bool) :
    Int × vm_vmx_fdl × Option fdl_conf :=
  let r : Int := -EINVAL
  if data.configured then (r, data, none)
  else
    match arg with
    | none => (r, data, none)
    | some configuration =>
      let data := { data with num_areas := 0, total_alloc_size := 0 }
      if configuration.num ≠ 0 then
        let st := (List.range configuration.num).foldl realloc_area (data, configuration)
        let data := st.1
        let configuration := st.2
        let data := { data with alloc_buf := some (fun _ => 0) }
        let data := (List.range data.num_areas).foldl (realloc_pointers configuration) data
        let configuration := { configuration with mmap_size := data.total_alloc_size }
        let data := { data with configured := true }
        if writable then (0, data, some configuration)
        else (r, data, none)
      else (r, data, none)

/-- The body of the loop of `vmx_fdl_get_index`, for index `i`. -/
def get_index_area (st : vm_vmx_fdl × fdl_result) (i : Nat) : vm_vmx_fdl × fdl_result :=
  let data := st.1
  let result := st.2
  ({ data with areas := Function.update data.areas i { data.areas i with stack_index := 0 } },
   { result with values := Function.update result.values i (data.areas i).stack_index })

/-- Source `vmx_fdl_get_index`.  `result0` is the uninitialised local `result`,
`writable` says whether `copy_to_user` succeeds.  Returns the result, the session, and
the counts written to the caller, if any. -/
def vmx_fdl_get_index (data : vm_vmx_fdl) (result0 : fdl_result) (writable : Bool) :
    Int × vm_vmx_fdl × Option fdl_result :=
  let r : Int := -EINVAL
  if data.configured then
    let result := { result0 with num := data.num_areas }
    let st := (List.range result.num).foldl get_index_area (data, result)
    if writable then (0, st.1, some st.2)
    else (r, st.1, none)
  else (r, data, none)

/-- Source `vmx_fdl_flush`. -/
def vmx_fdl_flush (data : vm_vmx_fdl) : Int × vm_vmx_fdl :=
  let r : Int := -EINVAL
  if data.configured then
    (0, (List.range data.num_areas).foldl
      (fun d i => { d with areas := Function.update d.areas i { d.areas i with stack_index := 0 } })
      data)
  else (r, data)

/-- The commands of `vmx_fdl_ioctl`, each with what the call reads from or needs of the
caller. -/
inductive fdl_ioctl_cmd where
  | KVM_VMX_FDL_SET (arg : Option fdl_conf) (writable : Bool)
  | KVM_VMX_FDL_FLUSH
  | KVM_VMX_FDL_GET_INDEX (result0 : fdl_result) (writable : Bool)
  | OTHER (nr : Nat)

/-- Source `vmx_fdl_ioctl`, for a non-NULL session: the result, the session, and what
was written back to the caller (a configuration or the counts), if anything. -/
def vmx_fdl_ioctl (ioctl : fdl_ioctl_cmd) (data : vm_vmx_fdl) :
    Int × vm_vmx_fdl × Option fdl_conf × Option fdl_result :=
  let r : Int := -EINVAL
  match ioctl with
  | .KVM_VMX_FDL_SET arg writable =>
    let res := vmx_fdl_realloc_memory data arg writable
    (res.1, res.2.1, res.2.2, none)
  | .KVM_VMX_FDL_FLUSH =>
    (0, (vmx_fdl_flush data).2, none, none)
  | .KVM_VMX_FDL_GET_INDEX result0 writable =>
    let res := vmx_fdl_get_index data result0 writable
    (res.1, res.2.1, none, res.2.2)
  | .OTHER _ => (r, data, none, none)

/-- The session after `vmx_fdl_setup`: `memset` to zero, `configured = false`. -/
def vmx_fdl_setup : vm_vmx_fdl where
  configured := false
  alloc_buf := none
  total_alloc_size := 0
  num_areas := 0
  areas := fun _ => ⟨0, 0, 0, 0, 0, 0⟩

/-- Recording the same address `k` times. -/
def vmx_fdl_set_addr_times (k : Nat) (gpfn : Nat) (data : vm_vmx_fdl) : vm_vmx_fdl :=
  (fun d => vmx_fdl_set_addr d gpfn)^[k] data

/-- Recording a sequence of addresses, first to last. -/
def vmx_fdl_record (data : vm_vmx_fdl) (gpfns : List Nat) : vm_vmx_fdl :=
  gpfns.foldl vmx_fdl_set_addr data

/-- The distinct elements of a list in the order of their first occurrence. -/
def first_touch (l : List Nat) : List Nat :=
  l.foldl (fun acc p => if p ∈ acc then acc else acc ++ [p]) []

/-- A configuration request for the regions `(base, size)` listed, in order. -/
def fdl_conf_of (regions : List (Nat × Nat)) : fdl_conf where
  num := regions.length
  mmap_size := 0
  areas := fun i => ⟨(regions.getD i (0, 0)).1, (regions.getD i (0, 0)).2, 0, 0, 0, 0⟩

/-! ## Concrete sessions used to evaluate the trace engine -/

/-- The identity translation, standing for `__pa` in concrete runs. -/
def pa_id (x : Nat) : Nat := x

/-- Registers of a core that has not traced yet. -/
def pt_msrs_zero : pt_msrs :=
  ⟨0, 0, 0, 0, 0, 0, 0, 0, 0, 0, 0, 0⟩

/-- The session `vmx_pt_setup` builds when the three allocations return the pages at
0x100000, 0x600000 and 0x700000. -/
def pt_session0 : vcpu_vmx_pt :=
  (vmx_pt_setup_topa pa_id 0x100000 0x600000 0x700000
    (vmx_pt_setup_msrs vcpu_vmx_pt_zero)).2

/-- A session in ENABLE_PENDING: the post-setup session after one ENABLE. -/
def pt_session_enable_pending : vcpu_vmx_pt :=
  (vmx_pt_ioctl 2 .KVM_VMX_PT_ENABLE pt_session0).2

/-- A session in TRACING whose output offset the core has advanced to 0x1234 bytes of
the main extent. -/
def pt_session_tracing : vcpu_vmx_pt :=
  (pt_run 2 ⟨pt_msrs_zero, pt_session0⟩
    [.ioctl .KVM_VMX_PT_ENABLE, .vmentry 0,
     .guest { pt_msrs_zero with rtit_output_base := 0x700000,
                                rtit_output_mask_ptrs := 0x123400000000 ||| 0x7f },
     .vmexit]).pt

/-- The events that take the post-setup session to DISABLE_PENDING with 0x1234 bytes
traced into the main extent. -/
def pt_events_to_disable_pending : List pt_event :=
  [.ioctl .KVM_VMX_PT_ENABLE, .vmentry 0,
   .guest { pt_msrs_zero with rtit_output_base := 0x700000,
                              rtit_output_mask_ptrs := 0x123400000000 ||| 0x7f },
   .vmexit, .ioctl .KVM_VMX_PT_DISABLE]

/-! ## Layout of the dirty-log buffer, stated independently of the loops -/

/-- The byte offset at which region `i` starts in the buffer when the regions of
`configuration` are laid out bitmap-then-log in order. -/
def fdl_off (configuration : fdl_conf) : Nat → Nat
  | 0 => 0
  | i + 1 =>
    fdl_off configuration i
      + PAGE_ALIGNED_SIZE (FDL_BITMAP_SIZE (configuration.areas i).size)
      + PAGE_ALIGNED_SIZE (FDL_STACK_SIZE (configuration.areas i).size)

/-- The session a successful `KVM_VMX_FDL_SET` leaves behind. -/
def fdl_fresh (data : vm_vmx_fdl) (configuration : fdl_conf) : vm_vmx_fdl :=
  (vmx_fdl_realloc_memory data (some configuration) true).2.1

/-- The log of region `i` as the consumer reads it: slots `[0, stack_index)`. -/
def fdl_log (data : vm_vmx_fdl) (i : Nat) : List Nat :=
  match data.alloc_buf with
  | none => []
  | some buf =>
    (List.range (data.areas i).stack_index).map
      (fun k => load64 buf ((data.areas i).stack + 8 * k))

/-- Bit `nr` of the bitmap of region `i`. -/
def fdl_bit (data : vm_vmx_fdl) (i nr : Nat) : Bool :=
  match data.alloc_buf with
  | none => false
  | some buf => test_bit_le nr (data.areas i).bitmap buf

/-- The layout a configured session keeps: between one and eight areas, a buffer, and
for every area a slot limit of `size / 4096`, at most that many entries, the log
right behind the bitmap, and the areas one after the other in the buffer. -/
def fdl_layout (d : vm_vmx_fdl) : Prop :=
  1 ≤ d.num_areas ∧ d.num_areas ≤ 8 ∧ (∃ buf, d.alloc_buf = some buf) ∧
  (∀ i, i < d.num_areas →
    (d.areas i).size < 2 ^ 64 ∧
    (d.areas i).stack_max = (d.areas i).size / 0x1000 ∧
    (d.areas i).stack_index ≤ (d.areas i).stack_max ∧
    (d.areas i).stack
      = (d.areas i).bitmap + PAGE_ALIGNED_SIZE (FDL_BITMAP_SIZE (d.areas i).size)) ∧
  (∀ i j, i < j → j < d.num_areas →
    (d.areas i).stack + PAGE_ALIGNED_SIZE (FDL_STACK_SIZE (d.areas i).size)
      ≤ (d.areas j).bitmap)

/-- The addresses of a sequence that lie inside region `j` of a configuration, in the
order of the sequence. -/
def fdl_touched (configuration : fdl_conf) (j : Nat) (l : List Nat) : List Nat :=
  l.filter (fun p => decide ((configuration.areas j).base_address ≤ p ∧
    p < (configuration.areas j).base_address + (configuration.areas j).size))

/-! ## Concrete sessions used to evaluate the dirty-page logger -/

/-- Two regions that cover the same page `[0x1000, 0x2000)`. -/
def fdl_conf_overlap : fdl_conf := fdl_conf_of [(0x1000, 0x1000), (0x1000, 0x1000)]

/-- One region of one page size whose base is not page-aligned: `[1, 0x1001)`. -/
def fdl_conf_unaligned : fdl_conf := fdl_conf_of [(1, 0x1000)]

/-- Region A `[0x100000, 0x140000)` and region B `[0x200000, 0x240000)`, 64 pages each. -/
def fdl_conf_two : fdl_conf := fdl_conf_of [(0x100000, 0x40000), (0x200000, 0x40000)]

/-- A guest slice that writes 30 pages of region A, page 7 of A two more times, and 20
pages of region B. -/
def fdl_slice : List Nat :=
  (List.range 30).map (fun i => 0x100000 + 0x1000 * i) ++ [0x107000, 0x107000]
    ++ (List.range 20).map (fun i => 0x200000 + 0x1000 * i)

/-! ## Further notions used by the theorems -/

/-- The number of IP-filter ranges enabled in a control-flag value: how many of the
enable bits 32, 36, 40, 44 are set. -/
def enabled_ranges (ctrl : Nat) : Nat :=
  ((List.range 4).filter (fun n => ctrl.testBit (32 + 4 * n))).length

/-- A session in TRACING whose output offset selects the fallback extent, 0x20 bytes
into it (table offset 8, the second entry of the table). -/
def pt_session_fallback : vcpu_vmx_pt :=
  (pt_run 2 ⟨pt_msrs_zero, pt_session0⟩
    [.ioctl .KVM_VMX_PT_ENABLE, .vmentry 0,
     .guest { pt_msrs_zero with rtit_output_base := 0x700000,
                                rtit_output_mask_ptrs := 0x2000000000 ||| 0xff },
     .vmexit]).pt

/-- The events that take the post-setup session to TRACING with the fallback extent
selected, 0x20 bytes into it. -/
def pt_events_to_fallback : List pt_event :=
  [.ioctl .KVM_VMX_PT_ENABLE, .vmentry 0,
   .guest { pt_msrs_zero with rtit_output_base := 0x700000,
                              rtit_output_mask_ptrs := 0x2000000000 ||| 0xff },
   .vmexit]

/-- The events that take the post-setup session to TRACING with 0x1234 bytes traced
into the main extent. -/
def pt_events_to_tracing : List pt_event :=
  [.ioctl .KVM_VMX_PT_ENABLE, .vmentry 0,
   .guest { pt_msrs_zero with rtit_output_base := 0x700000,
                              rtit_output_mask_ptrs := 0x123400000000 ||| 0x7f },
   .vmexit]

/-- The capacity invariant of the control flags: an enable bit that is set belongs to
a range whose index is below the probed count `supported_addrn`. -/
def addr_bits_ok (supported_addrn : Nat) (ctrl : Nat) : Prop :=
  ∀ n, n < 4 → ctrl.testBit (32 + 4 * n) = true → n < supported_addrn

/-- The commands of the test program: configure and enable the ranges 0 and 1. -/
def pt_events_two_filters : List pt_event :=
  [.ioctl (.KVM_VMX_PT_CONFIGURE_ADDR0 (some ⟨0x1000, 0x100a⟩)),
   .ioctl .KVM_VMX_PT_ENABLE_ADDR0,
   .ioctl (.KVM_VMX_PT_CONFIGURE_ADDR1 (some ⟨0x1017, 0x200a⟩)),
   .ioctl .KVM_VMX_PT_ENABLE_ADDR1]

/-- A configuration request for nine regions of one page each, at 0x100000, 0x200000,
up to 0x900000. -/
def fdl_conf_nine : fdl_conf :=
  fdl_conf_of ((List.range 9).map (fun i => (0x100000 * (i + 1), 0x1000)))


/-! ## Notions and concrete runs for the CR3 filter and the disable command -/

/-- The two CR3 filter modes are not both switched on: the CR3-filter control flag
(`ia32_rtit_ctrl_msr & CR3_FILTER`) and `multi_cr3_enabled` are not both set. -/
def cr3_modes_exclusive (s : vcpu_vmx_pt) : Prop :=
  ¬ (s.ia32_rtit_ctrl_msr &&& CR3_FILTER ≠ 0 ∧ s.multi_cr3_enabled = true)

/-- Commands that switch on single-CR3 filtering and then ask for multi-CR3 filtering. -/
def pt_events_cr3_then_multi : List pt_event :=
  [.ioctl (.KVM_VMX_PT_CONFIGURE_CR3 0x5000),
   .ioctl .KVM_VMX_PT_ENABLE_CR3,
   .ioctl (.KVM_VMX_PT_CONFIGURE_MULTI_CR3 (some ⟨0x1000, 0x2000, 0x3000, 0x4000, 4⟩)),
   .ioctl .KVM_VMX_PT_ENABLE_MULTI_CR3]

/-- Commands that configure the CR3 value 0x5000, switch on CR3 filtering, and then
configure the CR3 value 0. -/
def pt_events_cr3_zero : List pt_event :=
  [.ioctl (.KVM_VMX_PT_CONFIGURE_CR3 0x5000),
   .ioctl .KVM_VMX_PT_ENABLE_CR3,
   .ioctl (.KVM_VMX_PT_CONFIGURE_CR3 0)]

/-- The session in DISABLE_PENDING reached by `pt_events_to_disable_pending`. -/
def pt_session_disable_pending : vcpu_vmx_pt :=
  (pt_run 2 ⟨pt_msrs_zero, pt_session0⟩ pt_events_to_disable_pending).pt

/-- The run of `pt_events_cr3_zero` followed by `ENABLE` and a guest entry on core 0,
on a core whose `IA32_RTIT_CR3_MATCH` register holds 0xdead000. -/
def pt_machine_cr3_zero_tracing : pt_machine :=
  pt_run 2 ⟨{ pt_msrs_zero with cr3_match := 0xdead000 }, pt_session0⟩
    (pt_events_cr3_zero ++ [.ioctl .KVM_VMX_PT_ENABLE, .vmentry 0])

/-! ## Sequential runs of a dirty-log session -/

/-- One operation on a dirty-log session: the recorder called for a guest physical
address (`vmx_fdl_set_addr_kvm`, with whether the memory slot has a dirty bitmap), or a
control command. -/
inductive fdl_event where
  | record (slot_dirty : Bool) (gpa : Nat)
  | ioctl (cmd : fdl_ioctl_cmd)

/-- The session after one operation. -/
def fdl_step (d : vm_vmx_fdl) (e : fdl_event) : vm_vmx_fdl :=
  match e with
  | .record slot_dirty gpa => vmx_fdl_set_addr_kvm slot_dirty d gpa
  | .ioctl cmd => (vmx_fdl_ioctl cmd d).2.1

/-- The session after a sequence of operations. -/
def fdl_run (d : vm_vmx_fdl) (es : List fdl_event) : vm_vmx_fdl :=
  es.foldl fdl_step d

/-- Whether a call of `vmx_fdl_set_addr` takes the branch that prints
"ERROR stack_max reached": the address is attributed to an area, its bit was clear, and
`area->stack_index >= area->stack_max`. -/
def stack_max_reached (data : vm_vmx_fdl) (gpfn : Nat) : Bool :=
  match data.alloc_buf with
  | none => false
  | some buf =>
    let ram_area := vmx_fdl_ram_area data gpfn
    if ram_area = 0xff then false
    else
      let area := data.areas ram_area
      let (old, _) := test_and_set_bit_le ((gpfn - area.base) >>> 12) area.bitmap buf
      !old && decide (area.stack_index ≥ area.stack_max)

/-- Whether a call of `vmx_fdl_set_addr_kvm` reaches that branch. -/
def stack_max_reached_kvm (slot_dirty : Bool) (fdl_data : vm_vmx_fdl) (gpa : Nat) : Bool :=
  slot_dirty && stack_max_reached fdl_data (gpa &&& 0xFFFFFFFFFFFFF000)

/-- The commands that reset the log lengths: `KVM_VMX_FDL_GET_INDEX` and
`KVM_VMX_FDL_FLUSH`. -/
def is_reset_cmd (cmd : fdl_ioctl_cmd) : Bool :=
  match cmd with
  | .KVM_VMX_FDL_GET_INDEX _ _ | .KVM_VMX_FDL_FLUSH => true
  | _ => false

/-- Slot `k` of the log of region `i`: the 64-bit value stored at `stack[k]`. -/
def fdl_slot (data : vm_vmx_fdl) (i k : Nat) : Nat :=
  match data.alloc_buf with
  | none => 0
  | some buf => load64 buf ((data.areas i).stack + 8 * k)

/-- The number of set bits among the bits `[0, size / 4096)` of the bitmap of region `j`. -/
def fdl_count (d : vm_vmx_fdl) (j : Nat) : Nat :=
  ((Finset.range ((d.areas j).size / 0x1000)).filter (fun nr => fdl_bit d j nr = true)).card

/-- The invariant of a configured session whose regions have a positive size that is a
multiple of the page size: the configured layout, and in every region no more log
entries than set bits. -/
def fdl_inv (d : vm_vmx_fdl) : Prop :=
  fdl_layout d ∧ d.configured = true ∧
  (∀ j, j < d.num_areas →
    (d.areas j).base < 2 ^ 64 ∧ 0 < (d.areas j).size ∧ (d.areas j).size % 0x1000 = 0) ∧
  (∀ j, j < d.num_areas → (d.areas j).stack_index ≤ fdl_count d j)

/-- The session with the log length of every region below `k` set to zero. -/
def fdl_reset_lengths (data : vm_vmx_fdl) (k : Nat) : vm_vmx_fdl :=
  { data with areas := fun i =>
      if i < k then { data.areas i with stack_index := 0 } else data.areas i }

/-- A slice that writes pages 3 and 5 of region A and page 1 of region B of
`fdl_conf_two`, reads and resets the counts, and writes page 3 of region A again. -/
def fdl_events_reset : List fdl_event :=
  [.record true 0x103010, .record true 0x105ff8, .record true 0x201000,
   .ioctl (.KVM_VMX_FDL_GET_INDEX ⟨0, fun _ => 0⟩ true), .record true 0x103020]

/-! ## Theorems: trace filter configuration -/

theorem range_check_true {a b : Nat} (hab : a < b)
    (ha : ¬ (0x0000800000000000 ≤ a ∧ a < 0xffff800000000000))
    (hb : ¬ (0x0000800000000000 ≤ b ∧ b < 0xffff800000000000)) :
    range_check a b = true := by
  unfold range_check X64_48_BIT_HOLE_START X64_48_BIT_HOLE_END
  have h1 : ¬ (a = b ∨ a > b) := by omega
  simp only [h1, if_false, ge_iff_le]
  rw [if_neg ha, if_neg hb]

theorem range_check_false {a b : Nat}
    (h : a = b ∨ a > b ∨ (0x0000800000000000 ≤ a ∧ a < 0xffff800000000000)
      ∨ (0x0000800000000000 ≤ b ∧ b < 0xffff800000000000)) :
    range_check a b = false := by
  unfold range_check X64_48_BIT_HOLE_START X64_48_BIT_HOLE_END
  by_cases h1 : a = b ∨ a > b
  · simp [h1]
  · rw [if_neg h1]
    by_cases h2 : (0x0000800000000000 ≤ a ∧ a < 0xffff800000000000)
    · simp only [ge_iff_le]; rw [if_pos h2]
    · simp only [ge_iff_le]; rw [if_neg h2]
      have h3 : (0x0000800000000000 ≤ b ∧ b < 0xffff800000000000) := by tauto
      rw [if_pos h3]

/-- Claim C3: in an unlocked session whose probed filter capacity exceeds `n`,
`CONFIGURE_FILTER[n](a,b)` with `a < b` and both endpoints outside the reserved hole
returns success and stores `(a,b)` as range `n`; the following `ENABLE_FILTER[n]`
returns success, sets bit `32+4n` of the control flags and changes no other bit. -/
theorem C3_configure_then_enable_filter (supported_addrn : Nat) (n : Fin 4) (a b : Nat)
    (s : vcpu_vmx_pt) (hab : a < b)
    (ha : ¬ (0x0000800000000000 ≤ a ∧ a < 0xffff800000000000))
    (hb : ¬ (0x0000800000000000 ≤ b ∧ b < 0xffff800000000000))
    (hunlocked : s.configured = false) (hcap : n.val < supported_addrn) :
    let r1 := vmx_pt_ioctl supported_addrn (CONFIGURE_ADDR n (some ⟨a, b⟩)) s
    let r2 := vmx_pt_ioctl supported_addrn (ENABLE_ADDR n) r1.2
    r1.1 = 0 ∧ addr_range n r1.2 = (a, b) ∧ r2.1 = 0 ∧
    r2.2.ia32_rtit_ctrl_msr.testBit (32 + 4 * n.val) = true ∧
    ∀ j, j ≠ 32 + 4 * n.val →
      r2.2.ia32_rtit_ctrl_msr.testBit j = s.ia32_rtit_ctrl_msr.testBit j := by
  have hrc := range_check_true hab ha hb
  fin_cases n
  · have h1 : supported_addrn ≥ 1 := by simpa using hcap
    simp [vmx_pt_ioctl, CONFIGURE_ADDR, ENABLE_ADDR, addr_range, hunlocked, hrc, h1,
      ADDR0_EN, BIT_ULL, -Nat.reducePow]
    intro j hj hbit
    rw [Nat.testBit_two_pow_of_ne (fun h => hj h.symm)] at hbit
    cases hbit
  · have h1 : supported_addrn ≥ 2 := by simpa using hcap
    simp [vmx_pt_ioctl, CONFIGURE_ADDR, ENABLE_ADDR, addr_range, hunlocked, hrc, h1,
      ADDR1_EN, BIT_ULL, -Nat.reducePow]
    intro j hj hbit
    rw [Nat.testBit_two_pow_of_ne (fun h => hj h.symm)] at hbit
    cases hbit
  · have h1 : supported_addrn ≥ 3 := by simpa using hcap
    simp [vmx_pt_ioctl, CONFIGURE_ADDR, ENABLE_ADDR, addr_range, hunlocked, hrc, h1,
      ADDR2_EN, BIT_ULL, -Nat.reducePow]
    intro j hj hbit
    rw [Nat.testBit_two_pow_of_ne (fun h => hj h.symm)] at hbit
    cases hbit
  · have h1 : supported_addrn ≥ 4 := by simpa using hcap
    simp [vmx_pt_ioctl, CONFIGURE_ADDR, ENABLE_ADDR, addr_range, hunlocked, hrc, h1,
      ADDR3_EN, BIT_ULL, -Nat.reducePow]
    intro j hj hbit
    rw [Nat.testBit_two_pow_of_ne (fun h => hj h.symm)] at hbit
    cases hbit

theorem C3_configure_then_enable_filter_witness :
    (vmx_pt_ioctl 2 (CONFIGURE_ADDR 0 (some ⟨0x1000, 0x100a⟩)) pt_session0).1 = 0 ∧
    addr_range 0 (vmx_pt_ioctl 2 (CONFIGURE_ADDR 0 (some ⟨0x1000, 0x100a⟩)) pt_session0).2
      = (0x1000, 0x100a) ∧
    (vmx_pt_ioctl 2 (ENABLE_ADDR 0)
      (vmx_pt_ioctl 2 (CONFIGURE_ADDR 0 (some ⟨0x1000, 0x100a⟩)) pt_session0).2).1 = 0 :=
  have h := C3_configure_then_enable_filter 2 0 0x1000 0x100a pt_session0 (by decide)
    (by decide) (by decide) rfl (by decide)
  ⟨h.1, h.2.1, h.2.2.1⟩

/-- Claim C4: `CONFIGURE_FILTER[n](a,b)` with `a = b`, `a > b`, or an endpoint inside
the reserved hole returns the invalid-operation result and leaves the whole session
unchanged, in every session state and for every probed capacity. -/
theorem C4_configure_filter_invalid_range (supported_addrn : Nat) (n : Fin 4) (a b : Nat)
    (s : vcpu_vmx_pt)
    (h : a = b ∨ a > b ∨ (0x0000800000000000 ≤ a ∧ a < 0xffff800000000000)
      ∨ (0x0000800000000000 ≤ b ∧ b < 0xffff800000000000)) :
    vmx_pt_ioctl supported_addrn (CONFIGURE_ADDR n (some ⟨a, b⟩)) s = (-22, s) := by
  have hrc := range_check_false h
  fin_cases n <;> simp [vmx_pt_ioctl, CONFIGURE_ADDR, hrc, EINVAL]

theorem C4_configure_filter_invalid_range_witness :
    vmx_pt_ioctl 2 (CONFIGURE_ADDR 1 (some ⟨0x0000800000000000, 0x0000800000001000⟩))
      pt_session0 = (-22, pt_session0) :=
  C4_configure_filter_invalid_range 2 1 0x0000800000000000 0x0000800000001000 pt_session0
    (Or.inr (Or.inr (Or.inl (by decide))))

/-- Claim C5: in a session whose configuration is locked (`configured = true`), each of
the filter, CR3 and multi-CR3 configure/enable/disable commands returns the
invalid-operation result for every argument and leaves the session unchanged, so no
filter range, range-configured flag, CR3 or multi-CR3 value or count, or control flag
changes. -/
theorem C5_locked_configuration_is_immutable (supported_addrn : Nat) (cmd : pt_ioctl_cmd)
    (s : vcpu_vmx_pt) (hlocked : s.configured = true) (hcmd : is_config_cmd cmd = true) :
    vmx_pt_ioctl supported_addrn cmd s = (-22, s) := by
  cases cmd <;> simp [is_config_cmd] at hcmd <;> simp [vmx_pt_ioctl, hlocked, EINVAL]

theorem C5_locked_configuration_is_immutable_witness :
    vmx_pt_ioctl 2 (.KVM_VMX_PT_CONFIGURE_CR3 0x5000) pt_session_tracing
      = (-22, pt_session_tracing) :=
  C5_locked_configuration_is_immutable 2 (.KVM_VMX_PT_CONFIGURE_CR3 0x5000) pt_session_tracing
    rfl rfl

theorem setup_post {pa : Nat → Nat} {main_buffer fallback_buffer topa : Nat} {s0 : vcpu_vmx_pt}
    (h : (vmx_pt_setup true pa main_buffer fallback_buffer topa).2 = some s0) :
    s0.configured = false ∧ s0.state_change_pending = false ∧ s0.state = false ∧
    s0.ia32_rtit_output_mask_ptrs_init = 0x7f ∧ s0.ia32_rtit_output_mask_ptrs = 0x7f ∧
    s0.ia32_rtit_output_base_init = s0.ia32_rtit_output_base := by
  unfold vmx_pt_setup vmx_pt_setup_topa at h
  by_cases h1 : main_buffer = 0
  · simp [h1, ENOMEM] at h
  · by_cases h2 : fallback_buffer = 0
    · simp [h1, h2, ENOMEM] at h
    · by_cases h3 : topa = 0
      · simp [h1, h2, h3, ENOMEM] at h
      · simp [h1, h2, h3] at h
        subst h
        simp [vmx_pt_setup_msrs, vcpu_vmx_pt_zero]

theorem get_data_size_frame (s : vcpu_vmx_pt) :
    (vmx_pt_get_data_size s).2.configured = s.configured ∧
    (vmx_pt_get_data_size s).2.state_change_pending = s.state_change_pending ∧
    (vmx_pt_get_data_size s).2.state = s.state ∧
    (vmx_pt_get_data_size s).2.ia32_rtit_output_base = s.ia32_rtit_output_base ∧
    (vmx_pt_get_data_size s).2.ia32_rtit_output_mask_ptrs = s.ia32_rtit_output_mask_ptrs ∧
    (vmx_pt_get_data_size s).2.ia32_rtit_output_base_init = s.ia32_rtit_output_base_init ∧
    (vmx_pt_get_data_size s).2.ia32_rtit_output_mask_ptrs_init = s.ia32_rtit_output_mask_ptrs_init := by
  unfold vmx_pt_get_data_size
  simp only
  split_ifs <;> simp

theorem check_overflow_frame (s : vcpu_vmx_pt) :
    (vmx_pt_check_overflow s).2.configured = s.configured ∧
    (vmx_pt_check_overflow s).2.state_change_pending = s.state_change_pending ∧
    (vmx_pt_check_overflow s).2.state = s.state ∧
    (vmx_pt_check_overflow s).2.ia32_rtit_output_base_init = s.ia32_rtit_output_base_init ∧
    (vmx_pt_check_overflow s).2.ia32_rtit_output_mask_ptrs_init = s.ia32_rtit_output_mask_ptrs_init := by
  have h := get_data_size_frame s
  unfold vmx_pt_check_overflow
  simp only
  split_ifs <;> simp [topa_reset, h]

/-- The fields a control command never touches. -/
theorem ioctl_frame (sa : Nat) (cmd : pt_ioctl_cmd) (s : vcpu_vmx_pt) :
    (vmx_pt_ioctl sa cmd s).2.configured = s.configured ∧
    (vmx_pt_ioctl sa cmd s).2.ia32_rtit_output_base_init = s.ia32_rtit_output_base_init ∧
    (vmx_pt_ioctl sa cmd s).2.ia32_rtit_output_mask_ptrs_init = s.ia32_rtit_output_mask_ptrs_init := by
  have h1 := get_data_size_frame s
  have h2 := check_overflow_frame s
  cases cmd <;> simp only [vmx_pt_ioctl] <;> (try split_ifs) <;> (try split) <;> (try split_ifs) <;> simp [h1, h2]


theorem phase_of_congr {s t : vcpu_vmx_pt} (h1 : t.configured = s.configured)
    (h2 : t.state_change_pending = s.state_change_pending) (h3 : t.state = s.state) :
    phase_of t = phase_of s := by
  unfold phase_of
  rw [h1, h2, h3]

/-- Every command other than ENABLE and DISABLE leaves the three flags alone. -/
theorem ioctl_flags (sa : Nat) (cmd : pt_ioctl_cmd) (s : vcpu_vmx_pt)
    (he : cmd ≠ .KVM_VMX_PT_ENABLE) (hd : cmd ≠ .KVM_VMX_PT_DISABLE) :
    (vmx_pt_ioctl sa cmd s).2.state_change_pending = s.state_change_pending ∧
    (vmx_pt_ioctl sa cmd s).2.state = s.state := by
  have h1 := get_data_size_frame s
  have h2 := check_overflow_frame s
  cases cmd <;> first
    | exact absurd rfl he
    | exact absurd rfl hd
    | (simp only [vmx_pt_ioctl]; (try split_ifs) <;> (try split) <;> (try split_ifs) <;>
        simp [h1, h2])

theorem autoload_flags (s : vcpu_vmx_pt) (b : Bool) :
    (vmx_pt_setup_vmx_autoload_msr s b).configured = s.configured ∧
    (vmx_pt_setup_vmx_autoload_msr s b).state_change_pending = s.state_change_pending ∧
    (vmx_pt_setup_vmx_autoload_msr s b).state = s.state ∧
    (vmx_pt_setup_vmx_autoload_msr s b).ia32_rtit_output_base = s.ia32_rtit_output_base ∧
    (vmx_pt_setup_vmx_autoload_msr s b).ia32_rtit_output_mask_ptrs = s.ia32_rtit_output_mask_ptrs ∧
    (vmx_pt_setup_vmx_autoload_msr s b).ia32_rtit_output_base_init = s.ia32_rtit_output_base_init ∧
    (vmx_pt_setup_vmx_autoload_msr s b).ia32_rtit_output_mask_ptrs_init
      = s.ia32_rtit_output_mask_ptrs_init := by
  unfold vmx_pt_setup_vmx_autoload_msr
  cases b <;> simp

/-- What the entry hook does to the three flags and to the output registers. -/
theorem vmentry_flags (cpu : Nat) (hw : pt_msrs) (s : vcpu_vmx_pt) :
    let t := (vmx_pt_vmentry true cpu hw s).2
    (s.state_change_pending = false →
      t.configured = s.configured ∧ t.state = s.state ∧ t.state_change_pending = false ∧
      t.ia32_rtit_output_base = s.ia32_rtit_output_base ∧
      t.ia32_rtit_output_mask_ptrs = s.ia32_rtit_output_mask_ptrs) ∧
    (s.state_change_pending = true → s.state = true →
      t.configured = true ∧ t.state = true ∧ t.state_change_pending = false ∧
      t.ia32_rtit_output_base = s.ia32_rtit_output_base ∧
      t.ia32_rtit_output_mask_ptrs = s.ia32_rtit_output_mask_ptrs) ∧
    (s.state_change_pending = true → s.state = false → s.configured = true →
      t.configured = false ∧ t.state = false ∧ t.state_change_pending = false ∧
      t.ia32_rtit_output_base = s.ia32_rtit_output_base_init ∧
      t.ia32_rtit_output_mask_ptrs = s.ia32_rtit_output_mask_ptrs_init) ∧
    (s.state_change_pending = true → s.state = false → s.configured = false →
      t.configured = false ∧ t.state = false ∧ t.state_change_pending = false ∧
      t.ia32_rtit_output_base = s.ia32_rtit_output_base ∧
      t.ia32_rtit_output_mask_ptrs = s.ia32_rtit_output_mask_ptrs) ∧
    t.ia32_rtit_output_base_init = s.ia32_rtit_output_base_init ∧
    t.ia32_rtit_output_mask_ptrs_init = s.ia32_rtit_output_mask_ptrs_init := by
  cases hc : s.configured <;> cases hp : s.state_change_pending <;> cases hs : s.state <;>
    simp [vmx_pt_vmentry, vmx_pt_enable, vmx_pt_disable, topa_reset, hc, hp, hs,
      vmx_pt_setup_vmx_autoload_msr]


theorem ioctl_enable_eq (sa : Nat) (s : vcpu_vmx_pt) :
    vmx_pt_ioctl sa .KVM_VMX_PT_ENABLE s =
      (0, if !s.configured then
            if !s.state_change_pending then
              { s with state_change_pending := true, state := true } else s
          else s) := by
  cases hc : s.configured <;> cases hp : s.state_change_pending <;> simp [vmx_pt_ioctl, hc, hp]

/-- One event either keeps the phase or performs one of the four transitions. -/
theorem step_phase (sa : Nat) (m : pt_machine) (e : pt_event) (h : phase_of m.pt ≠ none) :
    phase_of (pt_step sa m e).pt ≠ none ∧
    (phase_of (pt_step sa m e).pt = phase_of m.pt ∨
     (phase_of m.pt = some .IDLE ∧ e = .ioctl .KVM_VMX_PT_ENABLE ∧
        phase_of (pt_step sa m e).pt = some .ENABLE_PENDING) ∨
     (phase_of m.pt = some .ENABLE_PENDING ∧ (∃ cpu, e = .vmentry cpu) ∧
        phase_of (pt_step sa m e).pt = some .TRACING) ∨
     (phase_of m.pt = some .TRACING ∧ e = .ioctl .KVM_VMX_PT_DISABLE ∧
        phase_of (pt_step sa m e).pt = some .DISABLE_PENDING) ∨
     (phase_of m.pt = some .DISABLE_PENDING ∧ (∃ cpu, e = .vmentry cpu) ∧
        phase_of (pt_step sa m e).pt = some .IDLE)) := by
  cases e with
  | ioctl cmd =>
    by_cases he : cmd = .KVM_VMX_PT_ENABLE
    · subst he
      simp only [pt_step, ioctl_enable_eq]
      cases hc : m.pt.configured <;> cases hp : m.pt.state_change_pending <;>
        cases hs : m.pt.state <;> simp [phase_of, hc, hp, hs] at h ⊢
    · by_cases hd : cmd = .KVM_VMX_PT_DISABLE
      · subst hd
        have hf := get_data_size_frame m.pt
        cases hc : m.pt.configured <;> cases hp : m.pt.state_change_pending <;>
          cases hs : m.pt.state <;>
          simp [phase_of, hc, hp, hs, pt_step, vmx_pt_ioctl, hf] at h ⊢
      · have h1 := ioctl_flags sa cmd m.pt he hd
        have h2 := ioctl_frame sa cmd m.pt
        have h3 : phase_of (pt_step sa m (.ioctl cmd)).pt = phase_of m.pt :=
          phase_of_congr h2.1 h1.1 h1.2
        rw [h3]
        exact ⟨h, Or.inl rfl⟩
  | vmentry cpu =>
    have hv := vmentry_flags cpu m.hw m.pt
    simp only at hv
    obtain ⟨hv1, hv2, hv3, hv4, -, -⟩ := hv
    have hstep : (pt_step sa m (.vmentry cpu)).pt = (vmx_pt_vmentry true cpu m.hw m.pt).2 := rfl
    rw [hstep]
    cases hc : m.pt.configured <;> cases hp : m.pt.state_change_pending <;>
      cases hs : m.pt.state <;> simp [phase_of, hc, hp, hs] at h hv1 hv2 hv3 hv4 ⊢ <;>
      simp [*]
  | vmexit =>
    have h3 : phase_of (pt_step sa m .vmexit).pt = phase_of m.pt := by
      apply phase_of_congr <;> simp only [pt_step, vmx_pt_vmexit] <;> split_ifs <;> rfl
    rw [h3]
    exact ⟨h, Or.inl rfl⟩
  | toggle_entry =>
    have ha := autoload_flags m.pt false
    have h3 : phase_of (pt_step sa m .toggle_entry).pt = phase_of m.pt := by
      apply phase_of_congr <;> simp only [pt_step, vmx_pt_toggle_entry] <;> split_ifs <;>
        simp [ha]
    rw [h3]
    exact ⟨h, Or.inl rfl⟩
  | toggle_exit =>
    have ha := autoload_flags m.pt true
    have h3 : phase_of (pt_step sa m .toggle_exit).pt = phase_of m.pt := by
      apply phase_of_congr <;> simp only [pt_step, vmx_pt_toggle_exit] <;> split_ifs <;>
        simp [ha]
    rw [h3]
    exact ⟨h, Or.inl rfl⟩
  | guest hw => exact ⟨h, Or.inl rfl⟩

theorem run_snoc (sa : Nat) (m : pt_machine) (es : List pt_event) (e : pt_event) :
    pt_run sa m (es ++ [e]) = pt_step sa (pt_run sa m es) e := by
  simp [pt_run, List.foldl_append]

theorem run_phase (sa : Nat) (m : pt_machine) (es : List pt_event) (h : phase_of m.pt ≠ none) :
    phase_of (pt_run sa m es).pt ≠ none := by
  induction es using List.reverseRecOn with
  | nil => exact h
  | append_singleton es e ih =>
    rw [run_snoc]
    exact (step_phase sa _ e ih).1


theorem phase_of_ne_none_iff (s : vcpu_vmx_pt) :
    phase_of s ≠ none ↔
      ((s.configured, s.state_change_pending, s.state) = (false, false, false) ∨
       (s.configured, s.state_change_pending, s.state) = (false, true, true) ∨
       (s.configured, s.state_change_pending, s.state) = (true, false, true) ∨
       (s.configured, s.state_change_pending, s.state) = (true, true, false)) := by
  cases hc : s.configured <;> cases hp : s.state_change_pending <;> cases hs : s.state <;>
    simp [phase_of, hc, hp, hs]

/-- Claim C6: in every state reachable from the post-setup state by control commands and
hooks (tracing supported), the triple `(configured, state_change_pending, state)` is one
of the four combinations IDLE, ENABLE_PENDING, TRACING, DISABLE_PENDING, each of which is
reached; this is the same as `state_change_pending = state XOR configured`; and one
further event either keeps the phase or is one of IDLE to ENABLE_PENDING by ENABLE,
ENABLE_PENDING to TRACING by the entry hook, TRACING to DISABLE_PENDING by DISABLE,
DISABLE_PENDING to IDLE by the entry hook. -/
theorem C6_phase_state_machine (supported_addrn : Nat) (pa : Nat → Nat)
    (main_buffer fallback_buffer topa : Nat) (s0 : vcpu_vmx_pt) (hw0 : pt_msrs)
    (es : List pt_event) (e : pt_event)
    (hsetup : (vmx_pt_setup true pa main_buffer fallback_buffer topa).2 = some s0) :
    let m := pt_run supported_addrn ⟨hw0, s0⟩ es
    let m' := pt_step supported_addrn m e
    ((m.pt.configured, m.pt.state_change_pending, m.pt.state) = (false, false, false) ∨
     (m.pt.configured, m.pt.state_change_pending, m.pt.state) = (false, true, true) ∨
     (m.pt.configured, m.pt.state_change_pending, m.pt.state) = (true, false, true) ∨
     (m.pt.configured, m.pt.state_change_pending, m.pt.state) = (true, true, false)) ∧
    m.pt.state_change_pending = xor m.pt.state m.pt.configured ∧
    (∀ c p st : Bool,
      ((c, p, st) = (false, false, false) ∨ (c, p, st) = (false, true, true) ∨
       (c, p, st) = (true, false, true) ∨ (c, p, st) = (true, true, false)) ↔ p = xor st c) ∧
    (phase_of m'.pt = phase_of m.pt ∨
     (phase_of m.pt = some .IDLE ∧ e = .ioctl .KVM_VMX_PT_ENABLE ∧
        phase_of m'.pt = some .ENABLE_PENDING) ∨
     (phase_of m.pt = some .ENABLE_PENDING ∧ (∃ cpu, e = .vmentry cpu) ∧
        phase_of m'.pt = some .TRACING) ∨
     (phase_of m.pt = some .TRACING ∧ e = .ioctl .KVM_VMX_PT_DISABLE ∧
        phase_of m'.pt = some .DISABLE_PENDING) ∨
     (phase_of m.pt = some .DISABLE_PENDING ∧ (∃ cpu, e = .vmentry cpu) ∧
        phase_of m'.pt = some .IDLE)) ∧
    (∀ p : pt_phase, ∃ es1, phase_of (pt_run supported_addrn ⟨hw0, s0⟩ es1).pt = some p) := by
  intro m m'
  obtain ⟨hc0, hp0, hs0, -, -, -⟩ := setup_post hsetup
  have h0 : phase_of (⟨hw0, s0⟩ : pt_machine).pt ≠ none := by simp [phase_of, hc0, hp0, hs0]
  have hm : phase_of m.pt ≠ none := run_phase supported_addrn _ es h0
  have hcombo := (phase_of_ne_none_iff m.pt).1 hm
  refine ⟨hcombo, ?_, by decide, (step_phase supported_addrn m e hm).2, ?_⟩
  · rcases hcombo with h | h | h | h <;> simp only [Prod.mk.injEq] at h <;>
      simp [h.1, h.2.1, h.2.2]
  · have hf := get_data_size_frame
    intro p
    cases p
    · exact ⟨[], by simp [pt_run, phase_of, hc0, hp0, hs0]⟩
    · exact ⟨[.ioctl .KVM_VMX_PT_ENABLE],
        by simp [pt_run, pt_step, ioctl_enable_eq, phase_of, hc0, hp0, hs0]⟩
    · exact ⟨[.ioctl .KVM_VMX_PT_ENABLE, .vmentry 0],
        by simp [pt_run, pt_step, ioctl_enable_eq, phase_of, hc0, hp0, hs0, vmx_pt_vmentry,
          vmx_pt_enable, vmx_pt_setup_vmx_autoload_msr]⟩
    · exact ⟨[.ioctl .KVM_VMX_PT_ENABLE, .vmentry 0, .ioctl .KVM_VMX_PT_DISABLE],
        by simp [pt_run, pt_step, ioctl_enable_eq, phase_of, hc0, hp0, hs0, vmx_pt_vmentry,
          vmx_pt_enable, vmx_pt_setup_vmx_autoload_msr, vmx_pt_ioctl, hf]⟩

theorem pt_session0_setup :
    (vmx_pt_setup true pa_id 0x100000 0x600000 0x700000).2 = some pt_session0 := rfl

theorem C6_phase_state_machine_witness :
    (pt_run 2 ⟨pt_msrs_zero, pt_session0⟩
        [.ioctl .KVM_VMX_PT_ENABLE, .vmentry 0]).pt.state_change_pending
      = xor (pt_run 2 ⟨pt_msrs_zero, pt_session0⟩
              [.ioctl .KVM_VMX_PT_ENABLE, .vmentry 0]).pt.state
            (pt_run 2 ⟨pt_msrs_zero, pt_session0⟩
              [.ioctl .KVM_VMX_PT_ENABLE, .vmentry 0]).pt.configured :=
  (C6_phase_state_machine 2 pa_id 0x100000 0x600000 0x700000 pt_session0 pt_msrs_zero
    [.ioctl .KVM_VMX_PT_ENABLE, .vmentry 0] .vmexit pt_session0_setup).2.1

/-- Claim C7: from an IDLE session (unlocked, no transition pending) ENABLE returns
success, sets `state` and `state_change_pending` and leaves `configured` false; the next
entry hook sets `configured` and clears `state_change_pending`; and after the matching
exit hook, whatever the core wrote meanwhile, the session is in TRACING. -/
theorem C7_enable_then_entry_exit (supported_addrn cpu : Nat) (hw hw1 : pt_msrs)
    (s : vcpu_vmx_pt) (hunlocked : s.configured = false)
    (hnopending : s.state_change_pending = false) :
    let r := vmx_pt_ioctl supported_addrn .KVM_VMX_PT_ENABLE s
    let s1 := (vmx_pt_vmentry true cpu hw r.2).2
    let s2 := vmx_pt_vmexit true hw1 s1
    r.1 = 0 ∧ r.2.state = true ∧ r.2.state_change_pending = true ∧ r.2.configured = false ∧
    s1.configured = true ∧ s1.state_change_pending = false ∧
    s2.configured = true ∧ s2.state_change_pending = false ∧ s2.state = true ∧
    phase_of s2 = some .TRACING := by
  simp [ioctl_enable_eq, hunlocked, hnopending, vmx_pt_vmentry, vmx_pt_enable,
    vmx_pt_setup_vmx_autoload_msr, vmx_pt_vmexit, phase_of]

theorem C7_enable_then_entry_exit_witness :
    (vmx_pt_ioctl 2 .KVM_VMX_PT_ENABLE pt_session0).1 = 0 ∧
    phase_of (vmx_pt_vmexit true pt_msrs_zero
      (vmx_pt_vmentry true 0 pt_msrs_zero
        (vmx_pt_ioctl 2 .KVM_VMX_PT_ENABLE pt_session0).2).2) = some .TRACING :=
  have h := C7_enable_then_entry_exit 2 0 pt_msrs_zero pt_msrs_zero pt_session0 rfl rfl
  ⟨h.1, h.2.2.2.2.2.2.2.2.2⟩

/-- Claim C8, evaluated on the code: ENABLE returns 0, the success result, in every
session, in particular when a transition is already pending (the session
`pt_session_enable_pending`); the invalid-operation result the claim states is assigned
and then overwritten. -/
theorem C8_enable_while_pending_returns_success :
    pt_session_enable_pending.state_change_pending = true ∧
    (vmx_pt_ioctl 2 .KVM_VMX_PT_ENABLE pt_session_enable_pending).1 = 0 ∧
    ¬ (vmx_pt_ioctl 2 .KVM_VMX_PT_ENABLE pt_session_enable_pending).1 < 0 ∧
    ∀ (supported_addrn : Nat) (s : vcpu_vmx_pt),
      (vmx_pt_ioctl supported_addrn .KVM_VMX_PT_ENABLE s).1 = 0 := by
  refine ⟨rfl, ?_, ?_, fun sa s => by rw [ioctl_enable_eq]⟩
  · rw [ioctl_enable_eq]
  · rw [ioctl_enable_eq]; decide

/-- Claim C9: in a locked session with no transition pending (TRACING), DISABLE returns
the size `vmx_pt_get_data_size` computes from the output offset at the time of the
request, sets `state_change_pending`, clears `state`, and leaves the locked flag and
the output base and output offset as they are; the unlock and the reset of the output
registers to their initial values happen in the next entry hook. -/
theorem C9_disable_returns_current_size (supported_addrn cpu : Nat) (hw : pt_msrs)
    (s : vcpu_vmx_pt) (hlocked : s.configured = true)
    (hnopending : s.state_change_pending = false) :
    let r := vmx_pt_ioctl supported_addrn .KVM_VMX_PT_DISABLE s
    let s1 := (vmx_pt_vmentry true cpu hw r.2).2
    r.1 = (vmx_pt_get_data_size s).1 ∧
    r.2.state_change_pending = true ∧ r.2.state = false ∧
    r.2.configured = true ∧
    r.2.ia32_rtit_output_base = s.ia32_rtit_output_base ∧
    r.2.ia32_rtit_output_mask_ptrs = s.ia32_rtit_output_mask_ptrs ∧
    s1.configured = false ∧
    s1.ia32_rtit_output_base = s.ia32_rtit_output_base_init ∧
    s1.ia32_rtit_output_mask_ptrs = s.ia32_rtit_output_mask_ptrs_init := by
  have hf := get_data_size_frame s
  simp [vmx_pt_ioctl, hlocked, hnopending, hf, vmx_pt_vmentry, vmx_pt_disable, topa_reset,
    vmx_pt_setup_vmx_autoload_msr]

theorem C9_disable_returns_current_size_witness :
    (vmx_pt_ioctl 2 .KVM_VMX_PT_DISABLE pt_session_tracing).1 = 0x1234 ∧
    (vmx_pt_ioctl 2 .KVM_VMX_PT_DISABLE pt_session_tracing).2.ia32_rtit_output_mask_ptrs
      = 0x12340000007f :=
  have h := C9_disable_returns_current_size 2 0 pt_msrs_zero pt_session_tracing rfl rfl
  ⟨h.1.trans (by decide), h.2.2.2.2.2.1.trans (by decide)⟩


/-- No event changes the recorded initial values of the output registers. -/
theorem step_init (sa : Nat) (m : pt_machine) (e : pt_event) :
    (pt_step sa m e).pt.ia32_rtit_output_base_init = m.pt.ia32_rtit_output_base_init ∧
    (pt_step sa m e).pt.ia32_rtit_output_mask_ptrs_init
      = m.pt.ia32_rtit_output_mask_ptrs_init := by
  cases e with
  | ioctl cmd => exact (ioctl_frame sa cmd m.pt).2
  | vmentry cpu =>
    have hv := vmentry_flags cpu m.hw m.pt
    exact hv.2.2.2.2
  | vmexit => constructor <;> simp only [pt_step, vmx_pt_vmexit] <;> split_ifs <;> rfl
  | toggle_entry =>
    have ha := autoload_flags m.pt false
    constructor <;> simp only [pt_step, vmx_pt_toggle_entry] <;> split_ifs <;> simp [ha]
  | toggle_exit =>
    have ha := autoload_flags m.pt true
    constructor <;> simp only [pt_step, vmx_pt_toggle_exit] <;> split_ifs <;> simp [ha]
  | guest hw => exact ⟨rfl, rfl⟩

theorem run_init (sa : Nat) (m : pt_machine) (es : List pt_event) :
    (pt_run sa m es).pt.ia32_rtit_output_base_init = m.pt.ia32_rtit_output_base_init ∧
    (pt_run sa m es).pt.ia32_rtit_output_mask_ptrs_init
      = m.pt.ia32_rtit_output_mask_ptrs_init := by
  induction es using List.reverseRecOn with
  | nil => exact ⟨rfl, rfl⟩
  | append_singleton es e ih =>
    rw [run_snoc]
    have h := step_init sa (pt_run sa m es) e
    exact ⟨h.1.trans ih.1, h.2.trans ih.2⟩

theorem get_data_size_of_init (s : vcpu_vmx_pt) (h : s.ia32_rtit_output_mask_ptrs = 0x7f) :
    (vmx_pt_get_data_size s).1 = 0 := by
  unfold vmx_pt_get_data_size
  simp only [h]
  rw [if_neg (by decide)]
  show toInt32 (127 >>> 32) = 0
  decide

/-- Claim C10: in a session reached from the post-setup state that is in DISABLE_PENDING
(`configured`, `state_change_pending`, not `state`), the entry hook clears
`state_change_pending`, unlocks the configuration and restores output base and output
offset to the values they had after setup, so that `vmx_pt_get_data_size` then gives 0;
and in every session with no pending transition the entry hook changes none of
`configured`, `state`, `state_change_pending`. -/
theorem C10_entry_hook_applies_disable (supported_addrn : Nat) (pa : Nat → Nat)
    (main_buffer fallback_buffer topa : Nat) (s0 : vcpu_vmx_pt) (hw0 : pt_msrs)
    (es : List pt_event) (cpu : Nat)
    (hsetup : (vmx_pt_setup true pa main_buffer fallback_buffer topa).2 = some s0) :
    let m := pt_run supported_addrn ⟨hw0, s0⟩ es
    let s1 := (vmx_pt_vmentry true cpu m.hw m.pt).2
    (m.pt.configured = true ∧ m.pt.state_change_pending = true ∧ m.pt.state = false →
      s1.state_change_pending = false ∧ s1.configured = false ∧
      s1.ia32_rtit_output_base = s0.ia32_rtit_output_base ∧
      s1.ia32_rtit_output_mask_ptrs = s0.ia32_rtit_output_mask_ptrs ∧
      (vmx_pt_get_data_size s1).1 = 0) ∧
    (∀ (hw : pt_msrs) (s : vcpu_vmx_pt), s.state_change_pending = false →
      (vmx_pt_vmentry true cpu hw s).2.configured = s.configured ∧
      (vmx_pt_vmentry true cpu hw s).2.state = s.state ∧
      (vmx_pt_vmentry true cpu hw s).2.state_change_pending = s.state_change_pending) := by
  intro m s1
  obtain ⟨-, -, -, hmi, hm0, hbi⟩ := setup_post hsetup
  have hinit := run_init supported_addrn ⟨hw0, s0⟩ es
  constructor
  · rintro ⟨hc, hp, hs⟩
    have hv := (vmentry_flags cpu m.hw m.pt).2.2.1 hp hs hc
    have hmask : s1.ia32_rtit_output_mask_ptrs = s0.ia32_rtit_output_mask_ptrs := by
      rw [hv.2.2.2.2, hinit.2, hm0]; exact hmi
    refine ⟨hv.2.2.1, hv.1, ?_, hmask, ?_⟩
    · rw [hv.2.2.2.1, hinit.1]; exact hbi
    · exact get_data_size_of_init s1 (hmask.trans hm0)
  · intro hw s hp
    have hv := (vmentry_flags cpu hw s).1 hp
    exact ⟨hv.1, hv.2.1, hv.2.2.1.trans hp.symm⟩

theorem C10_entry_hook_applies_disable_witness :
    phase_of (pt_run 2 ⟨pt_msrs_zero, pt_session0⟩ pt_events_to_disable_pending).pt
      = some .DISABLE_PENDING ∧
    (pt_run 2 ⟨pt_msrs_zero, pt_session0⟩
      pt_events_to_disable_pending).pt.ia32_rtit_output_mask_ptrs = 0x12340000007f ∧
    (vmx_pt_vmentry true 0
      (pt_run 2 ⟨pt_msrs_zero, pt_session0⟩ pt_events_to_disable_pending).hw
      (pt_run 2 ⟨pt_msrs_zero, pt_session0⟩
        pt_events_to_disable_pending).pt).2.ia32_rtit_output_mask_ptrs = 0x7f :=
  have h := (C10_entry_hook_applies_disable 2 pa_id 0x100000 0x600000 0x700000 pt_session0
    pt_msrs_zero pt_events_to_disable_pending 0 pt_session0_setup).1 ⟨rfl, rfl, rfl⟩
  ⟨by decide, by decide, h.2.2.2.1.trans (by decide)⟩

/-! ## Theorems: memory accesses -/

theorem PAGE_ALIGNED_SIZE_eq {x : Nat} (h : x < 2 ^ 63) :
    PAGE_ALIGNED_SIZE x = x + (0x1000 - x % 0x1000) := by
  unfold PAGE_ALIGNED_SIZE
  apply Nat.mod_eq_of_lt
  omega

theorem bitmap_size_bounds {size : Nat} (h : size < 2 ^ 64) :
    size / 0x1000 < 8 * PAGE_ALIGNED_SIZE (FDL_BITMAP_SIZE size) ∧
    PAGE_ALIGNED_SIZE (FDL_BITMAP_SIZE size) ≤ 2 ^ 50 ∧
    PAGE_ALIGNED_SIZE (FDL_BITMAP_SIZE size) % 0x1000 = 0 := by
  have h1 : FDL_BITMAP_SIZE size < 2 ^ 63 := by unfold FDL_BITMAP_SIZE; omega
  rw [PAGE_ALIGNED_SIZE_eq h1]
  unfold FDL_BITMAP_SIZE
  omega

theorem stack_size_bounds {size : Nat} (h : size < 2 ^ 64) :
    8 * (size / 0x1000) < PAGE_ALIGNED_SIZE (FDL_STACK_SIZE size) ∧
    PAGE_ALIGNED_SIZE (FDL_STACK_SIZE size) ≤ 2 ^ 56 ∧
    PAGE_ALIGNED_SIZE (FDL_STACK_SIZE size) % 0x1000 = 0 := by
  have h0 : FDL_STACK_SIZE size = size / 0x1000 * 8 := by
    unfold FDL_STACK_SIZE
    apply Nat.mod_eq_of_lt
    omega
  have h1 : FDL_STACK_SIZE size < 2 ^ 63 := by rw [h0]; omega
  rw [PAGE_ALIGNED_SIZE_eq h1, h0]
  omega

theorem testBit_one_shiftLeft (k j : Nat) : (1 <<< k).testBit j = decide (k = j) := by
  rw [Nat.one_shiftLeft, Nat.testBit_two_pow]

theorem or_bit_of_testBit {b k : Nat} (h : b.testBit k = true) : b ||| (1 <<< k) = b := by
  apply Nat.eq_of_testBit_eq
  intro j
  rw [Nat.testBit_or, testBit_one_shiftLeft]
  by_cases hj : k = j
  · subst hj; simp [h]
  · simp [hj]

theorem test_and_set_old (nr addr : Nat) (mem : Nat → Nat) :
    (test_and_set_bit_le nr addr mem).1 = test_bit_le nr addr mem := rfl

theorem test_and_set_of_set {nr addr : Nat} {mem : Nat → Nat}
    (h : test_bit_le nr addr mem = true) : (test_and_set_bit_le nr addr mem).2 = mem := by
  unfold test_and_set_bit_le
  unfold test_bit_le at h
  simp only
  rw [or_bit_of_testBit h]
  exact Function.update_eq_self _ _

theorem test_bit_after_set (nr addr nr1 addr1 : Nat) (mem : Nat → Nat) :
    test_bit_le nr1 addr1 (test_and_set_bit_le nr addr mem).2 =
      (test_bit_le nr1 addr1 mem || decide (addr1 + nr1 / 8 = addr + nr / 8 ∧ nr1 % 8 = nr % 8)) := by
  unfold test_bit_le test_and_set_bit_le
  simp only
  by_cases hb : addr1 + nr1 / 8 = addr + nr / 8
  · rw [hb, Function.update_same, Nat.testBit_or, testBit_one_shiftLeft]
    by_cases hk : nr1 % 8 = nr % 8
    · simp [hk]
    · have hk1 : ¬ nr % 8 = nr1 % 8 := fun h => hk h.symm
      simp [hk, hk1]
  · rw [Function.update_noteq hb]
    simp [hb]

theorem store64_outside (mem : Nat → Nat) (p v q : Nat) (h : q < p ∨ p + 8 ≤ q) :
    store64 mem p v q = mem q := by
  unfold store64
  rw [if_neg]
  omega

theorem load64_store64_same (mem : Nat → Nat) (p v : Nat) (hv : v < 2 ^ 64) :
    load64 (store64 mem p v) p = v := by
  unfold load64 store64
  simp only [Nat.shiftRight_eq_div_pow]
  have e0 : (p ≤ p ∧ p < p + 8) := by omega
  have e1 : (p ≤ p + 1 ∧ p + 1 < p + 8) := by omega
  have e2 : (p ≤ p + 2 ∧ p + 2 < p + 8) := by omega
  have e3 : (p ≤ p + 3 ∧ p + 3 < p + 8) := by omega
  have e4 : (p ≤ p + 4 ∧ p + 4 < p + 8) := by omega
  have e5 : (p ≤ p + 5 ∧ p + 5 < p + 8) := by omega
  have e6 : (p ≤ p + 6 ∧ p + 6 < p + 8) := by omega
  have e7 : (p ≤ p + 7 ∧ p + 7 < p + 8) := by omega
  rw [if_pos e0, if_pos e1, if_pos e2, if_pos e3, if_pos e4, if_pos e5, if_pos e6, if_pos e7]
  simp only [Nat.sub_self, Nat.add_sub_cancel_left]
  norm_num
  omega

theorem load64_congr {mem1 mem2 : Nat → Nat} {q : Nat}
    (h : ∀ x, q ≤ x → x < q + 8 → mem1 x = mem2 x) : load64 mem1 q = load64 mem2 q := by
  unfold load64
  rw [h q (by omega) (by omega), h (q + 1) (by omega) (by omega), h (q + 2) (by omega) (by omega),
    h (q + 3) (by omega) (by omega), h (q + 4) (by omega) (by omega),
    h (q + 5) (by omega) (by omega), h (q + 6) (by omega) (by omega),
    h (q + 7) (by omega) (by omega)]

theorem test_bit_le_congr {mem1 mem2 : Nat → Nat} {nr addr : Nat}
    (h : mem1 (addr + nr / 8) = mem2 (addr + nr / 8)) :
    test_bit_le nr addr mem1 = test_bit_le nr addr mem2 := by
  unfold test_bit_le
  rw [h]
/-! ## Theorems: region lookup -/

/-- The fall-through chain returns the lowest-indexed area whose range test succeeds. -/
theorem ram_area_lowest (data : vm_vmx_fdl) (gpfn i : Nat)
    (hn : data.num_areas ≤ 8) (hi : i < data.num_areas)
    (hin : area_in_range gpfn (data.areas i) = true)
    (hlow : ∀ j, j < i → area_in_range gpfn (data.areas j) = false) :
    vmx_fdl_ram_area data gpfn = i := by
  unfold vmx_fdl_ram_area FDL_MAX_AREAS
  generalize hnum : data.num_areas = n at hn hi
  interval_cases n <;> interval_cases i <;>
    simp [hin, hlow]

/-- When no range test succeeds, `ram_area` keeps its initial value 0xff. -/
theorem ram_area_none (data : vm_vmx_fdl) (gpfn : Nat)
    (hnone : ∀ j, j < data.num_areas → area_in_range gpfn (data.areas j) = false) :
    vmx_fdl_ram_area data gpfn = 0xff := by
  unfold vmx_fdl_ram_area FDL_MAX_AREAS
  generalize hnum : data.num_areas = n at hnone
  by_cases h8 : n ≤ 8
  · interval_cases n <;> simp [hnone]
  · have : ¬ ((8 : Int) - (n : Int) = 0) := by omega
    have h0 : ¬ (0 ≤ (8 : Int) - (n : Int)) := by omega
    simp [this, h0]
/-! ## Theorems: region configuration -/

theorem fdl_off_bound (configuration : fdl_conf) (k : Nat)
    (hsz : ∀ i, i < k → (configuration.areas i).size < 2 ^ 64) :
    fdl_off configuration k ≤ k * 2 ^ 57 := by
  induction k with
  | zero => simp [fdl_off]
  | succ k ih =>
    have h1 := ih (fun i hi => hsz i (by omega))
    have h2 := (bitmap_size_bounds (hsz k (by omega))).2.1
    have h3 := (stack_size_bounds (hsz k (by omega))).2.1
    simp only [fdl_off]
    omega

theorem fdl_off_mono (configuration : fdl_conf) {i j : Nat} (h : i ≤ j) :
    fdl_off configuration i ≤ fdl_off configuration j := by
  induction j with
  | zero =>
    have : i = 0 := by omega
    subst this; exact le_refl _
  | succ j ih =>
    by_cases hij : i = j + 1
    · subst hij; exact le_refl _
    · have := ih (by omega)
      simp only [fdl_off]
      omega

/-- The state after the first loop of `vmx_fdl_realloc_memory` has run over `k` areas. -/
theorem realloc_loop1 (data : vm_vmx_fdl) (configuration : fdl_conf) (k : Nat)
    (hk : k ≤ 64) (hsz : ∀ i, i < k → (configuration.areas i).size < 2 ^ 64)
    (hnum : data.num_areas = 0) (htot : data.total_alloc_size = 0) :
    let st := (List.range k).foldl realloc_area (data, configuration)
    st.1.num_areas = k ∧ st.1.total_alloc_size = fdl_off configuration k ∧
    st.1.configured = data.configured ∧
    (∀ i, i < k →
      (st.1.areas i).base = (configuration.areas i).base_address ∧
      (st.1.areas i).size = (configuration.areas i).size ∧
      (st.1.areas i).stack_index = 0 ∧
      (st.1.areas i).stack_max = (configuration.areas i).size / 0x1000 ∧
      (st.2.areas i).base_address = (configuration.areas i).base_address ∧
      (st.2.areas i).size = (configuration.areas i).size ∧
      (st.2.areas i).mmap_bitmap_offset = fdl_off configuration i ∧
      (st.2.areas i).mmap_bitmap_size
        = PAGE_ALIGNED_SIZE (FDL_BITMAP_SIZE (configuration.areas i).size) ∧
      (st.2.areas i).mmap_stack_offset = fdl_off configuration i
        + PAGE_ALIGNED_SIZE (FDL_BITMAP_SIZE (configuration.areas i).size) ∧
      (st.2.areas i).mmap_stack_size
        = PAGE_ALIGNED_SIZE (FDL_STACK_SIZE (configuration.areas i).size)) ∧
    (∀ i, k ≤ i → st.1.areas i = data.areas i ∧ st.2.areas i = configuration.areas i) ∧
    st.2.num = configuration.num := by
  induction k with
  | zero =>
    simp [hnum, htot, fdl_off]
  | succ k ih =>
    have ih1 := ih (by omega) (fun i hi => hsz i (by omega))
    simp only at ih1
    obtain ⟨i1, i2, i3, i4, i5, i6⟩ := ih1
    have hb := fdl_off_bound configuration k (fun i hi => hsz i (by omega))
    have hbs := bitmap_size_bounds (hsz k (by omega))
    have hss := stack_size_bounds (hsz k (by omega))
    have hck := (i5 k (le_refl _)).2
    have hpow : (2 : Nat) ^ 57 = 144115188075855872 := by norm_num
    have hpow0 : (2 : Nat) ^ 50 = 1125899906842624 := by norm_num
    have hpow1 : (2 : Nat) ^ 56 = 72057594037927936 := by norm_num
    have hpow2 : (2 : Nat) ^ 64 = 18446744073709551616 := by norm_num
    rw [List.range_succ, List.foldl_append]
    simp only [List.foldl_cons, List.foldl_nil]
    generalize hst : (List.range k).foldl realloc_area (data, configuration) = st at *
    have e1 : (fdl_off configuration k
        + PAGE_ALIGNED_SIZE (FDL_BITMAP_SIZE (configuration.areas k).size)) % 2 ^ 64
        = fdl_off configuration k
          + PAGE_ALIGNED_SIZE (FDL_BITMAP_SIZE (configuration.areas k).size) := by
      apply Nat.mod_eq_of_lt
      rw [hpow, hpow0] at *
      omega
    have e2 : (fdl_off configuration k
        + PAGE_ALIGNED_SIZE (FDL_BITMAP_SIZE (configuration.areas k).size)
        + PAGE_ALIGNED_SIZE (FDL_STACK_SIZE (configuration.areas k).size)) % 2 ^ 64
        = fdl_off configuration k
          + PAGE_ALIGNED_SIZE (FDL_BITMAP_SIZE (configuration.areas k).size)
          + PAGE_ALIGNED_SIZE (FDL_STACK_SIZE (configuration.areas k).size) := by
      apply Nat.mod_eq_of_lt
      rw [hpow, hpow0, hpow1] at *
      omega
    refine ⟨?_, ?_, ?_, ?_, ?_, ?_⟩
    · simp [realloc_area, i1]
    · simp only [realloc_area, i2, hck, e1, e2, fdl_off]
    · simp [realloc_area, i3]
    · intro i hi
      by_cases hik : i = k
      · subst hik
        simp [realloc_area, hck, i2]
        rw [hpow] at hb
        rw [hpow0] at hbs
        omega
      · have hlt : i < k := by omega
        have := i4 i hlt
        simp only [realloc_area, Function.update_noteq hik]
        exact this
    · intro i hi
      have hik : i ≠ k := by omega
      have := i5 i (by omega)
      simp only [realloc_area, Function.update_noteq hik]
      exact this
    · simp [realloc_area, i6]

/-- The state after the second loop of `vmx_fdl_realloc_memory` has run over `k` areas. -/
theorem realloc_loop2 (configuration : fdl_conf) (data : vm_vmx_fdl) (k : Nat) :
    let d := (List.range k).foldl (realloc_pointers configuration) data
    d.num_areas = data.num_areas ∧ d.total_alloc_size = data.total_alloc_size ∧
    d.configured = data.configured ∧ d.alloc_buf = data.alloc_buf ∧
    (∀ i, i < k →
      (d.areas i).base = (data.areas i).base ∧ (d.areas i).size = (data.areas i).size ∧
      (d.areas i).stack_index = (data.areas i).stack_index ∧
      (d.areas i).stack_max = (data.areas i).stack_max ∧
      (d.areas i).bitmap = (configuration.areas i).mmap_bitmap_offset ∧
      (d.areas i).stack = (configuration.areas i).mmap_stack_offset) ∧
    (∀ i, k ≤ i → d.areas i = data.areas i) := by
  induction k with
  | zero => simp
  | succ k ih =>
    simp only at ih
    obtain ⟨i1, i2, i3, i4, i5, i6⟩ := ih
    rw [List.range_succ, List.foldl_append]
    simp only [List.foldl_cons, List.foldl_nil]
    generalize (List.range k).foldl (realloc_pointers configuration) data = d at *
    refine ⟨i1, i2, i3, i4, ?_, ?_⟩
    · intro i hi
      by_cases hik : i = k
      · subst hik
        simp [realloc_pointers, i6 i (le_refl _)]
      · simp only [realloc_pointers, Function.update_noteq hik]
        exact i5 i (by omega)
    · intro i hi
      have hik : i ≠ k := by omega
      simp only [realloc_pointers, Function.update_noteq hik]
      exact i6 i (by omega)

/-- What a successful configuration leaves behind: the session is configured, the
buffer is zeroed, and area `i` holds its base and size, an empty log with
`size / 4096` slots, the bitmap at `fdl_off i` and the log right after the bitmap. -/
theorem fdl_fresh_spec (data : vm_vmx_fdl) (configuration : fdl_conf)
    (hconf : data.configured = false) (hn1 : 1 ≤ configuration.num)
    (hn8 : configuration.num ≤ 8)
    (hsz : ∀ i, i < configuration.num → (configuration.areas i).size < 2 ^ 64) :
    let d := fdl_fresh data configuration
    d.configured = true ∧ d.num_areas = configuration.num ∧
    d.alloc_buf = some (fun _ => 0) ∧
    d.total_alloc_size = fdl_off configuration configuration.num ∧
    (∀ i, i < configuration.num →
      (d.areas i).base = (configuration.areas i).base_address ∧
      (d.areas i).size = (configuration.areas i).size ∧
      (d.areas i).stack_index = 0 ∧
      (d.areas i).stack_max = (configuration.areas i).size / 0x1000 ∧
      (d.areas i).bitmap = fdl_off configuration i ∧
      (d.areas i).stack = fdl_off configuration i
        + PAGE_ALIGNED_SIZE (FDL_BITMAP_SIZE (configuration.areas i).size)) := by
  have hne : configuration.num ≠ 0 := by omega
  have hd : fdl_fresh data configuration =
      { (List.range ((List.range configuration.num).foldl realloc_area
            ({ data with num_areas := 0, total_alloc_size := 0 }, configuration)).1.num_areas).foldl
          (realloc_pointers ((List.range configuration.num).foldl realloc_area
            ({ data with num_areas := 0, total_alloc_size := 0 }, configuration)).2)
          { ((List.range configuration.num).foldl realloc_area
              ({ data with num_areas := 0, total_alloc_size := 0 }, configuration)).1 with
            alloc_buf := some (fun _ => 0) } with configured := true } := by
    unfold fdl_fresh vmx_fdl_realloc_memory
    simp only
    rw [if_neg (by simp [hconf]), if_pos hne]
    rfl
  have l1 := realloc_loop1 { data with num_areas := 0, total_alloc_size := 0 } configuration
    configuration.num (by omega) hsz rfl rfl
  simp only at l1
  obtain ⟨a1, a2, a3, a4, -, -⟩ := l1
  rw [a1] at hd
  generalize (List.range configuration.num).foldl realloc_area
    ({ data with num_areas := 0, total_alloc_size := 0 }, configuration) = st at *
  have l2 := realloc_loop2 st.2 { st.1 with alloc_buf := some (fun _ => 0) } configuration.num
  simp only at l2
  obtain ⟨b1, b2, b3, b4, b5, -⟩ := l2
  intro d
  have hd' : d = _ := hd
  rw [hd']
  refine ⟨rfl, ?_, ?_, ?_, ?_⟩
  · exact b1.trans a1
  · exact b4
  · exact b2.trans a2
  · intro i hi
    obtain ⟨c1, c2, c3, c4, c5, c6⟩ := b5 i hi
    obtain ⟨e1, e2, e3, e4, -, -, e7, -, e9, -⟩ := a4 i hi
    exact ⟨c1.trans e1, c2.trans e2, c3.trans e3, c4.trans e4, c5.trans e7, c6.trans e9⟩

/-! ## Theorems: the recorder -/

theorem fdl_fresh_layout (data : vm_vmx_fdl) (configuration : fdl_conf)
    (hconf : data.configured = false) (hn1 : 1 ≤ configuration.num)
    (hn8 : configuration.num ≤ 8)
    (hsz : ∀ i, i < configuration.num → (configuration.areas i).size < 2 ^ 64) :
    fdl_layout (fdl_fresh data configuration) := by
  obtain ⟨-, h2, h3, -, h5⟩ := fdl_fresh_spec data configuration hconf hn1 hn8 hsz
  refine ⟨by omega, by omega, ⟨_, h3⟩, ?_, ?_⟩
  · intro i hi
    rw [h2] at hi
    obtain ⟨-, c2, c3, c4, c5, c6⟩ := h5 i hi
    refine ⟨by rw [c2]; exact hsz i hi, by rw [c4, c2], by rw [c3]; exact Nat.zero_le _, ?_⟩
    rw [c6, c5, c2]
  · intro i j hij hj
    rw [h2] at hj
    obtain ⟨-, c2, -, -, -, c6⟩ := h5 i (by omega)
    obtain ⟨-, -, -, -, e5, -⟩ := h5 j hj
    rw [c6, e5, c2]
    have := fdl_off_mono configuration (show i + 1 ≤ j by omega)
    simp only [fdl_off] at this
    exact this

/-- The byte ranges of the buffer that belong to the areas, spelled out for two
areas. -/
theorem layout_sep {d : vm_vmx_fdl} (hl : fdl_layout d) {i j : Nat}
    (hi : i < d.num_areas) (hj : j < d.num_areas) :
    (d.areas i).size / 0x1000 < 8 * PAGE_ALIGNED_SIZE (FDL_BITMAP_SIZE (d.areas i).size) ∧
    8 * ((d.areas i).size / 0x1000) < PAGE_ALIGNED_SIZE (FDL_STACK_SIZE (d.areas i).size) ∧
    (d.areas i).stack
      = (d.areas i).bitmap + PAGE_ALIGNED_SIZE (FDL_BITMAP_SIZE (d.areas i).size) ∧
    (d.areas i).stack_index ≤ (d.areas i).size / 0x1000 ∧
    (d.areas i).stack_max = (d.areas i).size / 0x1000 ∧
    (i < j → (d.areas i).stack + PAGE_ALIGNED_SIZE (FDL_STACK_SIZE (d.areas i).size)
      ≤ (d.areas j).bitmap) ∧
    (j < i → (d.areas j).stack + PAGE_ALIGNED_SIZE (FDL_STACK_SIZE (d.areas j).size)
      ≤ (d.areas i).bitmap) := by
  obtain ⟨-, -, -, h4, h5⟩ := hl
  obtain ⟨a1, a2, a3, a4⟩ := h4 i hi
  refine ⟨(bitmap_size_bounds a1).1, (stack_size_bounds a1).1, a4, by rw [← a2]; exact a3, a2,
    fun h => h5 i j h hj, fun h => h5 j i h hi⟩

theorem set_addr_of_set {d : vm_vmx_fdl} {buf : Nat → Nat} {p i0 : Nat}
    (hbuf : d.alloc_buf = some buf) (hfind : vmx_fdl_ram_area d p = i0) (hi0 : i0 ≠ 0xff)
    (hbit : test_bit_le ((p - (d.areas i0).base) >>> 12) (d.areas i0).bitmap buf = true) :
    vmx_fdl_set_addr d p = d := by
  unfold vmx_fdl_set_addr
  rw [hbuf]
  simp only [hfind, if_neg hi0, test_and_set_old, hbit, test_and_set_of_set hbit]
  simp [← hbuf]

theorem set_addr_of_unset {d : vm_vmx_fdl} {buf : Nat → Nat} {p i0 : Nat}
    (hbuf : d.alloc_buf = some buf) (hfind : vmx_fdl_ram_area d p = i0) (hi0 : i0 ≠ 0xff)
    (hbit : test_bit_le ((p - (d.areas i0).base) >>> 12) (d.areas i0).bitmap buf = false)
    (hroom : (d.areas i0).stack_index < (d.areas i0).stack_max) :
    vmx_fdl_set_addr d p =
      { d with
        alloc_buf := some (store64
          (test_and_set_bit_le ((p - (d.areas i0).base) >>> 12) (d.areas i0).bitmap buf).2
          ((d.areas i0).stack + 8 * (d.areas i0).stack_index) p)
        areas := Function.update d.areas i0
          { d.areas i0 with stack_index := (d.areas i0).stack_index + 1 } } := by
  unfold vmx_fdl_set_addr
  rw [hbuf]
  have hroom' : ¬ (d.areas i0).stack_index ≥ (d.areas i0).stack_max := by omega
  simp only [hfind, if_neg hi0, test_and_set_old, hbit, Bool.not_false, if_true, if_neg hroom']

theorem set_addr_of_full {d : vm_vmx_fdl} {buf : Nat → Nat} {p i0 : Nat}
    (hbuf : d.alloc_buf = some buf) (hfind : vmx_fdl_ram_area d p = i0) (hi0 : i0 ≠ 0xff)
    (hbit : test_bit_le ((p - (d.areas i0).base) >>> 12) (d.areas i0).bitmap buf = false)
    (hfull : (d.areas i0).stack_index ≥ (d.areas i0).stack_max) :
    vmx_fdl_set_addr d p =
      { d with
        alloc_buf := some
          (test_and_set_bit_le ((p - (d.areas i0).base) >>> 12) (d.areas i0).bitmap buf).2 } := by
  unfold vmx_fdl_set_addr
  rw [hbuf]
  simp only [hfind, if_neg hi0, test_and_set_old, hbit, Bool.not_false, if_true, if_pos hfull]

theorem set_addr_of_none {d : vm_vmx_fdl} {p : Nat}
    (hfind : vmx_fdl_ram_area d p = 0xff) : vmx_fdl_set_addr d p = d := by
  unfold vmx_fdl_set_addr
  cases h : d.alloc_buf with
  | none => rfl
  | some buf => simp [hfind]

theorem area_update_fields (d : vm_vmx_fdl) (i0 j v : Nat) :
    let a := Function.update d.areas i0 { d.areas i0 with stack_index := v } j
    a.base = (d.areas j).base ∧ a.size = (d.areas j).size ∧ a.stack = (d.areas j).stack ∧
    a.bitmap = (d.areas j).bitmap ∧ a.stack_max = (d.areas j).stack_max := by
  by_cases h : j = i0
  · subst h; simp
  · simp [Function.update_noteq h]

/-- Recording a page whose bit is clear, in an area with a free slot: the bit is set,
the page is appended to the log of that area, and nothing else changes. -/
theorem set_addr_push {d : vm_vmx_fdl} (hl : fdl_layout d) {p i0 : Nat}
    (hfind : vmx_fdl_ram_area d p = i0) (hi0 : i0 < d.num_areas)
    (hnr : (p - (d.areas i0).base) >>> 12 < (d.areas i0).size / 0x1000)
    (hp : p < 2 ^ 64)
    (hbit : fdl_bit d i0 ((p - (d.areas i0).base) >>> 12) = false)
    (hroom : (d.areas i0).stack_index < (d.areas i0).stack_max) :
    fdl_layout (vmx_fdl_set_addr d p) ∧
    (vmx_fdl_set_addr d p).num_areas = d.num_areas ∧
    (vmx_fdl_set_addr d p).configured = d.configured ∧
    (∀ j, ((vmx_fdl_set_addr d p).areas j).base = (d.areas j).base ∧
      ((vmx_fdl_set_addr d p).areas j).size = (d.areas j).size ∧
      ((vmx_fdl_set_addr d p).areas j).stack = (d.areas j).stack ∧
      ((vmx_fdl_set_addr d p).areas j).bitmap = (d.areas j).bitmap ∧
      ((vmx_fdl_set_addr d p).areas j).stack_max = (d.areas j).stack_max) ∧
    (∀ j nr1, j < d.num_areas →
      nr1 < 8 * PAGE_ALIGNED_SIZE (FDL_BITMAP_SIZE (d.areas j).size) →
      fdl_bit (vmx_fdl_set_addr d p) j nr1 =
        (fdl_bit d j nr1 || decide (j = i0 ∧ nr1 = (p - (d.areas i0).base) >>> 12))) ∧
    ((vmx_fdl_set_addr d p).areas i0).stack_index = (d.areas i0).stack_index + 1 ∧
    fdl_log (vmx_fdl_set_addr d p) i0 = fdl_log d i0 ++ [p] ∧
    (∀ j, j < d.num_areas → j ≠ i0 →
      ((vmx_fdl_set_addr d p).areas j).stack_index = (d.areas j).stack_index ∧
      fdl_log (vmx_fdl_set_addr d p) j = fdl_log d j) := by
  obtain ⟨buf, hbuf⟩ := hl.2.2.1
  have hne : i0 ≠ 0xff := by have := hl.2.1; omega
  have hbit' : test_bit_le ((p - (d.areas i0).base) >>> 12) (d.areas i0).bitmap buf = false := by
    simpa [fdl_bit, hbuf] using hbit
  rw [set_addr_of_unset hbuf hfind hne hbit' hroom]
  generalize hnrdef : (p - (d.areas i0).base) >>> 12 = nr at *
  have s0 := layout_sep hl hi0 hi0
  obtain ⟨z1, z2, z3, z4, z5, -, -⟩ := s0
  have hfld := fun j => area_update_fields d i0 j ((d.areas i0).stack_index + 1)
  simp only at hfld
  -- bytes of the new buffer in terms of the old one
  have hbyte_bitmap : ∀ j nr1, j < d.num_areas →
      nr1 < 8 * PAGE_ALIGNED_SIZE (FDL_BITMAP_SIZE (d.areas j).size) →
      store64 (test_and_set_bit_le nr (d.areas i0).bitmap buf).2
          ((d.areas i0).stack + 8 * (d.areas i0).stack_index) p ((d.areas j).bitmap + nr1 / 8)
        = (test_and_set_bit_le nr (d.areas i0).bitmap buf).2 ((d.areas j).bitmap + nr1 / 8) := by
    intro j nr1 hj hnr1
    apply store64_outside
    obtain ⟨y1, y2, y3, y4, y5, y6, y7⟩ := layout_sep hl hj hi0
    rcases Nat.lt_trichotomy j i0 with h | h | h
    · have := y6 h; omega
    · subst h; omega
    · have := y7 h; omega
  have hslot : ∀ j k, j < d.num_areas → k < (d.areas j).stack_index → (j ≠ i0) →
      load64 (store64 (test_and_set_bit_le nr (d.areas i0).bitmap buf).2
          ((d.areas i0).stack + 8 * (d.areas i0).stack_index) p) ((d.areas j).stack + 8 * k)
        = load64 buf ((d.areas j).stack + 8 * k) := by
    intro j k hj hk hji
    apply load64_congr
    intro x hx1 hx2
    obtain ⟨y1, y2, y3, y4, y5, y6, y7⟩ := layout_sep hl hj hi0
    rw [store64_outside]
    · unfold test_and_set_bit_le
      simp only
      rw [Function.update_noteq]
      rcases Nat.lt_trichotomy j i0 with h | h | h
      · have := y6 h; omega
      · exact absurd h hji
      · have := y7 h; omega
    · rcases Nat.lt_trichotomy j i0 with h | h | h
      · have := y6 h; omega
      · exact absurd h hji
      · have := y7 h; omega
  have hslot0 : ∀ k, k < (d.areas i0).stack_index →
      load64 (store64 (test_and_set_bit_le nr (d.areas i0).bitmap buf).2
          ((d.areas i0).stack + 8 * (d.areas i0).stack_index) p) ((d.areas i0).stack + 8 * k)
        = load64 buf ((d.areas i0).stack + 8 * k) := by
    intro k hk
    apply load64_congr
    intro x hx1 hx2
    rw [store64_outside]
    · unfold test_and_set_bit_le
      simp only
      rw [Function.update_noteq]
      omega
    · omega
  have hnew : load64 (store64 (test_and_set_bit_le nr (d.areas i0).bitmap buf).2
      ((d.areas i0).stack + 8 * (d.areas i0).stack_index) p)
      ((d.areas i0).stack + 8 * (d.areas i0).stack_index) = p := load64_store64_same _ _ _ hp
  refine ⟨?_, rfl, rfl, hfld, ?_, ?_, ?_, ?_⟩
  · -- layout
    obtain ⟨l1, l2, -, l4, l5⟩ := hl
    refine ⟨l1, l2, ⟨_, rfl⟩, ?_, ?_⟩
    · intro i hi
      obtain ⟨f1, f2, f3, f4, f5⟩ := hfld i
      obtain ⟨a1, a2, a3, a4⟩ := l4 i hi
      simp only
      refine ⟨by rw [f2]; exact a1, by rw [f5, f2]; exact a2, ?_, by rw [f3, f4, f2]; exact a4⟩
      by_cases hii : i = i0
      · subst hii; simp only [Function.update_same]; omega
      · simp only [Function.update_noteq hii]; exact a3
    · intro i j hij hj
      obtain ⟨f1, f2, f3, f4, f5⟩ := hfld i
      obtain ⟨g1, g2, g3, g4, g5⟩ := hfld j
      simp only
      rw [f3, f2, g4]
      exact l5 i j hij hj
  · -- bits
    intro j nr1 hj hnr1
    simp only [fdl_bit, hbuf]
    rw [(hfld j).2.2.2.1]
    rw [test_bit_le_congr (hbyte_bitmap j nr1 hj hnr1), test_bit_after_set]
    congr 1
    obtain ⟨y1, y2, y3, y4, y5, y6, y7⟩ := layout_sep hl hj hi0
    apply decide_eq_decide.2
    constructor
    · rintro ⟨e1, e2⟩
      rcases Nat.lt_trichotomy j i0 with h | h | h
      · have := y6 h; omega
      · subst h; exact ⟨rfl, by omega⟩
      · have := y7 h; omega
    · rintro ⟨e1, e2⟩
      subst e1; subst e2
      exact ⟨rfl, rfl⟩
  · simp
  · -- log of the area itself
    simp only [fdl_log, hbuf, Function.update_same]
    rw [List.range_succ, List.map_append]
    congr 1
    · apply List.map_congr_left
      intro k hk
      rw [List.mem_range] at hk
      exact hslot0 k hk
    · simp only [List.map_cons, List.map_nil]
      rw [hnew]
  · intro j hj hji
    simp only [fdl_log, hbuf, Function.update_noteq hji]
    refine ⟨trivial, ?_⟩
    apply List.map_congr_left
    intro k hk
    rw [List.mem_range] at hk
    exact hslot j k hj hk hji

theorem page_mask_eq (addr : Nat) (h : addr < 2 ^ 64) :
    addr &&& 0xFFFFFFFFFFFFF000 = addr / 0x1000 * 0x1000 := by
  have e1 : (0xFFFFFFFFFFFFF000 : Nat) = (2 ^ 52 - 1) <<< 12 := by decide
  have e2 : addr / 0x1000 * 0x1000 = (addr >>> 12) <<< 12 := by
    rw [Nat.shiftLeft_eq, Nat.shiftRight_eq_div_pow]
  rw [e1, e2]
  apply Nat.eq_of_testBit_eq
  intro j
  rw [Nat.testBit_and, Nat.testBit_shiftLeft, Nat.testBit_shiftLeft, Nat.testBit_shiftRight,
    Nat.testBit_two_pow_sub_one]
  by_cases h12 : 12 ≤ j
  · have e3 : 12 + (j - 12) = j := by omega
    rw [e3]
    by_cases h64 : j < 64
    · have : j - 12 < 52 := by omega
      simp [h12, this]
    · have hlt : addr < 2 ^ j :=
        lt_of_lt_of_le h (Nat.pow_le_pow_right (by norm_num) (by omega))
      rw [Nat.testBit_eq_false_of_lt hlt]
      simp
  · simp [h12]

/-- For a page-aligned area of positive page-multiple size that does not wrap, the
range test accepts exactly the page addresses inside the area. -/
theorem in_range_iff {area : vmx_fdl_area} {p : Nat}
    (hb : area.base % 0x1000 = 0) (hs : area.size % 0x1000 = 0) (hpos : 0 < area.size)
    (hw : area.base + area.size ≤ 2 ^ 64) (hp : p % 0x1000 = 0) :
    area_in_range p area = true ↔ (area.base ≤ p ∧ p < area.base + area.size) := by
  unfold area_in_range FAST_IN_RANGE
  have e1 : (area.size + 2 ^ 64 - 1) % 2 ^ 64 = area.size - 1 := by
    have : area.size + 2 ^ 64 - 1 = (area.size - 1) + 2 ^ 64 := by omega
    rw [this, Nat.add_mod_right]
    apply Nat.mod_eq_of_lt
    omega
  have e2 : (area.base + (area.size - 1)) % 2 ^ 64 = area.base + (area.size - 1) := by
    apply Nat.mod_eq_of_lt
    omega
  rw [e1, e2]
  simp only [Bool.and_eq_true, decide_eq_true_eq, ge_iff_le]
  constructor
  · rintro ⟨h1, h2⟩; exact ⟨h2, by omega⟩
  · rintro ⟨h1, h2⟩; exact ⟨by omega, h1⟩

theorem get_index_loop (data : vm_vmx_fdl) (result : fdl_result) (k : Nat) :
    let st := (List.range k).foldl get_index_area (data, result)
    st.1.configured = data.configured ∧ st.1.num_areas = data.num_areas ∧
    st.1.alloc_buf = data.alloc_buf ∧ st.1.total_alloc_size = data.total_alloc_size ∧
    st.2.num = result.num ∧
    (∀ i, (st.1.areas i).base = (data.areas i).base ∧ (st.1.areas i).size = (data.areas i).size ∧
      (st.1.areas i).stack = (data.areas i).stack ∧
      (st.1.areas i).bitmap = (data.areas i).bitmap ∧
      (st.1.areas i).stack_max = (data.areas i).stack_max) ∧
    (∀ i, i < k → (st.1.areas i).stack_index = 0 ∧
      st.2.values i = (data.areas i).stack_index) ∧
    (∀ i, k ≤ i → st.1.areas i = data.areas i ∧ st.2.values i = result.values i) := by
  induction k with
  | zero => simp
  | succ k ih =>
    simp only at ih
    obtain ⟨i1, i2, i3, i4, i5, i6, i7, i8⟩ := ih
    rw [List.range_succ, List.foldl_append]
    simp only [List.foldl_cons, List.foldl_nil]
    generalize (List.range k).foldl get_index_area (data, result) = st at *
    refine ⟨i1, i2, i3, i4, i5, ?_, ?_, ?_⟩
    · intro i
      by_cases hik : i = k
      · subst hik; simpa [get_index_area] using i6 i
      · simpa [get_index_area, Function.update_noteq hik] using i6 i
    · intro i hi
      by_cases hik : i = k
      · subst hik; simp [get_index_area, (i8 i (le_refl _)).1]
      · simpa [get_index_area, Function.update_noteq hik] using i7 i (by omega)
    · intro i hi
      have hik : i ≠ k := by omega
      simpa [get_index_area, Function.update_noteq hik] using i8 i (by omega)

/-- The command `GET_AND_RESET_COUNTS` on a configured session: success, the count of every area
as it was, and every count zero afterwards. -/
theorem get_index_spec (data : vm_vmx_fdl) (result0 : fdl_result)
    (hc : data.configured = true) :
    (vmx_fdl_get_index data result0 true).1 = 0 ∧
    (vmx_fdl_get_index data result0 true).2.1.configured = true ∧
    (vmx_fdl_get_index data result0 true).2.1.num_areas = data.num_areas ∧
    (vmx_fdl_get_index data result0 true).2.1.alloc_buf = data.alloc_buf ∧
    (∀ i, i < data.num_areas →
      ((vmx_fdl_get_index data result0 true).2.1.areas i).stack_index = 0) ∧
    ∃ res, (vmx_fdl_get_index data result0 true).2.2 = some res ∧ res.num = data.num_areas ∧
      ∀ i, i < data.num_areas → res.values i = (data.areas i).stack_index := by
  have h := get_index_loop data { result0 with num := data.num_areas } data.num_areas
  simp only at h
  obtain ⟨i1, i2, i3, i4, i5, i6, i7, i8⟩ := h
  unfold vmx_fdl_get_index
  simp only [hc, if_true]
  exact ⟨trivial, i1.trans hc, i2, i3, fun i hi => (i7 i hi).1, _, rfl, i5, fun i hi => (i7 i hi).2⟩

theorem area_in_range_congr {a b : vmx_fdl_area} (p : Nat) (h1 : a.base = b.base)
    (h2 : a.size = b.size) : area_in_range p a = area_in_range p b := by
  unfold area_in_range
  rw [h1, h2]

/-- The lookup reads only the number of areas and their bases and sizes. -/
theorem ram_area_congr {d1 d2 : vm_vmx_fdl} (p : Nat) (hn : d1.num_areas = d2.num_areas)
    (ha : ∀ j, (d1.areas j).base = (d2.areas j).base ∧ (d1.areas j).size = (d2.areas j).size) :
    vmx_fdl_ram_area d1 p = vmx_fdl_ram_area d2 p := by
  unfold vmx_fdl_ram_area
  rw [hn, area_in_range_congr p (ha 0).1 (ha 0).2, area_in_range_congr p (ha 1).1 (ha 1).2,
    area_in_range_congr p (ha 2).1 (ha 2).2, area_in_range_congr p (ha 3).1 (ha 3).2,
    area_in_range_congr p (ha 4).1 (ha 4).2, area_in_range_congr p (ha 5).1 (ha 5).2,
    area_in_range_congr p (ha 6).1 (ha 6).2, area_in_range_congr p (ha 7).1 (ha 7).2]

theorem fdl_bit_fresh (data : vm_vmx_fdl) (configuration : fdl_conf)
    (hconf : data.configured = false) (hn1 : 1 ≤ configuration.num)
    (hn8 : configuration.num ≤ 8)
    (hsz : ∀ i, i < configuration.num → (configuration.areas i).size < 2 ^ 64) (j nr : Nat) :
    fdl_bit (fdl_fresh data configuration) j nr = false := by
  obtain ⟨-, -, h3, -, -⟩ := fdl_fresh_spec data configuration hconf hn1 hn8 hsz
  simp [fdl_bit, h3, test_bit_le]

theorem realloc_result (data : vm_vmx_fdl) (configuration : fdl_conf)
    (hconf : data.configured = false) (hn1 : 1 ≤ configuration.num) :
    (vmx_fdl_realloc_memory data (some configuration) true).1 = 0 := by
  have hne : configuration.num ≠ 0 := by omega
  unfold vmx_fdl_realloc_memory
  simp only
  rw [if_neg (by simp [hconf]), if_pos hne]
  rfl

theorem shift12_eq (x : Nat) : x >>> 12 = x / 0x1000 := by
  rw [Nat.shiftRight_eq_div_pow]

/-- Claim C1 (amended): in a freshly configured session, for a region
`[base, base + N*4096)` with page-aligned base, `N >= 1` and end at most 2^64, and an
address inside it that the range test of no other configured region accepts, recording
the page of the address `k >= 1` times leaves exactly one entry (the page) in the log
of the region and exactly one set bit, bit `(addr - base) / 4096`, in its bitmap;
`GET_AND_RESET_COUNTS` then succeeds and reports 1 for the region, and the call
following it reports 0. -/
theorem C1_repeated_record_one_entry (data : vm_vmx_fdl) (configuration : fdl_conf)
    (i N addr k : Nat) (result0 result1 : fdl_result)
    (hconf : data.configured = false) (hn1 : 1 ≤ configuration.num)
    (hn8 : configuration.num ≤ 8)
    (hsz : ∀ j, j < configuration.num → (configuration.areas j).size < 2 ^ 64)
    (hi : i < configuration.num)
    (hbase : (configuration.areas i).base_address % 4096 = 0)
    (hN : 1 ≤ N) (hsize : (configuration.areas i).size = N * 4096)
    (hend : (configuration.areas i).base_address + N * 4096 ≤ 2 ^ 64)
    (hlo : (configuration.areas i).base_address ≤ addr)
    (hhi : addr < (configuration.areas i).base_address + N * 4096)
    (hother : ∀ j, j < configuration.num → j ≠ i →
      area_in_range (addr &&& 0xFFFFFFFFFFFFF000)
        ((fdl_fresh data configuration).areas j) = false)
    (hk : 1 ≤ k) :
    let d0 := fdl_fresh data configuration
    let d := vmx_fdl_set_addr_times k (addr &&& 0xFFFFFFFFFFFFF000) d0
    let g1 := vmx_fdl_get_index d result0 true
    let g2 := vmx_fdl_get_index g1.2.1 result1 true
    (vmx_fdl_realloc_memory data (some configuration) true).1 = 0 ∧
    (d.areas i).stack_index = 1 ∧
    fdl_log d i = [addr &&& 0xFFFFFFFFFFFFF000] ∧
    (∀ nr, nr < 8 * PAGE_ALIGNED_SIZE (FDL_BITMAP_SIZE (configuration.areas i).size) →
      (fdl_bit d i nr = true ↔ nr = (addr - (configuration.areas i).base_address) / 4096)) ∧
    g1.1 = 0 ∧ (∃ res, g1.2.2 = some res ∧ res.values i = 1) ∧
    g2.1 = 0 ∧ (∃ res, g2.2.2 = some res ∧ res.values i = 0) := by
  intro d0 d g1 g2
  have haddr : addr < 2 ^ 64 := by omega
  obtain ⟨s1, s2, s3, -, s5⟩ := fdl_fresh_spec data configuration hconf hn1 hn8 hsz
  have hl0 : fdl_layout d0 := fdl_fresh_layout data configuration hconf hn1 hn8 hsz
  obtain ⟨c1, c2, c3, c4, c5, c6⟩ := s5 i hi
  have hi' : i < d0.num_areas := by rw [show d0.num_areas = _ from s2]; exact hi
  set p := addr &&& 0xFFFFFFFFFFFFF000 with hpdef
  have hp : p = addr / 0x1000 * 0x1000 := page_mask_eq addr haddr
  have hp64 : p < 2 ^ 64 := by rw [hp]; omega
  have hpal : p % 0x1000 = 0 := by rw [hp]; omega
  have hbase' : (d0.areas i).base % 0x1000 = 0 := by rw [show (d0.areas i).base = _ from c1]; exact hbase
  have hsize' : (d0.areas i).size = N * 4096 := by rw [show (d0.areas i).size = _ from c2]; exact hsize
  have hin : area_in_range p (d0.areas i) = true := by
    rw [in_range_iff hbase' (by omega) (by omega) (by rw [hsize', show (d0.areas i).base = _ from c1]; exact hend) hpal]
    rw [hsize', show (d0.areas i).base = _ from c1]
    omega
  have hfind : vmx_fdl_ram_area d0 p = i :=
    ram_area_lowest d0 p i hl0.2.1 hi' hin
      (fun j hj => hother j (by omega) (by omega))
  have hnreq : (p - (d0.areas i).base) >>> 12
      = (addr - (configuration.areas i).base_address) / 4096 := by
    rw [shift12_eq, show (d0.areas i).base = _ from c1, hp]
    omega
  have hnr : (p - (d0.areas i).base) >>> 12 < (d0.areas i).size / 0x1000 := by
    rw [hnreq, hsize']
    omega
  have hbit0 : fdl_bit d0 i ((p - (d0.areas i).base) >>> 12) = false :=
    fdl_bit_fresh data configuration hconf hn1 hn8 hsz _ _
  have hroom : (d0.areas i).stack_index < (d0.areas i).stack_max := by
    rw [show (d0.areas i).stack_index = _ from c3, show (d0.areas i).stack_max = _ from c4, hsize]
    omega
  obtain ⟨q1, q2, q3, q4, q5, q6, q7, -⟩ := set_addr_push hl0 hfind hi' hnr hp64 hbit0 hroom
  -- the second and later recordings change nothing
  have hfix : vmx_fdl_set_addr (vmx_fdl_set_addr d0 p) p = vmx_fdl_set_addr d0 p := by
    obtain ⟨buf1, hbuf1⟩ := q1.2.2.1
    have hfind1 : vmx_fdl_ram_area (vmx_fdl_set_addr d0 p) p = i := by
      rw [ram_area_congr p q2 (fun j => ⟨(q4 j).1, (q4 j).2.1⟩)]
      exact hfind
    apply set_addr_of_set hbuf1 hfind1 (by have := hl0.2.1; omega)
    have hb := q5 i ((p - (d0.areas i).base) >>> 12) hi' (by
      have := (layout_sep hl0 hi' hi').1
      omega)
    rw [hbit0] at hb
    simp only [fdl_bit, hbuf1, Bool.false_or, and_self, decide_True] at hb
    rw [(q4 i).1]
    exact hb
  have hd : d = vmx_fdl_set_addr d0 p := by
    show vmx_fdl_set_addr_times k p d0 = _
    unfold vmx_fdl_set_addr_times
    obtain ⟨k', rfl⟩ : ∃ k', k = k' + 1 := ⟨k - 1, by omega⟩
    rw [Function.iterate_succ_apply]
    exact Function.iterate_fixed hfix k'
  have hlog0 : fdl_log d0 i = [] := by
    simp [fdl_log, show d0.alloc_buf = _ from s3, show (d0.areas i).stack_index = _ from c3]
  have hidx : (d.areas i).stack_index = 1 := by
    rw [hd, q6, show (d0.areas i).stack_index = _ from c3]
  have hdc : d.configured = true := by rw [hd, q3]; exact s1
  have hdn : d.num_areas = configuration.num := by rw [hd, q2]; exact s2
  obtain ⟨t1, t2, t3, -, t5, res, t6, -, t8⟩ := get_index_spec d result0 hdc
  obtain ⟨u1, -, -, -, -, res2, u6, -, u8⟩ := get_index_spec g1.2.1 result1 t2
  refine ⟨realloc_result data configuration hconf hn1, hidx, ?_, ?_, t1, ⟨res, t6, ?_⟩, u1,
    ⟨res2, u6, ?_⟩⟩
  · rw [hd, q7, hlog0]; rfl
  · intro nr hnr1
    rw [hd, q5 i nr hi' (by rw [show (d0.areas i).size = _ from c2]; exact hnr1),
      fdl_bit_fresh data configuration hconf hn1 hn8 hsz, hnreq]
    simp
  · rw [t8 i (by rw [hdn]; exact hi)]; exact hidx
  · have hi2 : i < g1.2.1.num_areas := by
      rw [show g1.2.1.num_areas = _ from t3, hdn]; exact hi
    rw [u8 i hi2]
    exact t5 i (by rw [hdn]; exact hi)

/-! ## Theorems: first-touch order -/

theorem first_touch_snoc (l : List Nat) (p : Nat) :
    first_touch (l ++ [p]) =
      if p ∈ first_touch l then first_touch l else first_touch l ++ [p] := by
  unfold first_touch
  rw [List.foldl_append]
  rfl

theorem mem_first_touch (l : List Nat) : ∀ x, x ∈ first_touch l ↔ x ∈ l := by
  induction l using List.reverseRecOn with
  | nil => simp [first_touch]
  | append_singleton l p ih =>
    intro x
    rw [first_touch_snoc]
    by_cases hp : p ∈ first_touch l
    · rw [if_pos hp, ih, List.mem_append, List.mem_singleton]
      constructor
      · exact Or.inl
      · rintro (h | h)
        · exact h
        · rw [h]; exact (ih p).1 hp
    · rw [if_neg hp, List.mem_append, List.mem_append, ih]

theorem first_touch_nodup (l : List Nat) : (first_touch l).Nodup := by
  induction l using List.reverseRecOn with
  | nil => simp [first_touch]
  | append_singleton l p ih =>
    rw [first_touch_snoc]
    by_cases hp : p ∈ first_touch l
    · rw [if_pos hp]; exact ih
    · rw [if_neg hp]
      rw [List.nodup_append]
      refine ⟨ih, List.nodup_singleton p, ?_⟩
      intro x hx1 hx2
      rw [List.mem_singleton] at hx2
      rw [hx2] at hx1
      exact hp hx1

theorem first_touch_length (l : List Nat) : (first_touch l).length = l.toFinset.card := by
  rw [← List.toFinset_card_of_nodup (first_touch_nodup l)]
  congr 1
  ext x
  rw [List.mem_toFinset, List.mem_toFinset, mem_first_touch]

/-- A duplicate-free list of pages of an `n`-page area that misses one page of the
area has fewer than `n` entries. -/
theorem pages_length_lt {base n p : Nat} {ft : List Nat} (hnd : ft.Nodup)
    (hft : ∀ x ∈ ft, x % 0x1000 = 0 ∧ base ≤ x ∧ x < base + n * 0x1000)
    (hp : p % 0x1000 = 0 ∧ base ≤ p ∧ p < base + n * 0x1000) (hbase : base % 0x1000 = 0)
    (hpn : p ∉ ft) : ft.length < n := by
  have hnd2 : (p :: ft).Nodup := List.nodup_cons.2 ⟨hpn, hnd⟩
  have hall : ∀ x ∈ p :: ft, x % 0x1000 = 0 ∧ base ≤ x ∧ x < base + n * 0x1000 := by
    intro x hx
    rcases List.mem_cons.1 hx with h | h
    · rw [h]; exact hp
    · exact hft x h
  have hmap : ((p :: ft).map (fun x => (x - base) / 0x1000)).Nodup := by
    apply List.Nodup.map_on _ hnd2
    intro x hx y hy hxy
    have h1 := hall x hx
    have h2 := hall y hy
    simp only at hxy
    omega
  have hsub : (p :: ft).map (fun x => (x - base) / 0x1000) ⊆ List.range n := by
    intro v hv
    rw [List.mem_map] at hv
    obtain ⟨x, hx, rfl⟩ := hv
    have h1 := hall x hx
    rw [List.mem_range]
    omega
  have hlen := (List.subperm_of_subset hmap hsub).length_le
  rw [List.length_map, List.length_range, List.length_cons] at hlen
  omega

theorem fdl_touched_snoc (configuration : fdl_conf) (j : Nat) (l : List Nat) (p : Nat) :
    fdl_touched configuration j (l ++ [p]) =
      if (configuration.areas j).base_address ≤ p ∧
          p < (configuration.areas j).base_address + (configuration.areas j).size
      then fdl_touched configuration j l ++ [p] else fdl_touched configuration j l := by
  unfold fdl_touched
  rw [List.filter_append]
  by_cases h : (configuration.areas j).base_address ≤ p ∧
      p < (configuration.areas j).base_address + (configuration.areas j).size
  · rw [if_pos h]; simp [List.filter_cons, h]
  · rw [if_neg h]; simp [List.filter_cons, h]

theorem mem_fdl_touched (configuration : fdl_conf) (j : Nat) (l : List Nat) (x : Nat) :
    x ∈ fdl_touched configuration j l ↔
      x ∈ l ∧ (configuration.areas j).base_address ≤ x ∧
        x < (configuration.areas j).base_address + (configuration.areas j).size := by
  unfold fdl_touched
  rw [List.mem_filter]
  simp

/-- The invariant of the recorder over a sequence of in-region page addresses, for
page-aligned, non-overlapping regions: the layout is kept, the area descriptors keep
their configuration, the log of every region is the first-touch list of its pages and
its bitmap marks exactly the pages touched. -/
theorem record_invariant (data : vm_vmx_fdl) (configuration : fdl_conf)
    (hconf : data.configured = false) (hn1 : 1 ≤ configuration.num)
    (hn8 : configuration.num ≤ 8)
    (hreg : ∀ j, j < configuration.num →
      (configuration.areas j).base_address % 4096 = 0 ∧
      (configuration.areas j).size % 4096 = 0 ∧ 0 < (configuration.areas j).size ∧
      (configuration.areas j).base_address + (configuration.areas j).size ≤ 2 ^ 64 ∧
      (configuration.areas j).size < 2 ^ 64)
    (hdisj : ∀ i j, i < configuration.num → j < configuration.num → i ≠ j →
      (configuration.areas i).base_address + (configuration.areas i).size
          ≤ (configuration.areas j).base_address ∨
      (configuration.areas j).base_address + (configuration.areas j).size
          ≤ (configuration.areas i).base_address)
    (l : List Nat)
    (hl : ∀ p, p ∈ l → p % 4096 = 0 ∧ ∃ j, j < configuration.num ∧
      (configuration.areas j).base_address ≤ p ∧
      p < (configuration.areas j).base_address + (configuration.areas j).size) :
    fdl_layout (vmx_fdl_record (fdl_fresh data configuration) l) ∧
    (vmx_fdl_record (fdl_fresh data configuration) l).num_areas = configuration.num ∧
    (vmx_fdl_record (fdl_fresh data configuration) l).configured = true ∧
    (∀ j, j < configuration.num →
      ((vmx_fdl_record (fdl_fresh data configuration) l).areas j).base
        = (configuration.areas j).base_address ∧
      ((vmx_fdl_record (fdl_fresh data configuration) l).areas j).size
        = (configuration.areas j).size ∧
      fdl_log (vmx_fdl_record (fdl_fresh data configuration) l) j
        = first_touch (fdl_touched configuration j l) ∧
      ((vmx_fdl_record (fdl_fresh data configuration) l).areas j).stack_index
        = (first_touch (fdl_touched configuration j l)).length ∧
      ∀ nr, nr < (configuration.areas j).size / 4096 →
        (fdl_bit (vmx_fdl_record (fdl_fresh data configuration) l) j nr = true ↔
          (configuration.areas j).base_address + 4096 * nr ∈ fdl_touched configuration j l)) := by
  have hsz : ∀ j, j < configuration.num → (configuration.areas j).size < 2 ^ 64 := by
    intro j hj
    exact (hreg j hj).2.2.2.2
  induction l using List.reverseRecOn with
  | nil =>
    obtain ⟨s1, s2, s3, -, s5⟩ := fdl_fresh_spec data configuration hconf hn1 hn8 hsz
    refine ⟨fdl_fresh_layout data configuration hconf hn1 hn8 hsz, s2, s1, ?_⟩
    intro j hj
    obtain ⟨c1, c2, c3, c4, c5, c6⟩ := s5 j hj
    refine ⟨c1, c2, ?_, ?_, ?_⟩
    · simp [vmx_fdl_record, fdl_log, s3, c3, fdl_touched, first_touch]
    · simp [vmx_fdl_record, c3, fdl_touched, first_touch]
    · intro nr _
      have := fdl_bit_fresh data configuration hconf hn1 hn8 hsz j nr
      simp [vmx_fdl_record, this, fdl_touched]
  | append_singleton l p ih =>
    have hl' : ∀ q, q ∈ l → q % 4096 = 0 ∧ ∃ j, j < configuration.num ∧
        (configuration.areas j).base_address ≤ q ∧
        q < (configuration.areas j).base_address + (configuration.areas j).size :=
      fun q hq => hl q (List.mem_append_left _ hq)
    obtain ⟨v1, v2, v3, v4⟩ := ih hl'
    obtain ⟨hpal, i0, hi0, hplo, hphi⟩ := hl p (List.mem_append_right _ (List.mem_singleton_self p))
    have hstep : vmx_fdl_record (fdl_fresh data configuration) (l ++ [p])
        = vmx_fdl_set_addr (vmx_fdl_record (fdl_fresh data configuration) l) p := by
      simp [vmx_fdl_record, List.foldl_append]
    rw [hstep]
    generalize vmx_fdl_record (fdl_fresh data configuration) l = d at *
    have hi0' : i0 < d.num_areas := by rw [v2]; exact hi0
    obtain ⟨r1, r2, r3, r4, -⟩ := hreg i0 hi0
    obtain ⟨w1, w2, w3, w4, w5⟩ := v4 i0 hi0
    -- the lookup finds region i0
    have hin : area_in_range p (d.areas i0) = true := by
      rw [in_range_iff (by rw [w1]; exact r1) (by rw [w2]; exact r2) (by rw [w2]; exact r3)
        (by rw [w1, w2]; exact r4) hpal, w1, w2]
      exact ⟨hplo, hphi⟩
    have hout : ∀ j, j < configuration.num → j ≠ i0 →
        ¬ ((configuration.areas j).base_address ≤ p ∧
          p < (configuration.areas j).base_address + (configuration.areas j).size) := by
      intro j hj hji
      have := hdisj j i0 hj hi0 hji
      omega
    have hlow : ∀ j, j < i0 → area_in_range p (d.areas j) = false := by
      intro j hj
      have hjn : j < configuration.num := by omega
      obtain ⟨x1, x2, x3, x4, -⟩ := hreg j hjn
      obtain ⟨y1, y2, -, -, -⟩ := v4 j hjn
      have hiff := @in_range_iff (d.areas j) p (by rw [y1]; exact x1)
        (by rw [y2]; exact x2) (by rw [y2]; exact x3) (by rw [y1, y2]; exact x4) hpal
      rw [y1, y2] at hiff
      have := hout j hjn (by omega)
      cases hc : area_in_range p (d.areas j) with
      | false => rfl
      | true => exact absurd (hiff.1 hc) this
    have hfind : vmx_fdl_ram_area d p = i0 := ram_area_lowest d p i0 v1.2.1 hi0' hin hlow
    have hne : i0 ≠ 0xff := by omega
    have hnreq : (p - (d.areas i0).base) >>> 12
        = (p - (configuration.areas i0).base_address) / 4096 := by
      rw [shift12_eq, w1]
    have hdiv : (p - (configuration.areas i0).base_address) / 4096
        < (configuration.areas i0).size / 4096 := by omega
    have hpeq : (configuration.areas i0).base_address
        + 4096 * ((p - (configuration.areas i0).base_address) / 4096) = p := by omega
    have hnr : (p - (d.areas i0).base) >>> 12 < (d.areas i0).size / 0x1000 := by
      rw [hnreq, w2]; exact hdiv
    have htouch0 : fdl_touched configuration i0 (l ++ [p])
        = fdl_touched configuration i0 l ++ [p] := by
      rw [fdl_touched_snoc, if_pos ⟨hplo, hphi⟩]
    have htouchj : ∀ j, j < configuration.num → j ≠ i0 →
        fdl_touched configuration j (l ++ [p]) = fdl_touched configuration j l := by
      intro j hj hji
      rw [fdl_touched_snoc, if_neg (hout j hj hji)]
    have hbitiff := w5 _ hdiv
    rw [hpeq, ← hnreq] at hbitiff
    cases hb : fdl_bit d i0 ((p - (d.areas i0).base) >>> 12) with
    | true =>
      have hmem : p ∈ fdl_touched configuration i0 l := hbitiff.1 hb
      obtain ⟨buf, hbuf⟩ := v1.2.2.1
      have hsame : vmx_fdl_set_addr d p = d := by
        apply set_addr_of_set hbuf hfind hne
        simpa [fdl_bit, hbuf] using hb
      rw [hsame]
      refine ⟨v1, v2, v3, ?_⟩
      intro j hj
      by_cases hji : j = i0
      · subst hji
        rw [htouch0, first_touch_snoc, if_pos ((mem_first_touch _ _).2 hmem)]
        refine ⟨w1, w2, w3, w4, ?_⟩
        intro nr hnr1
        rw [w5 nr hnr1, List.mem_append, List.mem_singleton]
        constructor
        · exact Or.inl
        · rintro (h | h)
          · exact h
          · rw [h]; exact hmem
      · rw [htouchj j hj hji]
        exact v4 j hj
    | false =>
      have hnmem : p ∉ fdl_touched configuration i0 l := by
        intro h
        have := hbitiff.2 h
        rw [hb] at this
        exact Bool.false_ne_true this
      have hnft : p ∉ first_touch (fdl_touched configuration i0 l) :=
        fun h => hnmem ((mem_first_touch _ _).1 h)
      have hlen : (first_touch (fdl_touched configuration i0 l)).length
          < (configuration.areas i0).size / 4096 := by
        have hsizeeq : (configuration.areas i0).size
            = (configuration.areas i0).size / 4096 * 0x1000 := by omega
        apply @pages_length_lt (configuration.areas i0).base_address _ p _
          (first_touch_nodup _) _ ⟨hpal, hplo, by rw [← hsizeeq]; exact hphi⟩ r1 hnft
        intro x hx
        have hx1 := (mem_first_touch _ _).1 hx
        rw [mem_fdl_touched] at hx1
        refine ⟨(hl' x hx1.1).1, hx1.2.1, ?_⟩
        rw [← hsizeeq]; exact hx1.2.2
      have hroom : (d.areas i0).stack_index < (d.areas i0).stack_max := by
        rw [w4, (layout_sep v1 hi0' hi0').2.2.2.2.1, w2]
        exact hlen
      have hp64 : p < 2 ^ 64 := by omega
      obtain ⟨q1, q2, q3, q4, q5, q6, q7, q8⟩ := set_addr_push v1 hfind hi0' hnr hp64 hb hroom
      refine ⟨q1, q2.trans v2, q3.trans v3, ?_⟩
      intro j hj
      obtain ⟨y1, y2, y3, y4, y5⟩ := v4 j hj
      have hjd : j < d.num_areas := by rw [v2]; exact hj
      have hcap : ∀ nr, nr < (configuration.areas j).size / 4096 →
          nr < 8 * PAGE_ALIGNED_SIZE (FDL_BITMAP_SIZE (d.areas j).size) := by
        intro nr hnr1
        have := (layout_sep v1 hjd hjd).1
        rw [y2] at this ⊢
        omega
      by_cases hji : j = i0
      · subst hji
        rw [htouch0, first_touch_snoc, if_neg hnft]
        refine ⟨(q4 j).1.trans y1, (q4 j).2.1.trans y2, by rw [q7, y3], ?_, ?_⟩
        · rw [q6, y4, List.length_append, List.length_singleton]
        · intro nr hnr1
          rw [q5 j nr hjd (hcap nr hnr1), List.mem_append, List.mem_singleton, ← y5 nr hnr1,
            hnreq]
          simp only [Bool.or_eq_true, decide_eq_true_eq, true_and]
          constructor
          · rintro (h | h)
            · exact Or.inl h
            · right; rw [h]; exact hpeq
          · rintro (h | h)
            · exact Or.inl h
            · right; omega
      · rw [htouchj j hj hji]
        obtain ⟨z1, z2⟩ := q8 j hjd hji
        refine ⟨(q4 j).1.trans y1, (q4 j).2.1.trans y2, by rw [z2, y3], by rw [z1, y4], ?_⟩
        intro nr hnr1
        rw [q5 j nr hjd (hcap nr hnr1), ← y5 nr hnr1]
        simp [hji]

/-- Claim C1 as stated fails when regions overlap: with two regions covering the same
page, recording that page leaves the log of region 1 empty and its bitmap clear, and
`GET_AND_RESET_COUNTS` reports 0 for region 1; so the statement quantified over every
freshly configured session does not hold. -/
theorem C1_counterexample_overlapping_regions :
    (fdl_conf_overlap.areas 1).base_address = 0x1000 ∧
    (fdl_conf_overlap.areas 1).size = 1 * 4096 ∧
    ((vmx_fdl_set_addr_times 1 (0x1000 &&& 0xFFFFFFFFFFFFF000)
      (fdl_fresh vmx_fdl_setup fdl_conf_overlap)).areas 1).stack_index = 0 ∧
    fdl_bit (vmx_fdl_set_addr_times 1 (0x1000 &&& 0xFFFFFFFFFFFFF000)
      (fdl_fresh vmx_fdl_setup fdl_conf_overlap)) 1 0 = false ∧
    ¬ (∀ (data : vm_vmx_fdl) (configuration : fdl_conf) (i N addr k : Nat),
        data.configured = false → 1 ≤ configuration.num → configuration.num ≤ 8 →
        (∀ j, j < configuration.num → (configuration.areas j).size < 2 ^ 64) →
        i < configuration.num →
        (configuration.areas i).base_address % 4096 = 0 →
        1 ≤ N → (configuration.areas i).size = N * 4096 →
        (configuration.areas i).base_address + N * 4096 ≤ 2 ^ 64 →
        (configuration.areas i).base_address ≤ addr →
        addr < (configuration.areas i).base_address + N * 4096 →
        1 ≤ k →
        ((vmx_fdl_set_addr_times k (addr &&& 0xFFFFFFFFFFFFF000)
          (fdl_fresh data configuration)).areas i).stack_index = 1) := by
  have h3 : ((vmx_fdl_set_addr_times 1 (0x1000 &&& 0xFFFFFFFFFFFFF000)
      (fdl_fresh vmx_fdl_setup fdl_conf_overlap)).areas 1).stack_index = 0 := by decide
  refine ⟨by decide, by decide, h3, by decide, ?_⟩
  intro h
  have h1 := h vmx_fdl_setup fdl_conf_overlap 1 1 0x1000 1 rfl (by decide) (by decide)
    (by intro j hj; have : j < 2 := hj; interval_cases j <;> decide)
    (by decide) (by decide) (by decide) (by decide) (by decide) (by decide) (by decide)
    (by decide)
  rw [h3] at h1
  exact absurd h1 (by decide)

theorem C1_repeated_record_one_entry_witness :
    ((vmx_fdl_set_addr_times 3 (0x107123 &&& 0xFFFFFFFFFFFFF000)
      (fdl_fresh vmx_fdl_setup fdl_conf_two)).areas 0).stack_index = 1 ∧
    fdl_log (vmx_fdl_set_addr_times 3 (0x107123 &&& 0xFFFFFFFFFFFFF000)
      (fdl_fresh vmx_fdl_setup fdl_conf_two)) 0 = [0x107123 &&& 0xFFFFFFFFFFFFF000] :=
  have h := C1_repeated_record_one_entry vmx_fdl_setup fdl_conf_two 0 64 0x107123 3
    ⟨0, fun _ => 0⟩ ⟨0, fun _ => 0⟩ rfl (by decide) (by decide)
    (by intro j hj; have : j < 2 := hj; interval_cases j <;> decide)
    (by decide) (by decide) (by decide) (by decide) (by decide) (by decide) (by decide)
    (by intro j hj hj0; have : j < 2 := hj; interval_cases j
        · exact absurd rfl hj0
        · decide)
    (by decide)
  ⟨h.2.1, h.2.2.1⟩

/-- Claim C2 (amended): starting from a freshly configured session whose regions are
pairwise non-overlapping, have page-aligned bases and positive page-multiple sizes and
end at or below 2^64, after recording any finite sequence of in-region page addresses
the log slots `[0, length)` of every region hold exactly the distinct pages of that
region in the order of their first occurrence: the length is the number of distinct
pages touched and the entries are pairwise distinct. -/
theorem C2_log_is_first_touch_order (data : vm_vmx_fdl) (configuration : fdl_conf)
    (l : List Nat)
    (hconf : data.configured = false) (hn1 : 1 ≤ configuration.num)
    (hn8 : configuration.num ≤ 8)
    (hreg : ∀ j, j < configuration.num →
      (configuration.areas j).base_address % 4096 = 0 ∧
      (configuration.areas j).size % 4096 = 0 ∧ 0 < (configuration.areas j).size ∧
      (configuration.areas j).base_address + (configuration.areas j).size ≤ 2 ^ 64 ∧
      (configuration.areas j).size < 2 ^ 64)
    (hdisj : ∀ i j, i < configuration.num → j < configuration.num → i ≠ j →
      (configuration.areas i).base_address + (configuration.areas i).size
          ≤ (configuration.areas j).base_address ∨
      (configuration.areas j).base_address + (configuration.areas j).size
          ≤ (configuration.areas i).base_address)
    (hl : ∀ p, p ∈ l → p % 4096 = 0 ∧ ∃ j, j < configuration.num ∧
      (configuration.areas j).base_address ≤ p ∧
      p < (configuration.areas j).base_address + (configuration.areas j).size) :
    let d := vmx_fdl_record (fdl_fresh data configuration) l
    ∀ j, j < configuration.num →
      fdl_log d j = first_touch (fdl_touched configuration j l) ∧
      (fdl_log d j).length = (d.areas j).stack_index ∧
      (d.areas j).stack_index = (fdl_touched configuration j l).toFinset.card ∧
      (fdl_log d j).Nodup ∧
      (∀ x, x ∈ fdl_log d j ↔ x ∈ fdl_touched configuration j l) := by
  intro d j hj
  obtain ⟨-, -, -, h4⟩ := record_invariant data configuration hconf hn1 hn8 hreg hdisj l hl
  obtain ⟨-, -, y3, y4, -⟩ := h4 j hj
  have y3' : fdl_log d j = first_touch (fdl_touched configuration j l) := y3
  have y4' : (d.areas j).stack_index = (first_touch (fdl_touched configuration j l)).length := y4
  refine ⟨y3', by rw [y3', y4'], by rw [y4', first_touch_length], ?_, ?_⟩
  · rw [y3']; exact first_touch_nodup _
  · intro x; rw [y3']; exact mem_first_touch _ x

/-- Claim C2 as stated fails for a region whose base is not page-aligned: for the one
region `[1, 0x1001)` of page size, the page address 0x1000 lies inside the region, yet
the range test `gpfn < base + (size - 1)` rejects it, so after recording it the log is
empty although one distinct page was touched. -/
theorem C2_counterexample_unaligned_base :
    (fdl_conf_unaligned.areas 0).base_address ≤ 0x1000 ∧
    0x1000 < (fdl_conf_unaligned.areas 0).base_address + (fdl_conf_unaligned.areas 0).size ∧
    ((vmx_fdl_record (fdl_fresh vmx_fdl_setup fdl_conf_unaligned) [0x1000]).areas 0).stack_index
      = 0 ∧
    (fdl_touched fdl_conf_unaligned 0 [0x1000]).toFinset.card = 1 ∧
    ¬ (∀ (data : vm_vmx_fdl) (configuration : fdl_conf) (l : List Nat),
        data.configured = false → 1 ≤ configuration.num → configuration.num ≤ 8 →
        (∀ j, j < configuration.num →
          (configuration.areas j).size % 4096 = 0 ∧ 0 < (configuration.areas j).size ∧
          (configuration.areas j).base_address + (configuration.areas j).size ≤ 2 ^ 64 ∧
          (configuration.areas j).size < 2 ^ 64) →
        (∀ i j, i < configuration.num → j < configuration.num → i ≠ j →
          (configuration.areas i).base_address + (configuration.areas i).size
              ≤ (configuration.areas j).base_address ∨
          (configuration.areas j).base_address + (configuration.areas j).size
              ≤ (configuration.areas i).base_address) →
        (∀ p, p ∈ l → p % 4096 = 0 ∧ ∃ j, j < configuration.num ∧
          (configuration.areas j).base_address ≤ p ∧
          p < (configuration.areas j).base_address + (configuration.areas j).size) →
        ∀ j, j < configuration.num →
          ((vmx_fdl_record (fdl_fresh data configuration) l).areas j).stack_index
            = (fdl_touched configuration j l).toFinset.card) := by
  have h3 : ((vmx_fdl_record (fdl_fresh vmx_fdl_setup fdl_conf_unaligned)
      [0x1000]).areas 0).stack_index = 0 := by decide
  have h4 : (fdl_touched fdl_conf_unaligned 0 [0x1000]).toFinset.card = 1 := by decide
  refine ⟨by decide, by decide, h3, h4, ?_⟩
  intro h
  have h1 := h vmx_fdl_setup fdl_conf_unaligned [0x1000] rfl (by decide) (by decide)
    (by intro j hj; have : j < 1 := hj; interval_cases j; decide)
    (by intro i j hi hj hij; have : i < 1 := hi; have : j < 1 := hj; omega)
    (by intro p hp; rw [List.mem_singleton] at hp; subst hp
        exact ⟨by decide, 0, by decide, by decide, by decide⟩)
    0 (by decide)
  rw [h3, h4] at h1
  exact absurd h1 (by decide)

theorem fdl_slice_in_region : ∀ p, p ∈ fdl_slice → p % 4096 = 0 ∧ ∃ j, j < fdl_conf_two.num ∧
    (fdl_conf_two.areas j).base_address ≤ p ∧
    p < (fdl_conf_two.areas j).base_address + (fdl_conf_two.areas j).size := by
  intro p hp
  unfold fdl_slice at hp
  rw [List.mem_append, List.mem_append] at hp
  have e0 : (fdl_conf_two.areas 0).base_address = 0x100000 := rfl
  have e1 : (fdl_conf_two.areas 0).size = 0x40000 := rfl
  have e2 : (fdl_conf_two.areas 1).base_address = 0x200000 := rfl
  have e3 : (fdl_conf_two.areas 1).size = 0x40000 := rfl
  have en : fdl_conf_two.num = 2 := rfl
  rcases hp with (hp | hp) | hp
  · rw [List.mem_map] at hp
    obtain ⟨i, hi, rfl⟩ := hp
    rw [List.mem_range] at hi
    exact ⟨by omega, 0, by omega, by rw [e0]; omega, by rw [e0, e1]; omega⟩
  · have hp' : p = 0x107000 := by simpa using hp
    subst hp'
    exact ⟨by decide, 0, by decide, by decide, by decide⟩
  · rw [List.mem_map] at hp
    obtain ⟨i, hi, rfl⟩ := hp
    rw [List.mem_range] at hi
    exact ⟨by omega, 1, by omega, by rw [e2]; omega, by rw [e2, e3]; omega⟩

theorem C2_log_is_first_touch_order_witness :
    ((vmx_fdl_record (fdl_fresh vmx_fdl_setup fdl_conf_two) fdl_slice).areas 0).stack_index
      = 30 ∧
    ((vmx_fdl_record (fdl_fresh vmx_fdl_setup fdl_conf_two) fdl_slice).areas 1).stack_index
      = 20 ∧
    (fdl_log (vmx_fdl_record (fdl_fresh vmx_fdl_setup fdl_conf_two) fdl_slice) 0).Nodup ∧
    (fdl_log (vmx_fdl_record (fdl_fresh vmx_fdl_setup fdl_conf_two) fdl_slice) 1).Nodup :=
  have h := C2_log_is_first_touch_order vmx_fdl_setup fdl_conf_two fdl_slice rfl
    (by decide) (by decide)
    (by intro j hj; have : j < 2 := hj; interval_cases j <;> decide)
    (by intro i j hi hj hij; have : i < 2 := hi; have : j < 2 := hj
        interval_cases i <;> interval_cases j <;> first | exact absurd rfl hij | decide)
    fdl_slice_in_region
  ⟨((h 0 (by decide)).2.1.symm.trans
      (congrArg List.length (h 0 (by decide)).1)).trans (by decide),
   ((h 1 (by decide)).2.1.symm.trans
      (congrArg List.length (h 1 (by decide)).1)).trans (by decide),
   (h 0 (by decide)).2.2.2.1, (h 1 (by decide)).2.2.2.1⟩

/-! ## Theorems: the ToPA buffer manager -/

theorem toInt32_of_small {n : Nat} (h : n < 2 ^ 31) : toInt32 n = (n : Int) := by
  unfold toInt32
  have h1 : n % 2 ^ 32 = n := Nat.mod_eq_of_lt (by omega)
  rw [h1, if_pos h]

/-- Claim C11: when the table-offset bits of the output-offset register select the
fallback extent and the offset `o = m >> 32` lies inside it, `vmx_pt_get_data_size`
returns `TOPA_MAIN_SIZE + o` and stamps 0x55 at index `o` of the fallback extent;
otherwise, with `o` inside the main extent, it returns `o` and stamps 0x55 at index
`o` of the main extent.  Nothing else of the session changes: the other extent, every
other byte and the output registers stay as they are. -/
theorem C11_current_size_stamps_marker (s : vcpu_vmx_pt) :
    (s.ia32_rtit_output_mask_ptrs &&& 0xFFFFFF80 ≠ 0 →
      s.ia32_rtit_output_mask_ptrs >>> 32 < TOPA_FALLBACK_SIZE →
      vmx_pt_get_data_size s =
        (((TOPA_MAIN_SIZE + s.ia32_rtit_output_mask_ptrs >>> 32 : Nat) : Int),
          { s with topa_fallback_buf :=
              Function.update s.topa_fallback_buf (s.ia32_rtit_output_mask_ptrs >>> 32) 0x55 }) ∧
      (vmx_pt_get_data_size s).2.topa_fallback_buf (s.ia32_rtit_output_mask_ptrs >>> 32) = 0x55 ∧
      (∀ j, j ≠ s.ia32_rtit_output_mask_ptrs >>> 32 →
        (vmx_pt_get_data_size s).2.topa_fallback_buf j = s.topa_fallback_buf j) ∧
      (vmx_pt_get_data_size s).2.topa_main_buf = s.topa_main_buf) ∧
    (s.ia32_rtit_output_mask_ptrs &&& 0xFFFFFF80 = 0 →
      s.ia32_rtit_output_mask_ptrs >>> 32 < TOPA_MAIN_SIZE →
      vmx_pt_get_data_size s =
        (((s.ia32_rtit_output_mask_ptrs >>> 32 : Nat) : Int),
          { s with topa_main_buf :=
              Function.update s.topa_main_buf (s.ia32_rtit_output_mask_ptrs >>> 32) 0x55 }) ∧
      (vmx_pt_get_data_size s).2.topa_main_buf (s.ia32_rtit_output_mask_ptrs >>> 32) = 0x55 ∧
      (∀ j, j ≠ s.ia32_rtit_output_mask_ptrs >>> 32 →
        (vmx_pt_get_data_size s).2.topa_main_buf j = s.topa_main_buf j) ∧
      (vmx_pt_get_data_size s).2.topa_fallback_buf = s.topa_fallback_buf) ∧
    (vmx_pt_get_data_size s).2.ia32_rtit_output_base = s.ia32_rtit_output_base ∧
    (vmx_pt_get_data_size s).2.ia32_rtit_output_mask_ptrs = s.ia32_rtit_output_mask_ptrs ∧
    TOPA_MAIN_SIZE = 4194304 ∧ TOPA_FALLBACK_SIZE = 65536 := by
  have hf := get_data_size_frame s
  have hmain : TOPA_MAIN_SIZE = 4194304 := by decide
  have hfb : TOPA_FALLBACK_SIZE = 65536 := by decide
  refine ⟨?_, ?_, hf.2.2.2.1, hf.2.2.2.2.1, hmain, hfb⟩
  · intro hsel ho
    have heq : vmx_pt_get_data_size s =
        (((TOPA_MAIN_SIZE + s.ia32_rtit_output_mask_ptrs >>> 32 : Nat) : Int),
          { s with topa_fallback_buf :=
              Function.update s.topa_fallback_buf (s.ia32_rtit_output_mask_ptrs >>> 32) 0x55 }) := by
      unfold vmx_pt_get_data_size
      simp only [TOPA_MASK_OR_TABLE_OFFSET, PT_TRACE_END]
      rw [if_pos hsel, if_pos ho, toInt32_of_small (by rw [hmain]; rw [hfb] at ho; omega)]
    rw [heq]
    refine ⟨rfl, ?_, ?_, rfl⟩
    · simp
    · intro j hj; simp [Function.update_noteq hj]
  · intro hsel ho
    have heq : vmx_pt_get_data_size s =
        (((s.ia32_rtit_output_mask_ptrs >>> 32 : Nat) : Int),
          { s with topa_main_buf :=
              Function.update s.topa_main_buf (s.ia32_rtit_output_mask_ptrs >>> 32) 0x55 }) := by
      unfold vmx_pt_get_data_size
      simp only [TOPA_MASK_OR_TABLE_OFFSET, PT_TRACE_END]
      rw [if_neg (by simpa using hsel), toInt32_of_small (by rw [hmain] at ho; omega)]
    rw [heq]
    refine ⟨rfl, ?_, ?_, rfl⟩
    · simp
    · intro j hj; simp [Function.update_noteq hj]

theorem C11_current_size_stamps_marker_witness :
    (vmx_pt_get_data_size pt_session_fallback).1 = 4194304 + 0x20 ∧
    (vmx_pt_get_data_size pt_session_fallback).2.topa_fallback_buf 0x20 = 0x55 ∧
    (vmx_pt_get_data_size pt_session_tracing).1 = 0x1234 ∧
    (vmx_pt_get_data_size pt_session_tracing).2.topa_main_buf 0x1234 = 0x55 :=
  have h1 := (C11_current_size_stamps_marker pt_session_fallback).1 (by decide) (by decide)
  have h2 := (C11_current_size_stamps_marker pt_session_tracing).2.1 (by decide) (by decide)
  ⟨(congrArg Prod.fst h1.1).trans (by decide), h1.2.1,
   (congrArg Prod.fst h2.1).trans (by decide), h2.2.1⟩

theorem get_data_size_idem (s : vcpu_vmx_pt) :
    vmx_pt_get_data_size (vmx_pt_get_data_size s).2 = vmx_pt_get_data_size s := by
  unfold vmx_pt_get_data_size
  simp only
  split_ifs <;> simp

theorem check_overflow_eq (s : vcpu_vmx_pt) :
    vmx_pt_check_overflow s =
      if (vmx_pt_get_data_size s).1 ≥ (TOPA_MAIN_SIZE : Int) then
        ((vmx_pt_get_data_size s).1, topa_reset (vmx_pt_get_data_size s).2)
      else (0, (vmx_pt_get_data_size s).2) := rfl

/-- The result and the session after CHECK_OVERFLOW, by the two cases of the size. -/
theorem ioctl_check_eq (sa : Nat) (s : vcpu_vmx_pt) :
    vmx_pt_ioctl sa .KVM_VMX_PT_CHECK_TOPA_OVERFLOW s =
      if (vmx_pt_get_data_size s).1 ≥ (TOPA_MAIN_SIZE : Int) then
        ((vmx_pt_get_data_size s).1,
          { topa_reset (vmx_pt_get_data_size s).2 with reset := true })
      else (0, (vmx_pt_get_data_size s).2) := by
  have hm : (TOPA_MAIN_SIZE : Int) = 4194304 := by decide
  simp only [vmx_pt_ioctl, check_overflow_eq]
  by_cases h : (vmx_pt_get_data_size s).1 ≥ (TOPA_MAIN_SIZE : Int)
  · have hne : (vmx_pt_get_data_size s).1 ≠ 0 := by rw [hm] at h; omega
    simp only [h, if_true, hne, ne_eq, not_false_eq_true]
  · simp only [h, if_false, ne_eq, not_true_eq_false]

/-- Every session reached from the post-setup state keeps `0x7f` and the setup value
of the output base as the initial values of its output registers. -/
theorem reach_init {pa : Nat → Nat} {main_buffer fallback_buffer topa : Nat}
    {s0 : vcpu_vmx_pt}
    (hsetup : (vmx_pt_setup true pa main_buffer fallback_buffer topa).2 = some s0)
    (sa : Nat) (hw0 : pt_msrs) (es : List pt_event) :
    (pt_run sa ⟨hw0, s0⟩ es).pt.ia32_rtit_output_mask_ptrs_init = 0x7f ∧
    (pt_run sa ⟨hw0, s0⟩ es).pt.ia32_rtit_output_base_init = s0.ia32_rtit_output_base ∧
    s0.ia32_rtit_output_mask_ptrs = 0x7f := by
  obtain ⟨-, -, -, hmi, hm0, hbi⟩ := setup_post hsetup
  have hinit := run_init sa ⟨hw0, s0⟩ es
  exact ⟨hinit.2.trans hmi, hinit.1.trans hbi, hm0⟩

/-- Claim C12: in a session reached from the post-setup state whose size, as
`vmx_pt_get_data_size` computes it, is at least `TOPA_MAIN_SIZE`, CHECK_OVERFLOW
returns that size and restores output base and output offset to their post-setup
values; the size computed right afterwards is 0, and the next CHECK_OVERFLOW returns 0
and resets nothing. -/
theorem C12_check_overflow_resets_once (supported_addrn : Nat) (pa : Nat → Nat)
    (main_buffer fallback_buffer topa : Nat) (s0 : vcpu_vmx_pt) (hw0 : pt_msrs)
    (es : List pt_event)
    (hsetup : (vmx_pt_setup true pa main_buffer fallback_buffer topa).2 = some s0)
    (hfull : (vmx_pt_get_data_size (pt_run supported_addrn ⟨hw0, s0⟩ es).pt).1
      ≥ (TOPA_MAIN_SIZE : Int)) :
    let s := (pt_run supported_addrn ⟨hw0, s0⟩ es).pt
    let r1 := vmx_pt_ioctl supported_addrn .KVM_VMX_PT_CHECK_TOPA_OVERFLOW s
    let r2 := vmx_pt_ioctl supported_addrn .KVM_VMX_PT_CHECK_TOPA_OVERFLOW r1.2
    r1.1 = (vmx_pt_get_data_size s).1 ∧ r1.1 ≥ (TOPA_MAIN_SIZE : Int) ∧
    r1.2.ia32_rtit_output_base = s0.ia32_rtit_output_base ∧
    r1.2.ia32_rtit_output_mask_ptrs = s0.ia32_rtit_output_mask_ptrs ∧
    (vmx_pt_get_data_size r1.2).1 = 0 ∧
    r2.1 = 0 ∧
    r2.2.ia32_rtit_output_base = r1.2.ia32_rtit_output_base ∧
    r2.2.ia32_rtit_output_mask_ptrs = r1.2.ia32_rtit_output_mask_ptrs := by
  intro s r1 r2
  obtain ⟨hmi, hbi, hm0⟩ := reach_init hsetup supported_addrn hw0 es
  have hf := get_data_size_frame s
  have hr1 : r1 = ((vmx_pt_get_data_size s).1,
      { topa_reset (vmx_pt_get_data_size s).2 with reset := true }) := by
    show vmx_pt_ioctl supported_addrn .KVM_VMX_PT_CHECK_TOPA_OVERFLOW s = _
    rw [ioctl_check_eq, if_pos hfull]
  have hmask : r1.2.ia32_rtit_output_mask_ptrs = 0x7f := by
    rw [hr1]; simp only [topa_reset]; rw [hf.2.2.2.2.2.2]; exact hmi
  have hbase : r1.2.ia32_rtit_output_base = s0.ia32_rtit_output_base := by
    rw [hr1]; simp only [topa_reset]; rw [hf.2.2.2.2.2.1]; exact hbi
  have hzero : (vmx_pt_get_data_size r1.2).1 = 0 := get_data_size_of_init r1.2 hmask
  have hnot : ¬ (vmx_pt_get_data_size r1.2).1 ≥ (TOPA_MAIN_SIZE : Int) := by
    rw [hzero]; decide
  have hr2 : r2 = (0, (vmx_pt_get_data_size r1.2).2) := by
    show vmx_pt_ioctl supported_addrn .KVM_VMX_PT_CHECK_TOPA_OVERFLOW r1.2 = _
    rw [ioctl_check_eq, if_neg hnot]
  have hf2 := get_data_size_frame r1.2
  refine ⟨by rw [hr1], by rw [hr1]; exact hfull, hbase, hmask.trans hm0.symm, hzero,
    by rw [hr2], ?_, ?_⟩
  · rw [hr2]; exact hf2.2.2.2.1
  · rw [hr2]; exact hf2.2.2.2.2.1

theorem C12_check_overflow_resets_once_witness :
    (vmx_pt_ioctl 2 .KVM_VMX_PT_CHECK_TOPA_OVERFLOW
      (pt_run 2 ⟨pt_msrs_zero, pt_session0⟩ pt_events_to_fallback).pt).1 = 4194304 + 0x20 ∧
    (vmx_pt_ioctl 2 .KVM_VMX_PT_CHECK_TOPA_OVERFLOW
      (vmx_pt_ioctl 2 .KVM_VMX_PT_CHECK_TOPA_OVERFLOW
        (pt_run 2 ⟨pt_msrs_zero, pt_session0⟩ pt_events_to_fallback).pt).2).1 = 0 :=
  have h := C12_check_overflow_resets_once 2 pa_id 0x100000 0x600000 0x700000 pt_session0
    pt_msrs_zero pt_events_to_fallback pt_session0_setup (by decide)
  ⟨h.1.trans (by decide), h.2.2.2.2.2.1⟩

/-- Claim C13 (counterexample): in the TRACING session `pt_session_tracing` the size
`vmx_pt_get_data_size` computes is 0x1234, below the capacity 0x400000, and
CHECK_OVERFLOW returns 0, not that size. -/
theorem C13_counterexample_below_capacity_returns_zero :
    (vmx_pt_get_data_size pt_session_tracing).1 = 0x1234 ∧
    (vmx_pt_ioctl 2 .KVM_VMX_PT_CHECK_TOPA_OVERFLOW pt_session_tracing).1 = 0 ∧
    (vmx_pt_ioctl 2 .KVM_VMX_PT_CHECK_TOPA_OVERFLOW pt_session_tracing).1
      ≠ (vmx_pt_get_data_size pt_session_tracing).1 ∧
    ¬ (∀ (supported_addrn : Nat) (s : vcpu_vmx_pt),
        (vmx_pt_ioctl supported_addrn .KVM_VMX_PT_CHECK_TOPA_OVERFLOW s).1
          = (vmx_pt_get_data_size s).1) := by
  have h1 : (vmx_pt_get_data_size pt_session_tracing).1 = 0x1234 := by decide
  have h2 : (vmx_pt_ioctl 2 .KVM_VMX_PT_CHECK_TOPA_OVERFLOW pt_session_tracing).1 = 0 := by
    rw [ioctl_check_eq, if_neg (by rw [h1]; decide)]
  refine ⟨h1, h2, by rw [h1, h2]; decide, ?_⟩
  intro hall
  have h := hall 2 pt_session_tracing
  rw [h1, h2] at h
  exact absurd h (by decide)

/-- Claim C13 (amended): CHECK_OVERFLOW returns the current logical size, the value
`vmx_pt_get_data_size` computes for the current output offset, exactly when that size
is at least the main-extent capacity `TOPA_MAIN_SIZE`; the result is then non-zero, the
output registers are restored to their initial values and a reset is requested.  When
the size is below the capacity it returns 0, the non-triggering result, and leaves the
session as the size computation left it: the end marker is stamped, and output base,
output offset and the reset request flag are unchanged. -/
theorem C13_check_overflow_reports_size_only_when_full (supported_addrn : Nat)
    (s : vcpu_vmx_pt) :
    ((vmx_pt_get_data_size s).1 ≥ (TOPA_MAIN_SIZE : Int) →
      vmx_pt_ioctl supported_addrn .KVM_VMX_PT_CHECK_TOPA_OVERFLOW s
        = ((vmx_pt_get_data_size s).1,
            { topa_reset (vmx_pt_get_data_size s).2 with reset := true }) ∧
      (vmx_pt_ioctl supported_addrn .KVM_VMX_PT_CHECK_TOPA_OVERFLOW s).1 ≠ 0 ∧
      (vmx_pt_ioctl supported_addrn .KVM_VMX_PT_CHECK_TOPA_OVERFLOW s).2.ia32_rtit_output_base
        = s.ia32_rtit_output_base_init ∧
      (vmx_pt_ioctl supported_addrn
          .KVM_VMX_PT_CHECK_TOPA_OVERFLOW s).2.ia32_rtit_output_mask_ptrs
        = s.ia32_rtit_output_mask_ptrs_init) ∧
    (¬ (vmx_pt_get_data_size s).1 ≥ (TOPA_MAIN_SIZE : Int) →
      vmx_pt_ioctl supported_addrn .KVM_VMX_PT_CHECK_TOPA_OVERFLOW s
        = (0, (vmx_pt_get_data_size s).2) ∧
      (vmx_pt_ioctl supported_addrn .KVM_VMX_PT_CHECK_TOPA_OVERFLOW s).2.ia32_rtit_output_base
        = s.ia32_rtit_output_base ∧
      (vmx_pt_ioctl supported_addrn
          .KVM_VMX_PT_CHECK_TOPA_OVERFLOW s).2.ia32_rtit_output_mask_ptrs
        = s.ia32_rtit_output_mask_ptrs ∧
      (vmx_pt_ioctl supported_addrn .KVM_VMX_PT_CHECK_TOPA_OVERFLOW s).2.reset = s.reset) := by
  obtain ⟨-, -, -, f4, f5, f6, f7⟩ := get_data_size_frame s
  have hreset : (vmx_pt_get_data_size s).2.reset = s.reset := by
    unfold vmx_pt_get_data_size
    simp only
    split_ifs <;> rfl
  constructor
  · intro hfull
    rw [ioctl_check_eq, if_pos hfull]
    refine ⟨rfl, ?_, ?_, ?_⟩
    · intro h0
      simp only at h0
      rw [h0] at hfull
      exact absurd hfull (by decide)
    · simp only [topa_reset]
      exact f6
    · simp only [topa_reset]
      exact f7
  · intro hbelow
    rw [ioctl_check_eq, if_neg hbelow]
    exact ⟨rfl, f4, f5, hreset⟩

theorem C13_check_overflow_reports_size_only_when_full_witness :
    vmx_pt_ioctl 2 .KVM_VMX_PT_CHECK_TOPA_OVERFLOW pt_session_tracing
      = (0, (vmx_pt_get_data_size pt_session_tracing).2) ∧
    (vmx_pt_ioctl 2 .KVM_VMX_PT_CHECK_TOPA_OVERFLOW pt_session_tracing).2.ia32_rtit_output_mask_ptrs
      = 0x12340000007f ∧
    (vmx_pt_ioctl 2 .KVM_VMX_PT_CHECK_TOPA_OVERFLOW pt_session_fallback).1 = 4194304 + 0x20 ∧
    (vmx_pt_ioctl 2 .KVM_VMX_PT_CHECK_TOPA_OVERFLOW pt_session_fallback).2.ia32_rtit_output_mask_ptrs
      = 0x7f :=
  have hb := (C13_check_overflow_reports_size_only_when_full 2 pt_session_tracing).2 (by decide)
  have hf := (C13_check_overflow_reports_size_only_when_full 2 pt_session_fallback).1 (by decide)
  ⟨hb.1, hb.2.2.1.trans (by decide), (congrArg Prod.fst hf.1).trans (by decide),
    hf.2.2.2.trans (by decide)⟩

/-- Claim C14: in a session reached from the post-setup state, of two CHECK_OVERFLOW
calls with no hook in between the second returns 0, the result that triggers nothing,
and leaves output base and output offset as the first call left them; when the first
call triggered nothing either, the second returns the same result and leaves the very
session the first one left. -/
theorem C14_check_overflow_idempotent (supported_addrn : Nat) (pa : Nat → Nat)
    (main_buffer fallback_buffer topa : Nat) (s0 : vcpu_vmx_pt) (hw0 : pt_msrs)
    (es : List pt_event)
    (hsetup : (vmx_pt_setup true pa main_buffer fallback_buffer topa).2 = some s0) :
    let s := (pt_run supported_addrn ⟨hw0, s0⟩ es).pt
    let r1 := vmx_pt_ioctl supported_addrn .KVM_VMX_PT_CHECK_TOPA_OVERFLOW s
    let r2 := vmx_pt_ioctl supported_addrn .KVM_VMX_PT_CHECK_TOPA_OVERFLOW r1.2
    r2.1 = 0 ∧ ¬ (vmx_pt_get_data_size r1.2).1 ≥ (TOPA_MAIN_SIZE : Int) ∧
    r2.2.ia32_rtit_output_base = r1.2.ia32_rtit_output_base ∧
    r2.2.ia32_rtit_output_mask_ptrs = r1.2.ia32_rtit_output_mask_ptrs ∧
    (¬ (vmx_pt_get_data_size s).1 ≥ (TOPA_MAIN_SIZE : Int) → r2.1 = r1.1 ∧ r2.2 = r1.2) := by
  intro s r1 r2
  obtain ⟨hmi, -, -⟩ := reach_init hsetup supported_addrn hw0 es
  have hf := get_data_size_frame s
  have hnot : ¬ (vmx_pt_get_data_size r1.2).1 ≥ (TOPA_MAIN_SIZE : Int) := by
    by_cases hfull : (vmx_pt_get_data_size s).1 ≥ (TOPA_MAIN_SIZE : Int)
    · have hr1 : r1 = ((vmx_pt_get_data_size s).1,
          { topa_reset (vmx_pt_get_data_size s).2 with reset := true }) := by
        show vmx_pt_ioctl supported_addrn .KVM_VMX_PT_CHECK_TOPA_OVERFLOW s = _
        rw [ioctl_check_eq, if_pos hfull]
      have hmask : r1.2.ia32_rtit_output_mask_ptrs = 0x7f := by
        rw [hr1]; simp only [topa_reset]; rw [hf.2.2.2.2.2.2]; exact hmi
      rw [get_data_size_of_init r1.2 hmask]; decide
    · have hr1 : r1 = (0, (vmx_pt_get_data_size s).2) := by
        show vmx_pt_ioctl supported_addrn .KVM_VMX_PT_CHECK_TOPA_OVERFLOW s = _
        rw [ioctl_check_eq, if_neg hfull]
      rw [hr1]
      simp only
      rw [get_data_size_idem]
      exact hfull
  have hr2 : r2 = (0, (vmx_pt_get_data_size r1.2).2) := by
    show vmx_pt_ioctl supported_addrn .KVM_VMX_PT_CHECK_TOPA_OVERFLOW r1.2 = _
    rw [ioctl_check_eq, if_neg hnot]
  have hf2 := get_data_size_frame r1.2
  refine ⟨by rw [hr2], hnot, by rw [hr2]; exact hf2.2.2.2.1, by rw [hr2]; exact hf2.2.2.2.2.1, ?_⟩
  intro hfull
  have hr1 : r1 = (0, (vmx_pt_get_data_size s).2) := by
    show vmx_pt_ioctl supported_addrn .KVM_VMX_PT_CHECK_TOPA_OVERFLOW s = _
    rw [ioctl_check_eq, if_neg hfull]
  rw [hr2, hr1]
  simp only
  rw [get_data_size_idem]
  exact ⟨trivial, rfl⟩

theorem C14_check_overflow_idempotent_witness :
    (vmx_pt_ioctl 2 .KVM_VMX_PT_CHECK_TOPA_OVERFLOW
      (vmx_pt_ioctl 2 .KVM_VMX_PT_CHECK_TOPA_OVERFLOW
        (pt_run 2 ⟨pt_msrs_zero, pt_session0⟩ pt_events_to_tracing).pt).2).1 = 0 ∧
    (vmx_pt_ioctl 2 .KVM_VMX_PT_CHECK_TOPA_OVERFLOW
      (vmx_pt_ioctl 2 .KVM_VMX_PT_CHECK_TOPA_OVERFLOW
        (pt_run 2 ⟨pt_msrs_zero, pt_session0⟩ pt_events_to_tracing).pt).2).2 =
    (vmx_pt_ioctl 2 .KVM_VMX_PT_CHECK_TOPA_OVERFLOW
      (pt_run 2 ⟨pt_msrs_zero, pt_session0⟩ pt_events_to_tracing).pt).2 :=
  have h := C14_check_overflow_idempotent 2 pa_id 0x100000 0x600000 0x700000 pt_session0
    pt_msrs_zero pt_events_to_tracing pt_session0_setup
  ⟨h.1, (h.2.2.2.2 (by decide)).2⟩

/-! ## Theorems: filter capacity -/

theorem testBit_or_bit (c k j : Nat) :
    (c ||| BIT_ULL k).testBit j = (c.testBit j || decide (k = j)) := by
  unfold BIT_ULL
  rw [Nat.testBit_or, Nat.testBit_two_pow]

theorem testBit_xor_bit (c k j : Nat) :
    (c ^^^ BIT_ULL k).testBit j = (c.testBit j ^^ decide (k = j)) := by
  unfold BIT_ULL
  rw [Nat.testBit_xor, Nat.testBit_two_pow]

theorem and_bit_ne_zero (c k : Nat) : c &&& BIT_ULL k ≠ 0 ↔ c.testBit k = true := by
  unfold BIT_ULL
  constructor
  · intro h
    by_contra hb
    apply h
    apply Nat.eq_of_testBit_eq
    intro j
    rw [Nat.testBit_and, Nat.testBit_two_pow, Nat.zero_testBit]
    by_cases hj : k = j
    · subst hj; simp [hb]
    · simp [hj]
  · intro h h0
    have : (c &&& 2 ^ k).testBit k = true := by
      rw [Nat.testBit_and, Nat.testBit_two_pow_self, h]; rfl
    rw [h0, Nat.zero_testBit] at this
    exact Bool.false_ne_true this

theorem get_data_size_ctrl (s : vcpu_vmx_pt) :
    (vmx_pt_get_data_size s).2.ia32_rtit_ctrl_msr = s.ia32_rtit_ctrl_msr := by
  unfold vmx_pt_get_data_size
  simp only
  split_ifs <;> rfl

/-- How a control command changes the control flags: not at all, by setting the enable
bit of a range below the probed count, by clearing a bit that was set, or by setting
the CR3-filter bit. -/
theorem ioctl_ctrl (sa : Nat) (cmd : pt_ioctl_cmd) (s : vcpu_vmx_pt) :
    (vmx_pt_ioctl sa cmd s).2.ia32_rtit_ctrl_msr = s.ia32_rtit_ctrl_msr ∨
    (∃ n, n < 4 ∧ n < sa ∧
      (vmx_pt_ioctl sa cmd s).2.ia32_rtit_ctrl_msr
        = s.ia32_rtit_ctrl_msr ||| BIT_ULL (32 + 4 * n)) ∨
    (∃ k, s.ia32_rtit_ctrl_msr.testBit k = true ∧
      (vmx_pt_ioctl sa cmd s).2.ia32_rtit_ctrl_msr = s.ia32_rtit_ctrl_msr ^^^ BIT_ULL k) ∨
    (vmx_pt_ioctl sa cmd s).2.ia32_rtit_ctrl_msr = s.ia32_rtit_ctrl_msr ||| BIT_ULL 7 := by
  have hg := get_data_size_ctrl s
  cases cmd with
  | KVM_VMX_PT_ENABLE_ADDR0 =>
    simp only [vmx_pt_ioctl]
    split_ifs with h
    · exact Or.inr (Or.inl ⟨0, by omega, by omega, rfl⟩)
    · exact Or.inl rfl
  | KVM_VMX_PT_ENABLE_ADDR1 =>
    simp only [vmx_pt_ioctl]
    split_ifs with h
    · exact Or.inr (Or.inl ⟨1, by omega, by omega, rfl⟩)
    · exact Or.inl rfl
  | KVM_VMX_PT_ENABLE_ADDR2 =>
    simp only [vmx_pt_ioctl]
    split_ifs with h
    · exact Or.inr (Or.inl ⟨2, by omega, by omega, rfl⟩)
    · exact Or.inl rfl
  | KVM_VMX_PT_ENABLE_ADDR3 =>
    simp only [vmx_pt_ioctl]
    split_ifs with h
    · exact Or.inr (Or.inl ⟨3, by omega, by omega, rfl⟩)
    · exact Or.inl rfl
  | KVM_VMX_PT_DISABLE_ADDR0 =>
    simp only [vmx_pt_ioctl]
    split_ifs with h
    · exact Or.inr (Or.inr (Or.inl ⟨32, (and_bit_ne_zero _ 32).1 h.2, rfl⟩))
    · exact Or.inl rfl
  | KVM_VMX_PT_DISABLE_ADDR1 =>
    simp only [vmx_pt_ioctl]
    split_ifs with h
    · exact Or.inr (Or.inr (Or.inl ⟨36, (and_bit_ne_zero _ 36).1 h.2, rfl⟩))
    · exact Or.inl rfl
  | KVM_VMX_PT_DISABLE_ADDR2 =>
    simp only [vmx_pt_ioctl]
    split_ifs with h
    · exact Or.inr (Or.inr (Or.inl ⟨40, (and_bit_ne_zero _ 40).1 h.2, rfl⟩))
    · exact Or.inl rfl
  | KVM_VMX_PT_DISABLE_ADDR3 =>
    simp only [vmx_pt_ioctl]
    split_ifs with h
    · exact Or.inr (Or.inr (Or.inl ⟨44, (and_bit_ne_zero _ 44).1 h.2, rfl⟩))
    · exact Or.inl rfl
  | KVM_VMX_PT_ENABLE_CR3 =>
    simp only [vmx_pt_ioctl]
    split_ifs with h
    · exact Or.inr (Or.inr (Or.inr rfl))
    · exact Or.inl rfl
  | KVM_VMX_PT_DISABLE_CR3 =>
    simp only [vmx_pt_ioctl]
    split_ifs with h
    · exact Or.inr (Or.inr (Or.inl ⟨7, (and_bit_ne_zero _ 7).1 h.2, rfl⟩))
    · exact Or.inl rfl
  | KVM_VMX_PT_CHECK_TOPA_OVERFLOW =>
    left
    rw [ioctl_check_eq]
    split_ifs <;> simp [topa_reset, hg]
  | KVM_VMX_PT_DISABLE =>
    left
    simp only [vmx_pt_ioctl]
    split_ifs <;> simp [hg]
  | KVM_VMX_PT_ENABLE =>
    left
    rw [ioctl_enable_eq]
    simp only
    split_ifs <;> rfl
  | _ =>
    left
    simp only [vmx_pt_ioctl] <;> (try split_ifs) <;> (try split) <;> (try split_ifs) <;> rfl

theorem addr_bits_ok_step (sa : Nat) (m : pt_machine) (e : pt_event)
    (h : addr_bits_ok sa m.pt.ia32_rtit_ctrl_msr) :
    addr_bits_ok sa (pt_step sa m e).pt.ia32_rtit_ctrl_msr := by
  cases e with
  | ioctl cmd =>
    have hstep : (pt_step sa m (.ioctl cmd)).pt = (vmx_pt_ioctl sa cmd m.pt).2 := rfl
    rw [hstep]
    rcases ioctl_ctrl sa cmd m.pt with h1 | ⟨n, hn4, hnsa, h1⟩ | ⟨k, hk, h1⟩ | h1
    · rw [h1]; exact h
    · rw [h1]
      intro j hj hb
      rw [testBit_or_bit] at hb
      by_cases hjn : 32 + 4 * n = 32 + 4 * j
      · omega
      · simp only [hjn, decide_False, Bool.or_false] at hb
        exact h j hj hb
    · rw [h1]
      intro j hj hb
      rw [testBit_xor_bit] at hb
      by_cases hjk : k = 32 + 4 * j
      · subst hjk
        simp [hk] at hb
      · simp only [hjk, decide_False, Bool.xor_false] at hb
        exact h j hj hb
    · rw [h1]
      intro j hj hb
      rw [testBit_or_bit] at hb
      have hne : ¬ (7 = 32 + 4 * j) := by omega
      simp only [hne, decide_False, Bool.or_false] at hb
      exact h j hj hb
  | vmentry cpu =>
    have hc : (pt_step sa m (.vmentry cpu)).pt.ia32_rtit_ctrl_msr = m.pt.ia32_rtit_ctrl_msr := by
      simp only [pt_step, vmx_pt_vmentry, vmx_pt_enable, vmx_pt_disable, topa_reset,
        vmx_pt_setup_vmx_autoload_msr]
      split_ifs <;> rfl
    rw [hc]; exact h
  | vmexit =>
    have hc : (pt_step sa m .vmexit).pt.ia32_rtit_ctrl_msr = m.pt.ia32_rtit_ctrl_msr := by
      simp only [pt_step, vmx_pt_vmexit]
      split_ifs <;> rfl
    rw [hc]; exact h
  | toggle_entry =>
    have hc : (pt_step sa m .toggle_entry).pt.ia32_rtit_ctrl_msr = m.pt.ia32_rtit_ctrl_msr := by
      simp only [pt_step, vmx_pt_toggle_entry, vmx_pt_setup_vmx_autoload_msr]
      split_ifs <;> rfl
    rw [hc]; exact h
  | toggle_exit =>
    have hc : (pt_step sa m .toggle_exit).pt.ia32_rtit_ctrl_msr = m.pt.ia32_rtit_ctrl_msr := by
      simp only [pt_step, vmx_pt_toggle_exit, vmx_pt_setup_vmx_autoload_msr]
      split_ifs <;> rfl
    rw [hc]; exact h
  | guest hw => exact h

theorem addr_bits_ok_run (sa : Nat) (m : pt_machine) (es : List pt_event)
    (h : addr_bits_ok sa m.pt.ia32_rtit_ctrl_msr) :
    addr_bits_ok sa (pt_run sa m es).pt.ia32_rtit_ctrl_msr := by
  induction es using List.reverseRecOn with
  | nil => exact h
  | append_singleton es e ih =>
    rw [run_snoc]
    exact addr_bits_ok_step sa _ e ih

theorem setup_ctrl {pa : Nat → Nat} {main_buffer fallback_buffer topa : Nat} {s0 : vcpu_vmx_pt}
    (h : (vmx_pt_setup true pa main_buffer fallback_buffer topa).2 = some s0) :
    s0.ia32_rtit_ctrl_msr = 10508 := by
  unfold vmx_pt_setup vmx_pt_setup_topa at h
  by_cases h1 : main_buffer = 0
  · simp [h1, ENOMEM] at h
  · by_cases h2 : fallback_buffer = 0
    · simp [h1, h2, ENOMEM] at h
    · by_cases h3 : topa = 0
      · simp [h1, h2, h3, ENOMEM] at h
      · simp [h1, h2, h3] at h
        subst h
        simp only [vmx_pt_setup_msrs]
        decide

theorem enabled_ranges_le (sa ctrl : Nat) (h : addr_bits_ok sa ctrl) :
    enabled_ranges ctrl ≤ sa := by
  unfold enabled_ranges
  have h0 := h 0 (by omega)
  have h1 := h 1 (by omega)
  have h2 := h 2 (by omega)
  have h3 := h 3 (by omega)
  simp only [Nat.mul_zero, Nat.add_zero, Nat.mul_one] at h0 h1 h2 h3
  have hr : List.range 4 = [0, 1, 2, 3] := by decide
  rw [hr]
  simp only [List.filter_cons, List.filter_nil, Nat.mul_zero, Nat.add_zero, Nat.mul_one]
  cases hb0 : ctrl.testBit 32 <;> cases hb1 : ctrl.testBit (32 + 4) <;>
    cases hb2 : ctrl.testBit (32 + 4 * 2) <;> cases hb3 : ctrl.testBit (32 + 4 * 3) <;>
    simp only [hb0, hb1, hb2, hb3, true_implies, Bool.false_eq_true, false_implies] at h0 h1 h2 h3 <;>
    simp <;> omega

/-- Claim C15: in every session reached from the post-setup state through control
commands and hooks, the number of enabled IP-filter ranges (enable bits 32, 36, 40, 44
of the control flags) is at most `supported_addrn`, and a set enable bit belongs to a
range below that count; `CONFIGURE_FILTER[n]` and `ENABLE_FILTER[n]` with
`n >= supported_addrn` return the invalid-operation result and change nothing, in
every session and for every argument. -/
theorem C15_enabled_ranges_bounded (supported_addrn : Nat) (pa : Nat → Nat)
    (main_buffer fallback_buffer topa : Nat) (s0 : vcpu_vmx_pt) (hw0 : pt_msrs)
    (es : List pt_event)
    (hsetup : (vmx_pt_setup true pa main_buffer fallback_buffer topa).2 = some s0) :
    let s := (pt_run supported_addrn ⟨hw0, s0⟩ es).pt
    enabled_ranges s.ia32_rtit_ctrl_msr ≤ supported_addrn ∧
    (∀ n, n < 4 → s.ia32_rtit_ctrl_msr.testBit (32 + 4 * n) = true → n < supported_addrn) ∧
    (∀ (n : Fin 4), supported_addrn ≤ n.val →
      ∀ (t : vcpu_vmx_pt) (argp : Option vmx_pt_filter_iprs),
        vmx_pt_ioctl supported_addrn (CONFIGURE_ADDR n argp) t = (-22, t) ∧
        vmx_pt_ioctl supported_addrn (ENABLE_ADDR n) t = (-22, t)) := by
  intro s
  have h0 : addr_bits_ok supported_addrn (⟨hw0, s0⟩ : pt_machine).pt.ia32_rtit_ctrl_msr := by
    show addr_bits_ok supported_addrn s0.ia32_rtit_ctrl_msr
    rw [setup_ctrl hsetup]
    intro n hn hb
    interval_cases n <;> exact absurd hb (by decide)
  have hs : addr_bits_ok supported_addrn s.ia32_rtit_ctrl_msr :=
    addr_bits_ok_run supported_addrn _ es h0
  refine ⟨enabled_ranges_le _ _ hs, hs, ?_⟩
  intro n hn t argp
  fin_cases n
  · have h1 : ¬ supported_addrn ≥ 1 := by simp at hn; omega
    simp [vmx_pt_ioctl, CONFIGURE_ADDR, ENABLE_ADDR, h1, EINVAL]
  · have h1 : ¬ supported_addrn ≥ 2 := by simp at hn; omega
    simp [vmx_pt_ioctl, CONFIGURE_ADDR, ENABLE_ADDR, h1, EINVAL]
  · have h1 : ¬ supported_addrn ≥ 3 := by simp at hn; omega
    simp [vmx_pt_ioctl, CONFIGURE_ADDR, ENABLE_ADDR, h1, EINVAL]
  · have h1 : ¬ supported_addrn ≥ 4 := by simp at hn; omega
    simp [vmx_pt_ioctl, CONFIGURE_ADDR, ENABLE_ADDR, h1, EINVAL]

theorem C15_enabled_ranges_bounded_witness :
    enabled_ranges (pt_run 2 ⟨pt_msrs_zero, pt_session0⟩
      pt_events_two_filters).pt.ia32_rtit_ctrl_msr ≤ 2 ∧
    enabled_ranges (pt_run 2 ⟨pt_msrs_zero, pt_session0⟩
      pt_events_two_filters).pt.ia32_rtit_ctrl_msr = 2 ∧
    vmx_pt_ioctl 2 (ENABLE_ADDR 2) pt_session0 = (-22, pt_session0) :=
  have h := C15_enabled_ranges_bounded 2 pa_id 0x100000 0x600000 0x700000 pt_session0
    pt_msrs_zero pt_events_two_filters pt_session0_setup
  ⟨h.1, by decide, (h.2.2 2 (by decide) pt_session0 none).2⟩

/-! ## Theorems: addresses outside the regions, one-shot configuration, layout -/

/-- For an area of positive size the range test accepts only addresses inside
`[base, base + size)`. -/
theorem in_range_sub {area : vmx_fdl_area} {p : Nat} (hb : area.base < 2 ^ 64)
    (hpos : 0 < area.size) (hs : area.size < 2 ^ 64) (h : area_in_range p area = true) :
    area.base ≤ p ∧ p + 1 < area.base + area.size ∧ p < 2 ^ 64 := by
  unfold area_in_range FAST_IN_RANGE at h
  have e1 : (area.size + 2 ^ 64 - 1) % 2 ^ 64 = area.size - 1 := by
    have : area.size + 2 ^ 64 - 1 = (area.size - 1) + 2 ^ 64 := by omega
    rw [this, Nat.add_mod_right]
    exact Nat.mod_eq_of_lt (by omega)
  rw [e1] at h
  simp only [Bool.and_eq_true, decide_eq_true_eq, ge_iff_le] at h
  obtain ⟨h1, h2⟩ := h
  by_cases hw : area.base + (area.size - 1) < 2 ^ 64
  · rw [Nat.mod_eq_of_lt hw] at h1
    omega
  · have e2 : (area.base + (area.size - 1)) % 2 ^ 64 = area.base + (area.size - 1) - 2 ^ 64 := by
      have : area.base + (area.size - 1) = (area.base + (area.size - 1) - 2 ^ 64) + 2 ^ 64 := by
        omega
      rw [this, Nat.add_mod_right, Nat.add_sub_cancel]
      exact Nat.mod_eq_of_lt (by omega)
    rw [e2] at h1
    omega

/-- Claim C16: in every dirty-log session, configured or not, whose areas have positive
64-bit sizes, recording an address that lies outside every configured region changes
nothing: the lookup finds no area (`ram_area` stays 0xff) and the session, with every
bitmap, log slot and log length, is the same after the call. -/
theorem C16_record_outside_changes_nothing (d : vm_vmx_fdl) (p : Nat)
    (hareas : ∀ j, j < d.num_areas →
      (d.areas j).base < 2 ^ 64 ∧ 0 < (d.areas j).size ∧ (d.areas j).size < 2 ^ 64)
    (hout : ∀ j, j < d.num_areas →
      ¬ ((d.areas j).base ≤ p ∧ p < (d.areas j).base + (d.areas j).size)) :
    vmx_fdl_ram_area d p = 0xff ∧ vmx_fdl_set_addr d p = d ∧
    (∀ j nr, fdl_bit (vmx_fdl_set_addr d p) j nr = fdl_bit d j nr) ∧
    (∀ j, fdl_log (vmx_fdl_set_addr d p) j = fdl_log d j ∧
      ((vmx_fdl_set_addr d p).areas j).stack_index = (d.areas j).stack_index) := by
  have hnone : vmx_fdl_ram_area d p = 0xff := by
    apply ram_area_none
    intro j hj
    obtain ⟨h1, h2, h3⟩ := hareas j hj
    cases hc : area_in_range p (d.areas j) with
    | false => rfl
    | true =>
      have := in_range_sub h1 h2 h3 hc
      exact absurd ⟨this.1, by omega⟩ (hout j hj)
  have hsame := set_addr_of_none hnone
  refine ⟨hnone, hsame, ?_, ?_⟩
  · intro j nr; rw [hsame]
  · intro j; rw [hsame]; exact ⟨rfl, rfl⟩

theorem C16_record_outside_changes_nothing_witness :
    vmx_fdl_set_addr (vmx_fdl_record (fdl_fresh vmx_fdl_setup fdl_conf_two) [0x107000]) 0x300000
      = vmx_fdl_record (fdl_fresh vmx_fdl_setup fdl_conf_two) [0x107000] :=
  (C16_record_outside_changes_nothing
    (vmx_fdl_record (fdl_fresh vmx_fdl_setup fdl_conf_two) [0x107000]) 0x300000
    (by intro j hj
        have : j < 2 := hj
        interval_cases j <;> decide)
    (by intro j hj
        have : j < 2 := hj
        interval_cases j <;> decide)).2.1

theorem realloc_zero_configured (data : vm_vmx_fdl) (arg : Option fdl_conf) (writable : Bool)
    (h : (vmx_fdl_realloc_memory data arg writable).1 = 0) :
    (vmx_fdl_realloc_memory data arg writable).2.1.configured = true := by
  unfold vmx_fdl_realloc_memory at h ⊢
  simp only at h ⊢
  have hne : ¬ (-EINVAL = (0 : Int)) := by decide
  by_cases hc : data.configured = true
  · rw [if_pos hc] at h; exact absurd h hne
  · rw [if_neg hc] at h ⊢
    cases arg with
    | none => exact absurd h hne
    | some configuration =>
      simp only at h ⊢
      by_cases hn : configuration.num ≠ 0
      · rw [if_pos hn] at h ⊢
        cases writable with
        | false => exact absurd h hne
        | true => rfl
      · rw [if_neg hn] at h; exact absurd h hne

/-- Claim C17: after a CONFIGURE call that succeeded, every further CONFIGURE call, for
every argument, returns the invalid-operation result, writes nothing back and leaves
the session as it is: bases, sizes, count, offsets, total size, buffer and log
lengths. -/
theorem C17_configure_is_one_shot (data : vm_vmx_fdl) (arg arg2 : Option fdl_conf)
    (writable writable2 : Bool)
    (hok : (vmx_fdl_ioctl (.KVM_VMX_FDL_SET arg writable) data).1 = 0) :
    vmx_fdl_ioctl (.KVM_VMX_FDL_SET arg2 writable2)
        (vmx_fdl_ioctl (.KVM_VMX_FDL_SET arg writable) data).2.1
      = (-22, (vmx_fdl_ioctl (.KVM_VMX_FDL_SET arg writable) data).2.1, none, none) := by
  have hc := realloc_zero_configured data arg writable hok
  simp only [vmx_fdl_ioctl] at hc ⊢
  generalize (vmx_fdl_realloc_memory data arg writable).2.1 = d1 at hc ⊢
  unfold vmx_fdl_realloc_memory
  simp [hc, EINVAL]

theorem C17_configure_is_one_shot_witness :
    vmx_fdl_ioctl (.KVM_VMX_FDL_SET (some fdl_conf_overlap) true)
        (vmx_fdl_ioctl (.KVM_VMX_FDL_SET (some fdl_conf_two) true) vmx_fdl_setup).2.1
      = (-22, (vmx_fdl_ioctl (.KVM_VMX_FDL_SET (some fdl_conf_two) true) vmx_fdl_setup).2.1,
          none, none) :=
  C17_configure_is_one_shot vmx_fdl_setup (some fdl_conf_two) (some fdl_conf_overlap) true true
    (by decide)

/-- Claim C18, evaluated on the code: a CONFIGURE request with nine regions is not
rejected.  `vmx_fdl_realloc_memory` has no test against `FDL_MAX_AREAS`: it returns 0,
allocates the buffer, marks the session configured with `num_areas = 9`, and its loop
writes the area slot of index 8, which lies behind the eight slots of the array. -/
theorem C18_nine_regions_are_accepted :
    fdl_conf_nine.num = 9 ∧
    (vmx_fdl_ioctl (.KVM_VMX_FDL_SET (some fdl_conf_nine) true) vmx_fdl_setup).1 = 0 ∧
    (vmx_fdl_ioctl (.KVM_VMX_FDL_SET (some fdl_conf_nine) true)
      vmx_fdl_setup).2.1.configured = true ∧
    (vmx_fdl_ioctl (.KVM_VMX_FDL_SET (some fdl_conf_nine) true)
      vmx_fdl_setup).2.1.num_areas = 9 ∧
    (vmx_fdl_ioctl (.KVM_VMX_FDL_SET (some fdl_conf_nine) true)
      vmx_fdl_setup).2.1.alloc_buf.isSome = true ∧
    (vmx_fdl_ioctl (.KVM_VMX_FDL_SET (some fdl_conf_nine) true)
      vmx_fdl_setup).2.1.total_alloc_size = 9 * 0x2000 ∧
    ((vmx_fdl_ioctl (.KVM_VMX_FDL_SET (some fdl_conf_nine) true)
      vmx_fdl_setup).2.1.areas 8).base = 0x900000 ∧
    ((vmx_fdl_ioctl (.KVM_VMX_FDL_SET (some fdl_conf_nine) true)
      vmx_fdl_setup).2.1.areas 8).stack_max = 1 ∧
    FDL_MAX_AREAS = 8 := by
  refine ⟨by decide, by decide, by decide, by decide, by decide, by decide, by decide,
    by decide, by decide⟩

theorem fdl_off_eq_sum (configuration : fdl_conf) (n : Nat) :
    fdl_off configuration n = Finset.sum (Finset.range n) (fun i =>
      PAGE_ALIGNED_SIZE (FDL_BITMAP_SIZE (configuration.areas i).size)
        + PAGE_ALIGNED_SIZE (FDL_STACK_SIZE (configuration.areas i).size)) := by
  induction n with
  | zero => simp [fdl_off]
  | succ n ih =>
    rw [Finset.sum_range_succ, ← ih]
    simp only [fdl_off]
    omega

theorem fdl_off_aligned (configuration : fdl_conf) (n : Nat)
    (hsz : ∀ i, i < n → (configuration.areas i).size < 2 ^ 64) :
    fdl_off configuration n % 0x1000 = 0 := by
  induction n with
  | zero => simp [fdl_off]
  | succ n ih =>
    have h1 := ih (fun i hi => hsz i (by omega))
    have h2 := (bitmap_size_bounds (hsz n (by omega))).2.2
    have h3 := (stack_size_bounds (hsz n (by omega))).2.2
    simp only [fdl_off]
    omega

/-- The configuration a successful CONFIGURE writes back to the caller. -/
theorem realloc_out_spec (data : vm_vmx_fdl) (configuration : fdl_conf)
    (hconf : data.configured = false) (hn1 : 1 ≤ configuration.num)
    (hn8 : configuration.num ≤ 8)
    (hsz : ∀ i, i < configuration.num → (configuration.areas i).size < 2 ^ 64) :
    ∃ out, vmx_fdl_realloc_memory data (some configuration) true
        = (0, fdl_fresh data configuration, some out) ∧
      out.num = configuration.num ∧
      out.mmap_size = fdl_off configuration configuration.num ∧
      ∀ i, i < configuration.num →
        (out.areas i).base_address = (configuration.areas i).base_address ∧
        (out.areas i).size = (configuration.areas i).size ∧
        (out.areas i).mmap_bitmap_offset = fdl_off configuration i ∧
        (out.areas i).mmap_bitmap_size
          = PAGE_ALIGNED_SIZE (FDL_BITMAP_SIZE (configuration.areas i).size) ∧
        (out.areas i).mmap_stack_offset = fdl_off configuration i
          + PAGE_ALIGNED_SIZE (FDL_BITMAP_SIZE (configuration.areas i).size) ∧
        (out.areas i).mmap_stack_size
          = PAGE_ALIGNED_SIZE (FDL_STACK_SIZE (configuration.areas i).size) := by
  have hne : configuration.num ≠ 0 := by omega
  have hd : vmx_fdl_realloc_memory data (some configuration) true =
      (0, fdl_fresh data configuration,
        some { ((List.range configuration.num).foldl realloc_area
            ({ data with num_areas := 0, total_alloc_size := 0 }, configuration)).2 with
          mmap_size := (fdl_fresh data configuration).total_alloc_size }) := by
    unfold fdl_fresh vmx_fdl_realloc_memory
    simp only
    rw [if_neg (by simp [hconf]), if_pos hne]
    rfl
  obtain ⟨-, -, -, s4, -⟩ := fdl_fresh_spec data configuration hconf hn1 hn8 hsz
  have l1 := realloc_loop1 { data with num_areas := 0, total_alloc_size := 0 } configuration
    configuration.num (by omega) hsz rfl rfl
  simp only at l1
  obtain ⟨-, -, -, a4, -, a6⟩ := l1
  refine ⟨_, hd, a6, s4, ?_⟩
  intro i hi
  obtain ⟨-, -, -, -, e5, e6, e7, e8, e9, e10⟩ := a4 i hi
  exact ⟨e5, e6, e7, e8, e9, e10⟩

/-- Claim C19: a successful CONFIGURE of `n` regions, `1 <= n <= 8`, reports the
layout bitmap-then-log per region in configuration order: the first bitmap at offset
0, every log right behind its bitmap, every further bitmap right behind the log before
it, and as total size the end of the last log, which is the sum of all bitmap and log
sizes and the size of the allocation; every offset and size reported is a multiple of
4096, and the kernel pointers of every area are the offsets reported for it. -/
theorem C19_reported_layout_tiles_buffer (data : vm_vmx_fdl) (configuration : fdl_conf)
    (hconf : data.configured = false) (hn1 : 1 ≤ configuration.num)
    (hn8 : configuration.num ≤ 8)
    (hsz : ∀ i, i < configuration.num → (configuration.areas i).size < 2 ^ 64) :
    ∃ out, vmx_fdl_realloc_memory data (some configuration) true
        = (0, fdl_fresh data configuration, some out) ∧
      (out.areas 0).mmap_bitmap_offset = 0 ∧
      (∀ i, i < configuration.num →
        (out.areas i).mmap_stack_offset
          = (out.areas i).mmap_bitmap_offset + (out.areas i).mmap_bitmap_size ∧
        (i + 1 < configuration.num →
          (out.areas (i + 1)).mmap_bitmap_offset
            = (out.areas i).mmap_stack_offset + (out.areas i).mmap_stack_size) ∧
        (out.areas i).mmap_bitmap_offset % 4096 = 0 ∧
        (out.areas i).mmap_bitmap_size % 4096 = 0 ∧
        (out.areas i).mmap_stack_offset % 4096 = 0 ∧
        (out.areas i).mmap_stack_size % 4096 = 0 ∧
        ((fdl_fresh data configuration).areas i).bitmap = (out.areas i).mmap_bitmap_offset ∧
        ((fdl_fresh data configuration).areas i).stack = (out.areas i).mmap_stack_offset) ∧
      out.mmap_size = (out.areas (configuration.num - 1)).mmap_stack_offset
        + (out.areas (configuration.num - 1)).mmap_stack_size ∧
      out.mmap_size = Finset.sum (Finset.range configuration.num) (fun i =>
        (out.areas i).mmap_bitmap_size + (out.areas i).mmap_stack_size) ∧
      out.mmap_size % 4096 = 0 ∧
      out.mmap_size = (fdl_fresh data configuration).total_alloc_size := by
  obtain ⟨out, o1, -, o3, o4⟩ := realloc_out_spec data configuration hconf hn1 hn8 hsz
  obtain ⟨-, -, -, s4, s5⟩ := fdl_fresh_spec data configuration hconf hn1 hn8 hsz
  refine ⟨out, o1, ?_, ?_, ?_, ?_, ?_, ?_⟩
  · rw [(o4 0 (by omega)).2.2.1]; rfl
  · intro i hi
    obtain ⟨-, -, e3, e4, e5, e6⟩ := o4 i hi
    obtain ⟨-, -, -, -, c5, c6⟩ := s5 i hi
    have hal := fdl_off_aligned configuration i (fun j hj => hsz j (by omega))
    have hb := (bitmap_size_bounds (hsz i hi)).2.2
    have hs := (stack_size_bounds (hsz i hi)).2.2
    refine ⟨by rw [e5, e3, e4], ?_, by rw [e3]; exact hal, by rw [e4]; exact hb,
      by rw [e5]; omega, by rw [e6]; exact hs, by rw [c5, e3], by rw [c6, e5]⟩
    intro hi1
    rw [(o4 (i + 1) hi1).2.2.1, e5, e6]
    simp only [fdl_off]
  · obtain ⟨k, hk⟩ : ∃ k, configuration.num = k + 1 := ⟨configuration.num - 1, by omega⟩
    obtain ⟨-, -, -, -, e5, e6⟩ := o4 k (by omega)
    rw [o3, hk, Nat.add_sub_cancel, e5, e6]
    simp only [fdl_off]
  · rw [o3, fdl_off_eq_sum]
    apply Finset.sum_congr rfl
    intro i hi
    rw [Finset.mem_range] at hi
    obtain ⟨-, -, -, e4, -, e6⟩ := o4 i hi
    rw [e4, e6]
  · rw [o3]; exact fdl_off_aligned configuration _ hsz
  · rw [o3]; exact s4.symm

theorem C19_reported_layout_tiles_buffer_witness :
    ∃ out, vmx_fdl_realloc_memory vmx_fdl_setup (some fdl_conf_two) true
        = (0, fdl_fresh vmx_fdl_setup fdl_conf_two, some out) ∧
      (out.areas 0).mmap_bitmap_offset = 0 ∧
      out.mmap_size % 4096 = 0 ∧
      out.mmap_size = (fdl_fresh vmx_fdl_setup fdl_conf_two).total_alloc_size :=
  have h := C19_reported_layout_tiles_buffer vmx_fdl_setup fdl_conf_two rfl (by decide)
    (by decide) (by intro i hi; have : i < 2 := hi; interval_cases i <;> decide)
  h.elim fun out ho => ⟨out, ho.1, ho.2.1, ho.2.2.2.2.2.1, ho.2.2.2.2.2.2⟩

/-! ## Theorems: overlapping regions -/

/-- Recording a page whose bit is clear in an area whose log is full: the bit is set
and nothing else changes. -/
theorem set_addr_full_frame {d : vm_vmx_fdl} (hl : fdl_layout d) {p i0 : Nat}
    (hfind : vmx_fdl_ram_area d p = i0) (hi0 : i0 < d.num_areas)
    (hnr : (p - (d.areas i0).base) >>> 12 < (d.areas i0).size / 0x1000)
    (hbit : fdl_bit d i0 ((p - (d.areas i0).base) >>> 12) = false)
    (hfull : (d.areas i0).stack_index ≥ (d.areas i0).stack_max) :
    (vmx_fdl_set_addr d p).areas = d.areas ∧
    (vmx_fdl_set_addr d p).num_areas = d.num_areas ∧
    (∀ j nr1, j < d.num_areas →
      nr1 < 8 * PAGE_ALIGNED_SIZE (FDL_BITMAP_SIZE (d.areas j).size) →
      fdl_bit (vmx_fdl_set_addr d p) j nr1 =
        (fdl_bit d j nr1 || decide (j = i0 ∧ nr1 = (p - (d.areas i0).base) >>> 12))) ∧
    (∀ j, j < d.num_areas → fdl_log (vmx_fdl_set_addr d p) j = fdl_log d j) := by
  obtain ⟨buf, hbuf⟩ := hl.2.2.1
  have hne : i0 ≠ 0xff := by have := hl.2.1; omega
  have hbit' : test_bit_le ((p - (d.areas i0).base) >>> 12) (d.areas i0).bitmap buf = false := by
    simpa [fdl_bit, hbuf] using hbit
  rw [set_addr_of_full hbuf hfind hne hbit' hfull]
  generalize hnrdef : (p - (d.areas i0).base) >>> 12 = nr at *
  obtain ⟨z1, z2, z3, z4, z5, -, -⟩ := layout_sep hl hi0 hi0
  refine ⟨rfl, rfl, ?_, ?_⟩
  · intro j nr1 hj hnr1
    simp only [fdl_bit, hbuf]
    rw [test_bit_after_set]
    congr 1
    obtain ⟨y1, y2, y3, y4, y5, y6, y7⟩ := layout_sep hl hj hi0
    apply decide_eq_decide.2
    constructor
    · rintro ⟨e1, e2⟩
      rcases Nat.lt_trichotomy j i0 with h | h | h
      · have := y6 h; omega
      · subst h; exact ⟨rfl, by omega⟩
      · have := y7 h; omega
    · rintro ⟨e1, e2⟩
      subst e1; subst e2
      exact ⟨rfl, rfl⟩
  · intro j hj
    simp only [fdl_log, hbuf]
    apply List.map_congr_left
    intro k hk
    rw [List.mem_range] at hk
    apply load64_congr
    intro x hx1 hx2
    obtain ⟨y1, y2, y3, y4, y5, y6, y7⟩ := layout_sep hl hj hi0
    unfold test_and_set_bit_le
    simp only
    rw [Function.update_noteq]
    rcases Nat.lt_trichotomy j i0 with h | h | h
    · have := y6 h; omega
    · subst h; omega
    · have := y7 h; omega

/-- Claim C20 (amended): when an address is accepted by the range test of more than one
configured region, the recorder attributes it to the matching region with the lowest
index (every later test of the fall-through chain overrides an earlier match): the bit
of the page is set in the bitmap of that region, the page is appended to its log when
the bit was clear and a slot is free, and every other region, in particular every
higher-indexed matching one, keeps its bitmap, log and log length. -/
theorem C20_lowest_matching_region_wins (d : vm_vmx_fdl) (p i : Nat)
    (hl : fdl_layout d) (hi : i < d.num_areas)
    (hbase : (d.areas i).base < 2 ^ 64) (hpos : 0 < (d.areas i).size)
    (hsize : (d.areas i).size % 4096 = 0)
    (hin : area_in_range p (d.areas i) = true)
    (hlow : ∀ j, j < i → area_in_range p (d.areas j) = false) :
    vmx_fdl_ram_area d p = i ∧
    fdl_bit (vmx_fdl_set_addr d p) i ((p - (d.areas i).base) >>> 12) = true ∧
    (fdl_bit d i ((p - (d.areas i).base) >>> 12) = false →
      (d.areas i).stack_index < (d.areas i).stack_max →
      fdl_log (vmx_fdl_set_addr d p) i = fdl_log d i ++ [p] ∧
      ((vmx_fdl_set_addr d p).areas i).stack_index = (d.areas i).stack_index + 1) ∧
    (∀ j, j < d.num_areas → j ≠ i →
      ((vmx_fdl_set_addr d p).areas j).stack_index = (d.areas j).stack_index ∧
      fdl_log (vmx_fdl_set_addr d p) j = fdl_log d j ∧
      ∀ nr1, nr1 < 8 * PAGE_ALIGNED_SIZE (FDL_BITMAP_SIZE (d.areas j).size) →
        fdl_bit (vmx_fdl_set_addr d p) j nr1 = fdl_bit d j nr1) := by
  have hfind : vmx_fdl_ram_area d p = i := ram_area_lowest d p i hl.2.1 hi hin hlow
  obtain ⟨hs64, -, -, -⟩ := hl.2.2.2.1 i hi
  obtain ⟨r1, r2, r3⟩ := in_range_sub hbase hpos hs64 hin
  have hnr : (p - (d.areas i).base) >>> 12 < (d.areas i).size / 0x1000 := by
    rw [shift12_eq]; omega
  have hcap := (layout_sep hl hi hi).1
  have hne : i ≠ 0xff := by have := hl.2.1; omega
  obtain ⟨buf, hbuf⟩ := hl.2.2.1
  cases hb : fdl_bit d i ((p - (d.areas i).base) >>> 12) with
  | true =>
    have hsame : vmx_fdl_set_addr d p = d := by
      apply set_addr_of_set hbuf hfind hne
      simpa [fdl_bit, hbuf] using hb
    rw [hsame]
    refine ⟨hfind, hb, ?_, ?_⟩
    · intro h; exact absurd h (by simp)
    · intro j _ _; exact ⟨rfl, rfl, fun _ _ => rfl⟩
  | false =>
    by_cases hroom : (d.areas i).stack_index < (d.areas i).stack_max
    · obtain ⟨-, -, -, -, q5, q6, q7, q8⟩ := set_addr_push hl hfind hi hnr r3 hb hroom
      refine ⟨hfind, ?_, fun _ _ => ⟨q7, q6⟩, ?_⟩
      · rw [q5 i _ hi (by omega)]; simp
      · intro j hj hji
        obtain ⟨z1, z2⟩ := q8 j hj hji
        refine ⟨z1, z2, ?_⟩
        intro nr1 hnr1
        rw [q5 j nr1 hj hnr1]
        simp [hji]
    · obtain ⟨f1, -, f3, f4⟩ := set_addr_full_frame hl hfind hi hnr hb (by omega)
      refine ⟨hfind, ?_, fun _ h => absurd h hroom, ?_⟩
      · rw [f3 i _ hi (by omega)]; simp
      · intro j hj hji
        refine ⟨by rw [f1], f4 j hj, ?_⟩
        intro nr1 hnr1
        rw [f3 j nr1 hj hnr1]
        simp [hji]

/-- Claim C20 as stated fails: with the two regions of `fdl_conf_overlap` covering the
page 0x1000, recording that page leaves region 1, the matching region with the highest
index, unchanged (empty log, clear bit) and changes region 0, the lower-indexed
matching region (one log entry, bit 0 set). -/
theorem C20_counterexample_highest_index_unchanged :
    area_in_range 0x1000 ((fdl_fresh vmx_fdl_setup fdl_conf_overlap).areas 0) = true ∧
    area_in_range 0x1000 ((fdl_fresh vmx_fdl_setup fdl_conf_overlap).areas 1) = true ∧
    vmx_fdl_ram_area (fdl_fresh vmx_fdl_setup fdl_conf_overlap) 0x1000 = 0 ∧
    ((vmx_fdl_set_addr (fdl_fresh vmx_fdl_setup fdl_conf_overlap) 0x1000).areas 1).stack_index
      = 0 ∧
    fdl_bit (vmx_fdl_set_addr (fdl_fresh vmx_fdl_setup fdl_conf_overlap) 0x1000) 1 0 = false ∧
    ((vmx_fdl_set_addr (fdl_fresh vmx_fdl_setup fdl_conf_overlap) 0x1000).areas 0).stack_index
      = 1 ∧
    fdl_bit (vmx_fdl_set_addr (fdl_fresh vmx_fdl_setup fdl_conf_overlap) 0x1000) 0 0 = true ∧
    ¬ (∀ (d : vm_vmx_fdl) (p hi lo : Nat), fdl_layout d → hi < d.num_areas → lo < hi →
        area_in_range p (d.areas hi) = true → area_in_range p (d.areas lo) = true →
        (∀ j, hi < j → j < d.num_areas → area_in_range p (d.areas j) = false) →
        ((vmx_fdl_set_addr d p).areas lo).stack_index = (d.areas lo).stack_index) := by
  have h6 : ((vmx_fdl_set_addr (fdl_fresh vmx_fdl_setup fdl_conf_overlap) 0x1000).areas
      0).stack_index = 1 := by decide
  refine ⟨by decide, by decide, by decide, by decide, by decide, h6, by decide, ?_⟩
  intro h
  have hlay : fdl_layout (fdl_fresh vmx_fdl_setup fdl_conf_overlap) :=
    fdl_fresh_layout vmx_fdl_setup fdl_conf_overlap rfl (by decide) (by decide)
      (by intro i hi; have : i < 2 := hi; interval_cases i <;> decide)
  have h1 := h (fdl_fresh vmx_fdl_setup fdl_conf_overlap) 0x1000 1 0 hlay (by decide)
    (by decide) (by decide) (by decide)
    (by intro j hj1 hj2
        have : j < 2 := hj2
        omega)
  rw [h6] at h1
  exact absurd h1 (by decide)

theorem C20_lowest_matching_region_wins_witness :
    vmx_fdl_ram_area (fdl_fresh vmx_fdl_setup fdl_conf_overlap) 0x1000 = 0 ∧
    ((vmx_fdl_set_addr (fdl_fresh vmx_fdl_setup fdl_conf_overlap) 0x1000).areas 1).stack_index
      = ((fdl_fresh vmx_fdl_setup fdl_conf_overlap).areas 1).stack_index ∧
    fdl_log (vmx_fdl_set_addr (fdl_fresh vmx_fdl_setup fdl_conf_overlap) 0x1000) 0
      = fdl_log (fdl_fresh vmx_fdl_setup fdl_conf_overlap) 0 ++ [0x1000] :=
  have h := C20_lowest_matching_region_wins (fdl_fresh vmx_fdl_setup fdl_conf_overlap) 0x1000 0
    (fdl_fresh_layout vmx_fdl_setup fdl_conf_overlap rfl (by decide) (by decide)
      (by intro i hi; have : i < 2 := hi; interval_cases i <;> decide))
    (by decide) (by decide) (by decide) (by decide) (by decide)
    (by intro j hj; omega)
  ⟨h.1, (h.2.2.2 1 (by decide) (by decide)).1, (h.2.2.1 (by decide) (by decide)).1⟩

/-! ## Theorems: size of the trace extents -/

/-- Claim C22 (the code departs from its own size comments): `TOPA_MAIN_ORDER` is 10
and the main extent is `(1 << 10) * (1 << 12)` = 4194304 bytes (4 MiB), not the
1048576 bytes (1 MB) its definition is commented with; the fallback extent is 65536
bytes as commented.  `GET_BUFFER_SIZE` on a session with allocated extents returns
the sum 4259840, not 1114112, and in every session it returns that sum or the
out-of-memory result, leaving the session unchanged. -/
theorem C22_buffer_size_is_4259840 :
    TOPA_MAIN_ORDER = 10 ∧ TOPA_FALLBACK_ORDER = 4 ∧
    TOPA_MAIN_SIZE = 4194304 ∧ TOPA_MAIN_SIZE ≠ 1048576 ∧ TOPA_FALLBACK_SIZE = 65536 ∧
    pt_session0.topa_main_buf_virt_addr ≠ 0 ∧
    (vmx_pt_ioctl 2 .KVM_VMX_PT_GET_TOPA_SIZE pt_session0).1 = 4259840 ∧
    (vmx_pt_ioctl 2 .KVM_VMX_PT_GET_TOPA_SIZE pt_session0).1 ≠ 1114112 ∧
    ∀ (supported_addrn : Nat) (s : vcpu_vmx_pt),
      vmx_pt_ioctl supported_addrn .KVM_VMX_PT_GET_TOPA_SIZE s =
        (if s.topa_main_buf_virt_addr ≠ 0
          then (((TOPA_MAIN_SIZE + TOPA_FALLBACK_SIZE : Nat) : Int)) else -12, s) ∧
      ((TOPA_MAIN_SIZE + TOPA_FALLBACK_SIZE : Nat) : Int) = 4259840 := by
  refine ⟨rfl, rfl, by decide, by decide, by decide, by decide, by decide, by decide, ?_⟩
  intro sa s
  refine ⟨?_, by decide⟩
  simp only [vmx_pt_ioctl, ENOMEM]
  split_ifs <;> rfl

/-! ## Theorems: the disable command outside TRACING -/

/-- A pending transition is kept by every command: the request flag and the requested
state are the same after the call. -/
theorem ioctl_keeps_pending (sa : Nat) (cmd : pt_ioctl_cmd) (s : vcpu_vmx_pt)
    (hp : s.state_change_pending = true) :
    (vmx_pt_ioctl sa cmd s).2.state_change_pending = true ∧
    (vmx_pt_ioctl sa cmd s).2.state = s.state := by
  by_cases he : cmd = .KVM_VMX_PT_ENABLE
  · subst he
    rw [ioctl_enable_eq]
    simp only [hp]
    split_ifs <;> simp_all
  · by_cases hd : cmd = .KVM_VMX_PT_DISABLE
    · subst hd
      simp only [vmx_pt_ioctl, hp]
      split_ifs <;> simp_all
    · have h := ioctl_flags sa cmd s he hd
      exact ⟨h.1.trans hp, h.2⟩

/-- Claim C26: `DISABLE` issued while the configuration is unlocked (IDLE or
ENABLE_PENDING), or while a transition is already pending, returns the
invalid-operation result -22 and leaves the whole session unchanged, in particular
`state`, `state_change_pending`, the locked flag, the reset request flag and the
output base and offset; and while a transition is pending no command replaces it (the
request flag stays set and the requested state stays the same). -/
theorem C26_disable_rejected_unless_tracing (supported_addrn : Nat) (s : vcpu_vmx_pt)
    (h : s.configured = false ∨ s.state_change_pending = true) :
    vmx_pt_ioctl supported_addrn .KVM_VMX_PT_DISABLE s = (-22, s) ∧
    (vmx_pt_ioctl supported_addrn .KVM_VMX_PT_DISABLE s).2.state = s.state ∧
    (vmx_pt_ioctl supported_addrn .KVM_VMX_PT_DISABLE s).2.state_change_pending
      = s.state_change_pending ∧
    (vmx_pt_ioctl supported_addrn .KVM_VMX_PT_DISABLE s).2.configured = s.configured ∧
    (vmx_pt_ioctl supported_addrn .KVM_VMX_PT_DISABLE s).2.reset = s.reset ∧
    (vmx_pt_ioctl supported_addrn .KVM_VMX_PT_DISABLE s).2.ia32_rtit_output_base
      = s.ia32_rtit_output_base ∧
    (vmx_pt_ioctl supported_addrn .KVM_VMX_PT_DISABLE s).2.ia32_rtit_output_mask_ptrs
      = s.ia32_rtit_output_mask_ptrs ∧
    (s.state_change_pending = true → ∀ cmd : pt_ioctl_cmd,
      (vmx_pt_ioctl supported_addrn cmd s).2.state_change_pending = true ∧
      (vmx_pt_ioctl supported_addrn cmd s).2.state = s.state) := by
  have h0 : vmx_pt_ioctl supported_addrn .KVM_VMX_PT_DISABLE s = (-22, s) := by
    simp only [vmx_pt_ioctl, EINVAL]
    rcases h with h | h
    · simp [h]
    · cases hc : s.configured <;> simp [h]
  rw [h0]
  exact ⟨rfl, rfl, rfl, rfl, rfl, rfl, rfl,
    fun hp cmd => ioctl_keeps_pending supported_addrn cmd s hp⟩

theorem C26_disable_rejected_unless_tracing_witness :
    vmx_pt_ioctl 2 .KVM_VMX_PT_DISABLE pt_session0 = (-22, pt_session0) ∧
    vmx_pt_ioctl 2 .KVM_VMX_PT_DISABLE pt_session_enable_pending
      = (-22, pt_session_enable_pending) ∧
    vmx_pt_ioctl 2 .KVM_VMX_PT_DISABLE pt_session_disable_pending
      = (-22, pt_session_disable_pending) ∧
    phase_of pt_session0 = some .IDLE ∧
    phase_of pt_session_enable_pending = some .ENABLE_PENDING ∧
    phase_of pt_session_disable_pending = some .DISABLE_PENDING :=
  ⟨(C26_disable_rejected_unless_tracing 2 pt_session0 (Or.inl (by decide))).1,
   (C26_disable_rejected_unless_tracing 2 pt_session_enable_pending (Or.inl (by decide))).1,
   (C26_disable_rejected_unless_tracing 2 pt_session_disable_pending (Or.inr (by decide))).1,
   by decide, by decide, by decide⟩

/-! ## Theorems: the two CR3 filter modes -/

theorem get_data_size_multi (s : vcpu_vmx_pt) :
    (vmx_pt_get_data_size s).2.multi_cr3_enabled = s.multi_cr3_enabled ∧
    (vmx_pt_get_data_size s).2.ia32_rtit_cr3_match = s.ia32_rtit_cr3_match := by
  unfold vmx_pt_get_data_size
  simp only
  split_ifs <;> exact ⟨rfl, rfl⟩

theorem cr3_filter_or_addr (c n : Nat) (hn : n ≠ 7) :
    (c ||| BIT_ULL n) &&& CR3_FILTER ≠ 0 ↔ c &&& CR3_FILTER ≠ 0 := by
  unfold CR3_FILTER
  rw [and_bit_ne_zero, and_bit_ne_zero, testBit_or_bit]
  simp [hn]

theorem cr3_filter_xor_addr (c n : Nat) (hn : n ≠ 7) :
    (c ^^^ BIT_ULL n) &&& CR3_FILTER ≠ 0 ↔ c &&& CR3_FILTER ≠ 0 := by
  unfold CR3_FILTER
  rw [and_bit_ne_zero, and_bit_ne_zero, testBit_xor_bit]
  simp [hn]

theorem cr3_filter_xor_self (c : Nat) (h : c &&& CR3_FILTER ≠ 0) :
    ¬ ((c ^^^ CR3_FILTER) &&& CR3_FILTER ≠ 0) := by
  unfold CR3_FILTER at *
  rw [and_bit_ne_zero] at h
  rw [and_bit_ne_zero, testBit_xor_bit]
  simp [h]

/-- Every control command keeps the two CR3 filter modes exclusive. -/
theorem ioctl_cr3_exclusive (sa : Nat) (cmd : pt_ioctl_cmd) (s : vcpu_vmx_pt)
    (h : cr3_modes_exclusive s) : cr3_modes_exclusive (vmx_pt_ioctl sa cmd s).2 := by
  unfold cr3_modes_exclusive at *
  have hg := get_data_size_ctrl s
  have hm := (get_data_size_multi s).1
  cases cmd with
  | KVM_VMX_PT_ENABLE_ADDR0 =>
    simp only [vmx_pt_ioctl]
    split_ifs
    · simpa only [ADDR0_EN, cr3_filter_or_addr _ 32 (by omega)] using h
    · exact h
  | KVM_VMX_PT_ENABLE_ADDR1 =>
    simp only [vmx_pt_ioctl]
    split_ifs
    · simpa only [ADDR1_EN, cr3_filter_or_addr _ 36 (by omega)] using h
    · exact h
  | KVM_VMX_PT_ENABLE_ADDR2 =>
    simp only [vmx_pt_ioctl]
    split_ifs
    · simpa only [ADDR2_EN, cr3_filter_or_addr _ 40 (by omega)] using h
    · exact h
  | KVM_VMX_PT_ENABLE_ADDR3 =>
    simp only [vmx_pt_ioctl]
    split_ifs
    · simpa only [ADDR3_EN, cr3_filter_or_addr _ 44 (by omega)] using h
    · exact h
  | KVM_VMX_PT_DISABLE_ADDR0 =>
    simp only [vmx_pt_ioctl]
    split_ifs
    · simpa only [ADDR0_EN, cr3_filter_xor_addr _ 32 (by omega)] using h
    · exact h
  | KVM_VMX_PT_DISABLE_ADDR1 =>
    simp only [vmx_pt_ioctl]
    split_ifs
    · simpa only [ADDR1_EN, cr3_filter_xor_addr _ 36 (by omega)] using h
    · exact h
  | KVM_VMX_PT_DISABLE_ADDR2 =>
    simp only [vmx_pt_ioctl]
    split_ifs
    · simpa only [ADDR2_EN, cr3_filter_xor_addr _ 40 (by omega)] using h
    · exact h
  | KVM_VMX_PT_DISABLE_ADDR3 =>
    simp only [vmx_pt_ioctl]
    split_ifs
    · simpa only [ADDR3_EN, cr3_filter_xor_addr _ 44 (by omega)] using h
    · exact h
  | KVM_VMX_PT_ENABLE_MULTI_CR3 =>
    simp only [vmx_pt_ioctl]
    split_ifs with hc
    · intro hboth
      exact hc.2.1 hboth.1
    · exact h
  | KVM_VMX_PT_DISABLE_MULTI_CR3 =>
    simp only [vmx_pt_ioctl]
    split_ifs
    · simp
    · exact h
  | KVM_VMX_PT_ENABLE_CR3 =>
    simp only [vmx_pt_ioctl]
    split_ifs with hc
    · intro hboth
      have h3 := hc.2.2
      simp only [Bool.not_eq_true'] at h3
      rw [h3] at hboth
      exact Bool.false_ne_true hboth.2
    · exact h
  | KVM_VMX_PT_DISABLE_CR3 =>
    simp only [vmx_pt_ioctl]
    split_ifs with hc
    · intro hboth
      exact cr3_filter_xor_self _ hc.2 hboth.1
    · exact h
  | KVM_VMX_PT_CHECK_TOPA_OVERFLOW =>
    rw [ioctl_check_eq]
    split_ifs <;> simpa [topa_reset, hg, hm] using h
  | KVM_VMX_PT_DISABLE =>
    simp only [vmx_pt_ioctl]
    split_ifs <;> simpa [hg, hm] using h
  | KVM_VMX_PT_ENABLE =>
    rw [ioctl_enable_eq]
    simp only
    split_ifs <;> exact h
  | _ =>
    simp only [vmx_pt_ioctl] <;> (try split_ifs) <;> (try split) <;> (try split_ifs) <;> exact h

/-- Every event keeps the two CR3 filter modes exclusive. -/
theorem step_cr3_exclusive (sa : Nat) (m : pt_machine) (e : pt_event)
    (h : cr3_modes_exclusive m.pt) : cr3_modes_exclusive (pt_step sa m e).pt := by
  cases e with
  | ioctl cmd => exact ioctl_cr3_exclusive sa cmd m.pt h
  | vmentry cpu =>
    unfold cr3_modes_exclusive at *
    have hc : (pt_step sa m (.vmentry cpu)).pt.ia32_rtit_ctrl_msr = m.pt.ia32_rtit_ctrl_msr ∧
        (pt_step sa m (.vmentry cpu)).pt.multi_cr3_enabled = m.pt.multi_cr3_enabled := by
      simp only [pt_step, vmx_pt_vmentry, vmx_pt_enable, vmx_pt_disable, topa_reset,
        vmx_pt_setup_vmx_autoload_msr]
      split_ifs <;> exact ⟨rfl, rfl⟩
    rw [hc.1, hc.2]; exact h
  | vmexit =>
    unfold cr3_modes_exclusive at *
    have hc : (pt_step sa m .vmexit).pt.ia32_rtit_ctrl_msr = m.pt.ia32_rtit_ctrl_msr ∧
        (pt_step sa m .vmexit).pt.multi_cr3_enabled = m.pt.multi_cr3_enabled := by
      simp only [pt_step, vmx_pt_vmexit]
      split_ifs <;> exact ⟨rfl, rfl⟩
    rw [hc.1, hc.2]; exact h
  | toggle_entry =>
    unfold cr3_modes_exclusive at *
    have hc : (pt_step sa m .toggle_entry).pt.ia32_rtit_ctrl_msr = m.pt.ia32_rtit_ctrl_msr ∧
        (pt_step sa m .toggle_entry).pt.multi_cr3_enabled = m.pt.multi_cr3_enabled := by
      simp only [pt_step, vmx_pt_toggle_entry, vmx_pt_setup_vmx_autoload_msr]
      split_ifs <;> exact ⟨rfl, rfl⟩
    rw [hc.1, hc.2]; exact h
  | toggle_exit =>
    unfold cr3_modes_exclusive at *
    have hc : (pt_step sa m .toggle_exit).pt.ia32_rtit_ctrl_msr = m.pt.ia32_rtit_ctrl_msr ∧
        (pt_step sa m .toggle_exit).pt.multi_cr3_enabled = m.pt.multi_cr3_enabled := by
      simp only [pt_step, vmx_pt_toggle_exit, vmx_pt_setup_vmx_autoload_msr]
      split_ifs <;> exact ⟨rfl, rfl⟩
    rw [hc.1, hc.2]; exact h
  | guest hw => exact h

theorem run_cr3_exclusive (sa : Nat) (m : pt_machine) (es : List pt_event)
    (h : cr3_modes_exclusive m.pt) : cr3_modes_exclusive (pt_run sa m es).pt := by
  induction es using List.reverseRecOn with
  | nil => exact h
  | append_singleton es e ih =>
    rw [run_snoc]
    exact step_cr3_exclusive sa _ e ih

theorem setup_multi {pa : Nat → Nat} {main_buffer fallback_buffer topa : Nat} {s0 : vcpu_vmx_pt}
    (h : (vmx_pt_setup true pa main_buffer fallback_buffer topa).2 = some s0) :
    s0.multi_cr3_enabled = false ∧ s0.ia32_rtit_cr3_match = 0 := by
  unfold vmx_pt_setup vmx_pt_setup_topa at h
  by_cases h1 : main_buffer = 0
  · simp [h1, ENOMEM] at h
  · by_cases h2 : fallback_buffer = 0
    · simp [h1, h2, ENOMEM] at h
    · by_cases h3 : topa = 0
      · simp [h1, h2, h3, ENOMEM] at h
      · simp [h1, h2, h3] at h
        subst h
        exact ⟨rfl, rfl⟩

/-- Claim C27: in every session reached from the post-setup state through control
commands and the entry, exit and toggle hooks, the CR3-filter control flag (bit 7,
`ia32_rtit_ctrl_msr & CR3_FILTER`) and the multi-CR3 enabled flag are never both set;
in every session `ENABLE_CR3` returns -22 and changes nothing while multi-CR3 is
enabled, and `ENABLE_MULTI_CR3` returns -22 and changes nothing while the CR3-filter
flag is set. -/
theorem C27_cr3_modes_mutually_exclusive (supported_addrn : Nat) (pa : Nat → Nat)
    (main_buffer fallback_buffer topa : Nat) (s0 : vcpu_vmx_pt) (hw0 : pt_msrs)
    (es : List pt_event)
    (hsetup : (vmx_pt_setup true pa main_buffer fallback_buffer topa).2 = some s0) :
    let s := (pt_run supported_addrn ⟨hw0, s0⟩ es).pt
    cr3_modes_exclusive s ∧
    ¬ (s.ia32_rtit_ctrl_msr.testBit 7 = true ∧ s.multi_cr3_enabled = true) ∧
    (∀ t : vcpu_vmx_pt, t.multi_cr3_enabled = true →
      vmx_pt_ioctl supported_addrn .KVM_VMX_PT_ENABLE_CR3 t = (-22, t)) ∧
    (∀ t : vcpu_vmx_pt, t.ia32_rtit_ctrl_msr.testBit 7 = true →
      vmx_pt_ioctl supported_addrn .KVM_VMX_PT_ENABLE_MULTI_CR3 t = (-22, t)) := by
  intro s
  have h0 : cr3_modes_exclusive s0 := by
    unfold cr3_modes_exclusive
    rw [(setup_multi hsetup).1]
    simp
  have hs : cr3_modes_exclusive s := run_cr3_exclusive supported_addrn ⟨hw0, s0⟩ es h0
  refine ⟨hs, ?_, ?_, ?_⟩
  · intro hboth
    apply hs
    unfold CR3_FILTER
    exact ⟨(and_bit_ne_zero _ 7).2 hboth.1, hboth.2⟩
  · intro t ht
    simp only [vmx_pt_ioctl, EINVAL, ht]
    simp
  · intro t ht
    have hf : t.ia32_rtit_ctrl_msr &&& CR3_FILTER ≠ 0 := by
      unfold CR3_FILTER
      exact (and_bit_ne_zero _ 7).2 ht
    simp only [vmx_pt_ioctl, EINVAL]
    rw [if_neg (fun hc => hc.2.1 hf)]

theorem C27_cr3_modes_mutually_exclusive_witness :
    (pt_run 2 ⟨pt_msrs_zero, pt_session0⟩ pt_events_cr3_then_multi).pt.ia32_rtit_ctrl_msr.testBit 7
      = true ∧
    ¬ ((pt_run 2 ⟨pt_msrs_zero, pt_session0⟩
          pt_events_cr3_then_multi).pt.ia32_rtit_ctrl_msr.testBit 7 = true ∧
       (pt_run 2 ⟨pt_msrs_zero, pt_session0⟩
          pt_events_cr3_then_multi).pt.multi_cr3_enabled = true) ∧
    vmx_pt_ioctl 2 .KVM_VMX_PT_ENABLE_MULTI_CR3
        (pt_run 2 ⟨pt_msrs_zero, pt_session0⟩ pt_events_cr3_then_multi).pt
      = (-22, (pt_run 2 ⟨pt_msrs_zero, pt_session0⟩ pt_events_cr3_then_multi).pt) :=
  have h := C27_cr3_modes_mutually_exclusive 2 pa_id 0x100000 0x600000 0x700000 pt_session0
    pt_msrs_zero pt_events_cr3_then_multi pt_session0_setup
  ⟨by decide, h.2.1, h.2.2.2 _ (by decide)⟩

/-! ## Theorems: the MSR pair of the entry/exit switch -/

theorem testBit_zero_clear (c j : Nat) :
    (if c &&& TRACE_EN ≠ 0 then c ^^^ TRACE_EN else c).testBit j
      = (!decide (j = 0) && c.testBit j) := by
  unfold TRACE_EN
  split_ifs with h
  · rw [and_bit_ne_zero] at h
    rw [testBit_xor_bit]
    by_cases hj : j = 0
    · subst hj; simp [h]
    · have : ¬ (0 = j) := fun e => hj e.symm
      simp [hj, this]
  · rw [and_bit_ne_zero] at h
    by_cases hj : j = 0
    · subst hj; simpa using h
    · simp [hj]

/-- Claim C28: for every control-flag value `c` of a session,
`vmx_pt_setup_vmx_autoload_msr` installs, when tracing is being enabled, the guest-side
value `c` with bit 0 (TraceEn) set and the host-side value `c` with bit 0 cleared, and,
when tracing is being disabled, the value `c` with bit 0 cleared on both sides: bit `j`
of the host-side value is bit `j` of `c` for `j != 0` and clear for `j = 0`, bit `j` of
the enabling guest-side value is bit `j` of `c` for `j != 0` and set for `j = 0`.  In
numbers the host-side value is `c - c % 2` and the enabling guest-side value is
`c - c % 2 + 1`. -/
theorem C28_autoload_msr_pair (s : vcpu_vmx_pt) :
    ∃ g h : Nat,
      (vmx_pt_setup_vmx_autoload_msr s true).vmx.rtit_ctl_switch = some (g, h) ∧
      (vmx_pt_setup_vmx_autoload_msr s false).vmx.rtit_ctl_switch = some (h, h) ∧
      g.testBit 0 = true ∧ h.testBit 0 = false ∧
      (∀ j, g.testBit j = (decide (j = 0) || s.ia32_rtit_ctrl_msr.testBit j)) ∧
      (∀ j, h.testBit j = (!decide (j = 0) && s.ia32_rtit_ctrl_msr.testBit j)) ∧
      h = s.ia32_rtit_ctrl_msr - s.ia32_rtit_ctrl_msr % 2 ∧ g = h + 1 := by
  have hh : ∀ j, (if s.ia32_rtit_ctrl_msr &&& TRACE_EN ≠ 0
      then s.ia32_rtit_ctrl_msr ^^^ TRACE_EN else s.ia32_rtit_ctrl_msr).testBit j
        = (!decide (j = 0) && s.ia32_rtit_ctrl_msr.testBit j) := testBit_zero_clear _
  have hgj : ∀ j, ((if s.ia32_rtit_ctrl_msr &&& TRACE_EN ≠ 0
      then s.ia32_rtit_ctrl_msr ^^^ TRACE_EN else s.ia32_rtit_ctrl_msr) ||| TRACE_EN).testBit j
        = (decide (j = 0) || s.ia32_rtit_ctrl_msr.testBit j) := by
    intro j
    have : TRACE_EN = BIT_ULL 0 := rfl
    rw [this, testBit_or_bit, ← this, hh]
    by_cases hj : j = 0
    · subst hj; simp
    · have : ¬ (0 = j) := fun e => hj e.symm
      simp [hj, this]
  have hval : (if s.ia32_rtit_ctrl_msr &&& TRACE_EN ≠ 0
      then s.ia32_rtit_ctrl_msr ^^^ TRACE_EN else s.ia32_rtit_ctrl_msr)
        = s.ia32_rtit_ctrl_msr - s.ia32_rtit_ctrl_msr % 2 := by
    apply Nat.eq_of_testBit_eq
    intro j
    rw [hh]
    have e : s.ia32_rtit_ctrl_msr - s.ia32_rtit_ctrl_msr % 2
        = 2 * (s.ia32_rtit_ctrl_msr / 2) := by omega
    rw [e]
    cases j with
    | zero => simp [Nat.testBit_zero]
    | succ j =>
      have : 2 * (s.ia32_rtit_ctrl_msr / 2) = 2 ^ 1 * (s.ia32_rtit_ctrl_msr / 2) := by norm_num
      rw [this, Nat.testBit_mul_pow_two]
      simp [Nat.testBit_succ]
  refine ⟨(if s.ia32_rtit_ctrl_msr &&& TRACE_EN ≠ 0
      then s.ia32_rtit_ctrl_msr ^^^ TRACE_EN else s.ia32_rtit_ctrl_msr) ||| TRACE_EN,
    if s.ia32_rtit_ctrl_msr &&& TRACE_EN ≠ 0
      then s.ia32_rtit_ctrl_msr ^^^ TRACE_EN else s.ia32_rtit_ctrl_msr,
    rfl, rfl, ?_, ?_, hgj, hh, hval, ?_⟩
  · rw [hgj]; simp
  · rw [hh]; simp
  · rw [hval]
    have e : s.ia32_rtit_ctrl_msr - s.ia32_rtit_ctrl_msr % 2
        = 2 * (s.ia32_rtit_ctrl_msr / 2) := by omega
    rw [e]
    have : TRACE_EN = 1 := by decide
    rw [this]
    apply Nat.eq_of_testBit_eq
    intro j
    have a1 : (2 * (s.ia32_rtit_ctrl_msr / 2) + 1) / 2 = s.ia32_rtit_ctrl_msr / 2 := by omega
    have a2 : 2 * (s.ia32_rtit_ctrl_msr / 2) / 2 = s.ia32_rtit_ctrl_msr / 2 := by omega
    cases j with
    | zero =>
      simp only [Nat.testBit_or, Nat.testBit_zero]
      have : (2 * (s.ia32_rtit_ctrl_msr / 2) + 1) % 2 = 1 := by omega
      simp [this]
    | succ j =>
      rw [Nat.testBit_or, Nat.testBit_succ, Nat.testBit_succ, Nat.testBit_succ, a1, a2]
      simp

/-! ## Theorems: the CR3 match value under an enabled CR3 filter -/

/-- Claim C29 (the check of `ENABLE_CR3` can be bypassed): `ENABLE_CR3` rejects a zero
match value, but `CONFIGURE_CR3` stores any argument in every unlocked session without
looking at the CR3-filter flag.  After `CONFIGURE_CR3 0x5000`, `ENABLE_CR3`,
`CONFIGURE_CR3 0`, each returning 0, the CR3-filter flag (bit 7) is set while the
stored match value is 0; after `ENABLE` and a guest entry the guest-side control value
has the trace-enable bit and the CR3-filter bit set, and the entry hook has not written
the match register of the core, which keeps the value it had. -/
theorem C29_filter_flag_set_with_zero_match :
    (vmx_pt_ioctl 2 (.KVM_VMX_PT_CONFIGURE_CR3 0x5000) pt_session0).1 = 0 ∧
    (vmx_pt_ioctl 2 .KVM_VMX_PT_ENABLE_CR3
      (vmx_pt_ioctl 2 (.KVM_VMX_PT_CONFIGURE_CR3 0x5000) pt_session0).2).1 = 0 ∧
    (vmx_pt_ioctl 2 (.KVM_VMX_PT_CONFIGURE_CR3 0)
      (vmx_pt_ioctl 2 .KVM_VMX_PT_ENABLE_CR3
        (vmx_pt_ioctl 2 (.KVM_VMX_PT_CONFIGURE_CR3 0x5000) pt_session0).2).2).1 = 0 ∧
    (pt_run 2 ⟨pt_msrs_zero, pt_session0⟩ pt_events_cr3_zero).pt.ia32_rtit_ctrl_msr
      &&& CR3_FILTER ≠ 0 ∧
    (pt_run 2 ⟨pt_msrs_zero, pt_session0⟩ pt_events_cr3_zero).pt.ia32_rtit_ctrl_msr.testBit 7
      = true ∧
    (pt_run 2 ⟨pt_msrs_zero, pt_session0⟩ pt_events_cr3_zero).pt.ia32_rtit_cr3_match = 0 ∧
    vmx_pt_ioctl 2 .KVM_VMX_PT_ENABLE_CR3 pt_session0 = (-22, pt_session0) ∧
    pt_machine_cr3_zero_tracing.pt.configured = true ∧
    pt_machine_cr3_zero_tracing.pt.ia32_rtit_cr3_match = 0 ∧
    pt_machine_cr3_zero_tracing.pt.vmx.rtit_ctl_switch = some (10637, 10636) ∧
    Nat.testBit 10637 0 = true ∧ Nat.testBit 10637 7 = true ∧
    pt_machine_cr3_zero_tracing.hw.cr3_match = 0xdead000 ∧
    ∀ (supported_addrn arg : Nat) (s : vcpu_vmx_pt),
      vmx_pt_ioctl supported_addrn (.KVM_VMX_PT_CONFIGURE_CR3 arg) s =
        if s.configured then (-22, s) else (0, { s with ia32_rtit_cr3_match := arg }) := by
  refine ⟨by decide, by decide, by decide, by decide, by decide, by decide, rfl,
    by decide, by decide, by decide, by decide, by decide, by decide, ?_⟩
  intro sa arg s
  simp only [vmx_pt_ioctl, EINVAL]
  cases s.configured <;> simp

/-! ## Theorems: reading and resetting the log lengths -/

/-- The loop of `vmx_fdl_get_index` in closed form: the lengths below `k` are zero and
nothing else of the session differs. -/
theorem get_index_loop_eq (data : vm_vmx_fdl) (result : fdl_result) (k : Nat) :
    ((List.range k).foldl get_index_area (data, result)).1 = fdl_reset_lengths data k := by
  induction k with
  | zero => simp [fdl_reset_lengths]
  | succ k ih =>
    rw [List.range_succ, List.foldl_append]
    simp only [List.foldl_cons, List.foldl_nil]
    generalize (List.range k).foldl get_index_area (data, result) = st at *
    simp only [get_index_area, ih, fdl_reset_lengths]
    congr 1
    funext i
    by_cases hik : i = k
    · subst hik; simp
    · rw [Function.update_noteq hik]
      have : (i < k + 1) ↔ (i < k) := by omega
      simp only [this]

/-- The loop of `vmx_fdl_flush` in closed form. -/
theorem flush_loop_eq (data : vm_vmx_fdl) (k : Nat) :
    (List.range k).foldl
      (fun d i => { d with areas := Function.update d.areas i { d.areas i with stack_index := 0 } })
      data = fdl_reset_lengths data k := by
  induction k with
  | zero => simp [fdl_reset_lengths]
  | succ k ih =>
    rw [List.range_succ, List.foldl_append]
    simp only [List.foldl_cons, List.foldl_nil]
    rw [ih]
    simp only [fdl_reset_lengths]
    congr 1
    funext i
    by_cases hik : i = k
    · subst hik; simp
    · rw [Function.update_noteq hik]
      have : (i < k + 1) ↔ (i < k) := by omega
      simp only [this]

/-- The session after a command that resets the lengths. -/
theorem reset_cmd_session (cmd : fdl_ioctl_cmd) (data : vm_vmx_fdl)
    (hcmd : is_reset_cmd cmd = true) :
    (vmx_fdl_ioctl cmd data).2.1 =
      if data.configured then fdl_reset_lengths data data.num_areas else data := by
  cases cmd with
  | KVM_VMX_FDL_SET arg writable => simp [is_reset_cmd] at hcmd
  | OTHER nr => simp [is_reset_cmd] at hcmd
  | KVM_VMX_FDL_FLUSH =>
    simp only [vmx_fdl_ioctl, vmx_fdl_flush]
    split_ifs
    · exact flush_loop_eq data data.num_areas
    · rfl
  | KVM_VMX_FDL_GET_INDEX result0 writable =>
    simp only [vmx_fdl_ioctl, vmx_fdl_get_index]
    split_ifs
    · exact get_index_loop_eq data _ data.num_areas
    · exact get_index_loop_eq data _ data.num_areas
    · rfl

/-- Claim C21: on a configured session `GET_AND_RESET_COUNTS` (with a result buffer
the kernel can write) returns 0 and reports the number of configured regions and, for
each region, the log length it had immediately before the call; the session afterwards
is the session before with the log length of every region set to zero: the buffer, the
bitmap and log pointers and every other field are the same.  On a session that has not
been configured it returns -22 and the session is unchanged.  (When the result buffer
cannot be written the call on a configured session returns -22 after it has reset the
lengths.) -/
theorem C21_get_and_reset_counts (data : vm_vmx_fdl) (result0 : fdl_result) :
    (data.configured = true →
      ∃ res, vmx_fdl_ioctl (.KVM_VMX_FDL_GET_INDEX result0 true) data
          = (0, fdl_reset_lengths data data.num_areas, none, some res) ∧
        res.num = data.num_areas ∧
        (∀ i, i < data.num_areas → res.values i = (data.areas i).stack_index) ∧
        (∀ i, i < data.num_areas →
          ((fdl_reset_lengths data data.num_areas).areas i).stack_index = 0) ∧
        (fdl_reset_lengths data data.num_areas).alloc_buf = data.alloc_buf ∧
        (∀ i nr, fdl_bit (fdl_reset_lengths data data.num_areas) i nr = fdl_bit data i nr) ∧
        (∀ i k, fdl_slot (fdl_reset_lengths data data.num_areas) i k = fdl_slot data i k) ∧
        vmx_fdl_ioctl (.KVM_VMX_FDL_GET_INDEX result0 false) data
          = (-22, fdl_reset_lengths data data.num_areas, none, none)) ∧
    (data.configured = false → ∀ writable,
      vmx_fdl_ioctl (.KVM_VMX_FDL_GET_INDEX result0 writable) data = (-22, data, none, none)) := by
  constructor
  · intro hc
    have h := get_index_loop data { result0 with num := data.num_areas } data.num_areas
    simp only at h
    obtain ⟨-, -, -, -, i5, -, i7, -⟩ := h
    have heq := get_index_loop_eq data { result0 with num := data.num_areas } data.num_areas
    refine ⟨((List.range data.num_areas).foldl get_index_area
      (data, { result0 with num := data.num_areas })).2, ?_, i5, fun i hi => (i7 i hi).2, ?_, rfl,
      ?_, ?_, ?_⟩
    · simp only [vmx_fdl_ioctl, vmx_fdl_get_index, hc, if_true]
      rw [heq]
    · intro i hi
      simp [fdl_reset_lengths, hi]
    · intro i nr
      simp only [fdl_bit, fdl_reset_lengths]
      split_ifs <;> rfl
    · intro i k
      simp only [fdl_slot, fdl_reset_lengths]
      split_ifs <;> rfl
    · simp only [vmx_fdl_ioctl, vmx_fdl_get_index, hc, if_true, EINVAL]
      rw [heq]
      simp
  · intro hc writable
    simp [vmx_fdl_ioctl, vmx_fdl_get_index, hc, EINVAL]

theorem C21_get_and_reset_counts_witness :
    (∃ res, vmx_fdl_ioctl (.KVM_VMX_FDL_GET_INDEX ⟨0, fun _ => 0⟩ true)
        (vmx_fdl_record (fdl_fresh vmx_fdl_setup fdl_conf_two) [0x103000, 0x105000, 0x201000])
          = (0, fdl_reset_lengths
              (vmx_fdl_record (fdl_fresh vmx_fdl_setup fdl_conf_two) [0x103000, 0x105000, 0x201000])
              2, none, some res) ∧
      res.num = 2 ∧ res.values 0 = 2 ∧ res.values 1 = 1) ∧
    vmx_fdl_ioctl (.KVM_VMX_FDL_GET_INDEX ⟨0, fun _ => 0⟩ true) vmx_fdl_setup
      = (-22, vmx_fdl_setup, none, none) :=
  have h := C21_get_and_reset_counts
    (vmx_fdl_record (fdl_fresh vmx_fdl_setup fdl_conf_two) [0x103000, 0x105000, 0x201000])
    ⟨0, fun _ => 0⟩
  have h0 := (C21_get_and_reset_counts vmx_fdl_setup ⟨0, fun _ => 0⟩).2 rfl true
  ⟨by
    obtain ⟨res, h1, h2, h3, -⟩ := h.1 (by decide)
    exact ⟨res, h1, h2, by rw [h3 0 (by decide)]; decide, by rw [h3 1 (by decide)]; decide⟩,
   h0⟩

/-! ## Theorems: capacity of the bitmap and the log of a region -/

/-- Claim C24: for a region `i` of a configuration (at most 8 regions, 64-bit sizes)
whose size is `N * 4096`, `CONFIGURE` reports a bitmap size of at least `ceil(N / 8)`
bytes, hence at least `N` bits, and a log size of at least `8 * N` bytes, and sets the
slot limit of the region to exactly `N`.  For every address `p` inside the region the
bit index `(p - base) >> 12` the recorder uses is below `N` and the byte holding that
bit lies inside the bitmap area reported for the region; every log slot below the slot
limit lies, with all its 8 bytes, inside the log area reported for the region. -/
theorem C24_bitmap_and_log_hold_every_page (data : vm_vmx_fdl) (configuration : fdl_conf)
    (i N : Nat)
    (hconf : data.configured = false) (hn1 : 1 ≤ configuration.num)
    (hn8 : configuration.num ≤ 8)
    (hsz : ∀ j, j < configuration.num → (configuration.areas j).size < 2 ^ 64)
    (hi : i < configuration.num) (hsize : (configuration.areas i).size = N * 4096) :
    ∃ out, vmx_fdl_realloc_memory data (some configuration) true
        = (0, fdl_fresh data configuration, some out) ∧
      (N + 7) / 8 ≤ (out.areas i).mmap_bitmap_size ∧
      N ≤ 8 * (out.areas i).mmap_bitmap_size ∧
      8 * N ≤ (out.areas i).mmap_stack_size ∧
      ((fdl_fresh data configuration).areas i).stack_max = N ∧
      ((fdl_fresh data configuration).areas i).bitmap = (out.areas i).mmap_bitmap_offset ∧
      ((fdl_fresh data configuration).areas i).stack = (out.areas i).mmap_stack_offset ∧
      (out.areas i).mmap_bitmap_offset + (out.areas i).mmap_bitmap_size
        = (out.areas i).mmap_stack_offset ∧
      (out.areas i).mmap_stack_offset + (out.areas i).mmap_stack_size ≤ out.mmap_size ∧
      (∀ p, (configuration.areas i).base_address ≤ p →
        p < (configuration.areas i).base_address + N * 4096 →
        (p - ((fdl_fresh data configuration).areas i).base) >>> 12 < N ∧
        ((fdl_fresh data configuration).areas i).bitmap
            + ((p - ((fdl_fresh data configuration).areas i).base) >>> 12) / 8
          < (out.areas i).mmap_bitmap_offset + (out.areas i).mmap_bitmap_size) ∧
      (∀ k, k < ((fdl_fresh data configuration).areas i).stack_max →
        (out.areas i).mmap_stack_offset ≤ ((fdl_fresh data configuration).areas i).stack + 8 * k ∧
        ((fdl_fresh data configuration).areas i).stack + 8 * k + 8
          ≤ (out.areas i).mmap_stack_offset + (out.areas i).mmap_stack_size) := by
  obtain ⟨out, h1, -, h3, h4⟩ := realloc_out_spec data configuration hconf hn1 hn8 hsz
  obtain ⟨-, -, -, -, f5⟩ := fdl_fresh_spec data configuration hconf hn1 hn8 hsz
  obtain ⟨g1, g2, g3, g4, g5, g6⟩ := f5 i hi
  obtain ⟨-, -, o3, o4, o5, o6⟩ := h4 i hi
  have hb := bitmap_size_bounds (hsz i hi)
  have hs := stack_size_bounds (hsz i hi)
  have hN : (configuration.areas i).size / 0x1000 = N := by
    rw [hsize]; omega
  rw [hN] at hb hs
  have hend : fdl_off configuration (i + 1) ≤ fdl_off configuration configuration.num :=
    fdl_off_mono configuration (by omega)
  have hoff : fdl_off configuration (i + 1) = fdl_off configuration i
      + PAGE_ALIGNED_SIZE (FDL_BITMAP_SIZE (configuration.areas i).size)
      + PAGE_ALIGNED_SIZE (FDL_STACK_SIZE (configuration.areas i).size) := rfl
  refine ⟨out, h1, ?_, ?_, ?_, ?_, ?_, ?_, ?_, ?_, ?_, ?_⟩
  · rw [o4]; omega
  · rw [o4]; omega
  · rw [o6]; omega
  · rw [g4, hN]
  · rw [g5, o3]
  · rw [g6, o5]
  · rw [o3, o4, o5]
  · rw [o5, o6, h3]; omega
  · intro p hp1 hp2
    rw [g1, g5, o3, o4, shift12_eq]
    have : (p - (configuration.areas i).base_address) / 0x1000 < N := by
      rw [Nat.div_lt_iff_lt_mul (by norm_num)]
      omega
    refine ⟨this, ?_⟩
    have h8 : (p - (configuration.areas i).base_address) / 0x1000 / 8
        < PAGE_ALIGNED_SIZE (FDL_BITMAP_SIZE (configuration.areas i).size) := by
      omega
    omega
  · intro k hk
    rw [g4, hN] at hk
    rw [g6, o5, o6]
    omega

theorem C24_bitmap_and_log_hold_every_page_witness :
    ∃ out, vmx_fdl_realloc_memory vmx_fdl_setup (some fdl_conf_two) true
        = (0, fdl_fresh vmx_fdl_setup fdl_conf_two, some out) ∧
      (64 + 7) / 8 ≤ (out.areas 1).mmap_bitmap_size ∧
      8 * 64 ≤ (out.areas 1).mmap_stack_size ∧
      ((fdl_fresh vmx_fdl_setup fdl_conf_two).areas 1).stack_max = 64 :=
  have h := C24_bitmap_and_log_hold_every_page vmx_fdl_setup fdl_conf_two 1 64 rfl
    (by decide) (by decide) (by decide) (by decide) (by decide)
  by
    obtain ⟨out, h1, h2, -, h4, h5, -⟩ := h
    exact ⟨out, h1, h2, h4, h5⟩

/-! ## Theorems: the invariant of a configured session -/

/-- A lookup that finds an area finds a configured one whose range test succeeds. -/
theorem ram_area_some (d : vm_vmx_fdl) (p : Nat) (hn : d.num_areas ≤ 8)
    (h : vmx_fdl_ram_area d p ≠ 0xff) :
    vmx_fdl_ram_area d p < d.num_areas ∧
    area_in_range p (d.areas (vmx_fdl_ram_area d p)) = true := by
  by_cases hex : ∃ i, i < d.num_areas ∧ area_in_range p (d.areas i) = true
  · have hs := Nat.find_spec hex
    have hm : ∀ j, j < Nat.find hex → area_in_range p (d.areas j) = false := by
      intro j hj
      have hj2 := Nat.find_min hex hj
      have hjn : j < d.num_areas := by omega
      cases hb : area_in_range p (d.areas j)
      · rfl
      · exact absurd ⟨hjn, hb⟩ hj2
    have he := ram_area_lowest d p (Nat.find hex) hn hs.1 hs.2 hm
    rw [he]
    exact hs
  · exfalso
    apply h
    apply ram_area_none
    intro j hj
    cases hb : area_in_range p (d.areas j)
    · rfl
    · exact absurd ⟨j, hj, hb⟩ hex

theorem fdl_bit_eq {d : vm_vmx_fdl} {buf : Nat → Nat} (hbuf : d.alloc_buf = some buf)
    (j nr : Nat) : fdl_bit d j nr = test_bit_le nr (d.areas j).bitmap buf := by
  simp [fdl_bit, hbuf]

/-- An unset bit below the page count leaves the count of set bits below the page count. -/
theorem count_lt_of_unset {d : vm_vmx_fdl} {j nr : Nat}
    (hnr : nr < (d.areas j).size / 0x1000) (hbit : fdl_bit d j nr = false) :
    fdl_count d j < (d.areas j).size / 0x1000 := by
  unfold fdl_count
  have hsub : (Finset.range ((d.areas j).size / 0x1000)).filter (fun nr => fdl_bit d j nr = true)
      ⊆ (Finset.range ((d.areas j).size / 0x1000)).erase nr := by
    intro x hx
    rw [Finset.mem_filter] at hx
    rw [Finset.mem_erase]
    refine ⟨?_, hx.1⟩
    intro hxe
    rw [hxe, hbit] at hx
    exact Bool.false_ne_true hx.2
  have hc := Finset.card_le_card hsub
  rw [Finset.card_erase_of_mem (Finset.mem_range.2 hnr), Finset.card_range] at hc
  omega

/-- Setting one more bit below the page count raises the count of set bits by one. -/
theorem count_push {d d1 : vm_vmx_fdl} {j nr : Nat} (hsize : (d1.areas j).size = (d.areas j).size)
    (hnr : nr < (d.areas j).size / 0x1000) (hbit : fdl_bit d j nr = false)
    (hnew : ∀ nr1, nr1 < (d.areas j).size / 0x1000 →
      fdl_bit d1 j nr1 = (fdl_bit d j nr1 || decide (nr1 = nr))) :
    fdl_count d1 j = fdl_count d j + 1 := by
  unfold fdl_count
  rw [hsize]
  have heq : (Finset.range ((d.areas j).size / 0x1000)).filter (fun nr => fdl_bit d1 j nr = true)
      = insert nr ((Finset.range ((d.areas j).size / 0x1000)).filter
          (fun nr => fdl_bit d j nr = true)) := by
    ext x
    rw [Finset.mem_insert, Finset.mem_filter, Finset.mem_filter, Finset.mem_range]
    constructor
    · rintro ⟨hx, hb⟩
      rw [hnew x hx] at hb
      by_cases hxe : x = nr
      · exact Or.inl hxe
      · right
        simp only [hxe, decide_False, Bool.or_false] at hb
        exact ⟨hx, hb⟩
    · rintro (hxe | ⟨hx, hb⟩)
      · subst hxe
        refine ⟨hnr, ?_⟩
        rw [hnew x hnr]
        simp
      · refine ⟨hx, ?_⟩
        rw [hnew x hx, hb]
        simp
  rw [heq, Finset.card_insert_of_not_mem]
  intro hmem
  rw [Finset.mem_filter] at hmem
  rw [hbit] at hmem
  exact Bool.false_ne_true hmem.2

/-- The count of set bits depends only on the size and the bits below the page count. -/
theorem count_congr {d d1 : vm_vmx_fdl} {j : Nat} (hsize : (d1.areas j).size = (d.areas j).size)
    (hsame : ∀ nr1, nr1 < (d.areas j).size / 0x1000 → fdl_bit d1 j nr1 = fdl_bit d j nr1) :
    fdl_count d1 j = fdl_count d j := by
  unfold fdl_count
  rw [hsize]
  congr 1
  apply Finset.filter_congr
  intro x hx
  rw [hsame x (Finset.mem_range.1 hx)]

/-- In a session that satisfies the invariant, an address accepted by the range test of
a configured region has a bit index below the page count of the region. -/
theorem inv_nr_lt {d : vm_vmx_fdl} (hinv : fdl_inv d) {p i : Nat} (hi : i < d.num_areas)
    (hin : area_in_range p (d.areas i) = true) :
    (p - (d.areas i).base) >>> 12 < (d.areas i).size / 0x1000 ∧ (d.areas i).base ≤ p ∧
    p < (d.areas i).base + (d.areas i).size ∧ p < 2 ^ 64 := by
  obtain ⟨hl, -, hreg, -⟩ := hinv
  obtain ⟨r1, r2, r3⟩ := hreg i hi
  obtain ⟨-, -, -, h4, -⟩ := hl
  obtain ⟨a1, -, -, -⟩ := h4 i hi
  obtain ⟨s1, s2, s3⟩ := in_range_sub r1 r2 a1 hin
  refine ⟨?_, s1, by omega, s3⟩
  rw [shift12_eq, Nat.div_lt_iff_lt_mul (by norm_num)]
  have : (d.areas i).size / 0x1000 * 0x1000 = (d.areas i).size := by omega
  omega

/-- One call of the recorder on a session that satisfies the invariant: the invariant
holds afterwards, the regions are the same, no set bit is cleared, the bit of an
attributed address is set afterwards, and the "stack_max reached" branch is not taken. -/
theorem set_addr_inv {d : vm_vmx_fdl} (hinv : fdl_inv d) (p : Nat) :
    fdl_inv (vmx_fdl_set_addr d p) ∧
    (vmx_fdl_set_addr d p).num_areas = d.num_areas ∧
    (∀ j, ((vmx_fdl_set_addr d p).areas j).base = (d.areas j).base ∧
      ((vmx_fdl_set_addr d p).areas j).size = (d.areas j).size ∧
      ((vmx_fdl_set_addr d p).areas j).stack = (d.areas j).stack ∧
      ((vmx_fdl_set_addr d p).areas j).bitmap = (d.areas j).bitmap ∧
      ((vmx_fdl_set_addr d p).areas j).stack_max = (d.areas j).stack_max) ∧
    (∀ j nr, j < d.num_areas → nr < (d.areas j).size / 0x1000 → fdl_bit d j nr = true →
      fdl_bit (vmx_fdl_set_addr d p) j nr = true) ∧
    stack_max_reached d p = false ∧
    (vmx_fdl_ram_area d p ≠ 0xff →
      fdl_bit (vmx_fdl_set_addr d p) (vmx_fdl_ram_area d p)
        ((p - (d.areas (vmx_fdl_ram_area d p)).base) >>> 12) = true) := by
  have hinv0 := hinv
  obtain ⟨hl, hc, hreg, hcnt⟩ := hinv
  have hl0 := hl
  obtain ⟨-, hn8, ⟨buf, hbuf⟩, h4, -⟩ := hl
  by_cases h : vmx_fdl_ram_area d p = 0xff
  · rw [set_addr_of_none h]
    refine ⟨hinv0, rfl, fun j => ⟨rfl, rfl, rfl, rfl, rfl⟩, fun j nr _ _ hb => hb, ?_,
      fun hne => absurd h hne⟩
    simp [stack_max_reached, hbuf, h]
  · obtain ⟨hi0, hin⟩ := ram_area_some d p hn8 h
    obtain ⟨hnr, -, -, hp⟩ := inv_nr_lt hinv0 hi0 hin
    generalize hfind : vmx_fdl_ram_area d p = i0 at *
    cases hb : fdl_bit d i0 ((p - (d.areas i0).base) >>> 12)
    · have hclt := count_lt_of_unset hnr hb
      have hmax : (d.areas i0).stack_max = (d.areas i0).size / 0x1000 := (h4 i0 hi0).2.1
      have hroom : (d.areas i0).stack_index < (d.areas i0).stack_max := by
        have := hcnt i0 hi0
        omega
      obtain ⟨p1, p2, p3, p4, p5, p6, -, p8⟩ := set_addr_push hl0 hfind hi0 hnr hp hb hroom
      have hbits : ∀ j nr1, j < d.num_areas → nr1 < (d.areas j).size / 0x1000 →
          fdl_bit (vmx_fdl_set_addr d p) j nr1 =
            (fdl_bit d j nr1 || decide (j = i0 ∧ nr1 = (p - (d.areas i0).base) >>> 12)) := by
        intro j nr1 hj hnr1
        apply p5 j nr1 hj
        have := (layout_sep hl0 hj hj).1
        omega
      refine ⟨⟨p1, p3.trans hc, ?_, ?_⟩, p2, p4, ?_, ?_, ?_⟩
      · intro j hj
        rw [p2] at hj
        rw [(p4 j).1, (p4 j).2.1]
        exact hreg j hj
      · intro j hj
        rw [p2] at hj
        by_cases hji : j = i0
        · subst hji
          rw [p6, count_push (p4 j).2.1 hnr hb (fun nr1 h1 => by
            rw [hbits j nr1 hj h1]; simp)]
          have := hcnt j hj
          omega
        · rw [(p8 j hj hji).1, count_congr (p4 j).2.1 (fun nr1 h1 => by
            rw [hbits j nr1 hj h1]; simp [hji])]
          exact hcnt j hj
      · intro j nr1 hj hnr1 hset
        rw [hbits j nr1 hj hnr1, hset]
        rfl
      · have hb2 : test_bit_le ((p - (d.areas i0).base) >>> 12) (d.areas i0).bitmap buf = false := by
          rw [← fdl_bit_eq hbuf]; exact hb
        have hroom2 : ¬ (d.areas i0).stack_index ≥ (d.areas i0).stack_max := by omega
        simp [stack_max_reached, hbuf, hfind, h, test_and_set_old, hb2, hroom]
      · intro _
        rw [hbits i0 _ hi0 hnr]
        simp
    · have hb2 : test_bit_le ((p - (d.areas i0).base) >>> 12) (d.areas i0).bitmap buf = true := by
        rw [← fdl_bit_eq hbuf]; exact hb
      rw [set_addr_of_set hbuf hfind h hb2]
      refine ⟨hinv0, rfl, fun j => ⟨rfl, rfl, rfl, rfl, rfl⟩, fun j nr _ _ hb => hb, ?_,
        fun _ => hb⟩
      simp [stack_max_reached, hbuf, hfind, h, test_and_set_old, hb2]

/-- Resetting the log lengths keeps the invariant. -/
theorem reset_lengths_inv {d : vm_vmx_fdl} (hinv : fdl_inv d) (k : Nat) :
    fdl_inv (fdl_reset_lengths d k) := by
  obtain ⟨hl, hc, hreg, hcnt⟩ := hinv
  obtain ⟨h1, h2, h3, h4, h5⟩ := hl
  have hf : ∀ j, ((fdl_reset_lengths d k).areas j).base = (d.areas j).base ∧
      ((fdl_reset_lengths d k).areas j).size = (d.areas j).size ∧
      ((fdl_reset_lengths d k).areas j).stack = (d.areas j).stack ∧
      ((fdl_reset_lengths d k).areas j).bitmap = (d.areas j).bitmap ∧
      ((fdl_reset_lengths d k).areas j).stack_max = (d.areas j).stack_max ∧
      ((fdl_reset_lengths d k).areas j).stack_index ≤ (d.areas j).stack_index := by
    intro j
    simp only [fdl_reset_lengths]
    split_ifs <;> simp
  refine ⟨⟨h1, h2, h3, ?_, ?_⟩, hc, ?_, ?_⟩
  · intro j hj
    obtain ⟨a1, a2, a3, a4⟩ := h4 j hj
    obtain ⟨f1, f2, f3, f4, f5, f6⟩ := hf j
    rw [f2, f3, f4, f5]
    exact ⟨a1, a2, by omega, a4⟩
  · intro i j hij hj
    rw [(hf i).2.1, (hf i).2.2.1, (hf j).2.2.2.1]
    exact h5 i j hij hj
  · intro j hj
    rw [(hf j).1, (hf j).2.1]
    exact hreg j hj
  · intro j hj
    have hcc : fdl_count (fdl_reset_lengths d k) j = fdl_count d j := by
      apply count_congr (hf j).2.1
      intro nr1 _
      simp only [fdl_bit, fdl_reset_lengths]
      split_ifs <;> rfl
    rw [hcc]
    have := (hf j).2.2.2.2.2
    have := hcnt j hj
    omega

/-- One operation on a session that satisfies the invariant: the invariant holds
afterwards, the regions are the same, and no set bit is cleared. -/
theorem step_inv {d : vm_vmx_fdl} (hinv : fdl_inv d) (e : fdl_event) :
    fdl_inv (fdl_step d e) ∧
    (fdl_step d e).num_areas = d.num_areas ∧
    (∀ j, ((fdl_step d e).areas j).base = (d.areas j).base ∧
      ((fdl_step d e).areas j).size = (d.areas j).size ∧
      ((fdl_step d e).areas j).stack = (d.areas j).stack ∧
      ((fdl_step d e).areas j).bitmap = (d.areas j).bitmap ∧
      ((fdl_step d e).areas j).stack_max = (d.areas j).stack_max) ∧
    (∀ j nr, j < d.num_areas → nr < (d.areas j).size / 0x1000 → fdl_bit d j nr = true →
      fdl_bit (fdl_step d e) j nr = true) := by
  have hc : d.configured = true := hinv.2.1
  have hsame : fdl_inv d ∧ d.num_areas = d.num_areas ∧
      (∀ j, (d.areas j).base = (d.areas j).base ∧ (d.areas j).size = (d.areas j).size ∧
        (d.areas j).stack = (d.areas j).stack ∧ (d.areas j).bitmap = (d.areas j).bitmap ∧
        (d.areas j).stack_max = (d.areas j).stack_max) ∧
      (∀ j nr, j < d.num_areas → nr < (d.areas j).size / 0x1000 → fdl_bit d j nr = true →
        fdl_bit d j nr = true) :=
    ⟨hinv, rfl, fun j => ⟨rfl, rfl, rfl, rfl, rfl⟩, fun j nr _ _ h => h⟩
  have hreset : fdl_inv (fdl_reset_lengths d d.num_areas) ∧
      (fdl_reset_lengths d d.num_areas).num_areas = d.num_areas ∧
      (∀ j, ((fdl_reset_lengths d d.num_areas).areas j).base = (d.areas j).base ∧
        ((fdl_reset_lengths d d.num_areas).areas j).size = (d.areas j).size ∧
        ((fdl_reset_lengths d d.num_areas).areas j).stack = (d.areas j).stack ∧
        ((fdl_reset_lengths d d.num_areas).areas j).bitmap = (d.areas j).bitmap ∧
        ((fdl_reset_lengths d d.num_areas).areas j).stack_max = (d.areas j).stack_max) ∧
      (∀ j nr, j < d.num_areas → nr < (d.areas j).size / 0x1000 → fdl_bit d j nr = true →
        fdl_bit (fdl_reset_lengths d d.num_areas) j nr = true) := by
    refine ⟨reset_lengths_inv hinv _, rfl, ?_, ?_⟩
    · intro j
      simp only [fdl_reset_lengths]
      split_ifs <;> simp
    · intro j nr _ _ hb
      rw [← hb]
      simp only [fdl_bit, fdl_reset_lengths]
      split_ifs <;> rfl
  cases e with
  | record slot_dirty gpa =>
    cases slot_dirty
    · exact hsame
    · obtain ⟨a1, a2, a3, a4, -, -⟩ := set_addr_inv hinv (gpa &&& 0xFFFFFFFFFFFFF000)
      exact ⟨a1, a2, a3, a4⟩
  | ioctl cmd =>
    cases cmd with
    | KVM_VMX_FDL_SET arg writable =>
      have : fdl_step d (.ioctl (.KVM_VMX_FDL_SET arg writable)) = d := by
        simp [fdl_step, vmx_fdl_ioctl, vmx_fdl_realloc_memory, hc]
      rw [this]; exact hsame
    | OTHER nr => exact hsame
    | KVM_VMX_FDL_FLUSH =>
      have : fdl_step d (.ioctl .KVM_VMX_FDL_FLUSH) = fdl_reset_lengths d d.num_areas := by
        simp only [fdl_step]
        rw [reset_cmd_session .KVM_VMX_FDL_FLUSH d rfl, hc]
        rfl
      rw [this]; exact hreset
    | KVM_VMX_FDL_GET_INDEX result0 writable =>
      have : fdl_step d (.ioctl (.KVM_VMX_FDL_GET_INDEX result0 writable))
          = fdl_reset_lengths d d.num_areas := by
        simp only [fdl_step]
        rw [reset_cmd_session (.KVM_VMX_FDL_GET_INDEX result0 writable) d rfl, hc]
        rfl
      rw [this]; exact hreset

theorem fdl_run_snoc (d : vm_vmx_fdl) (es : List fdl_event) (e : fdl_event) :
    fdl_run d (es ++ [e]) = fdl_step (fdl_run d es) e := by
  simp [fdl_run, List.foldl_append]

/-- A sequence of operations on a session that satisfies the invariant. -/
theorem run_inv {d : vm_vmx_fdl} (hinv : fdl_inv d) (es : List fdl_event) :
    fdl_inv (fdl_run d es) ∧
    (fdl_run d es).num_areas = d.num_areas ∧
    (∀ j, ((fdl_run d es).areas j).base = (d.areas j).base ∧
      ((fdl_run d es).areas j).size = (d.areas j).size ∧
      ((fdl_run d es).areas j).stack = (d.areas j).stack ∧
      ((fdl_run d es).areas j).bitmap = (d.areas j).bitmap ∧
      ((fdl_run d es).areas j).stack_max = (d.areas j).stack_max) ∧
    (∀ j nr, j < d.num_areas → nr < (d.areas j).size / 0x1000 → fdl_bit d j nr = true →
      fdl_bit (fdl_run d es) j nr = true) := by
  induction es using List.reverseRecOn with
  | nil => exact ⟨hinv, rfl, fun j => ⟨rfl, rfl, rfl, rfl, rfl⟩, fun j nr _ _ h => h⟩
  | append_singleton es e ih =>
    obtain ⟨i1, i2, i3, i4⟩ := ih
    obtain ⟨s1, s2, s3, s4⟩ := step_inv i1 e
    rw [fdl_run_snoc]
    refine ⟨s1, s2.trans i2, ?_, ?_⟩
    · intro j
      obtain ⟨a1, a2, a3, a4, a5⟩ := s3 j
      obtain ⟨b1, b2, b3, b4, b5⟩ := i3 j
      exact ⟨a1.trans b1, a2.trans b2, a3.trans b3, a4.trans b4, a5.trans b5⟩
    · intro j nr hj hnr hb
      apply s4 j nr (by rw [i2]; exact hj) (by rw [(i3 j).2.1]; exact hnr)
      exact i4 j nr hj hnr hb

/-- A freshly configured session satisfies the invariant when every region has a
64-bit base and a positive 64-bit size that is a multiple of the page size. -/
theorem fresh_inv (data : vm_vmx_fdl) (configuration : fdl_conf)
    (hconf : data.configured = false) (hn1 : 1 ≤ configuration.num)
    (hn8 : configuration.num ≤ 8)
    (hreg : ∀ j, j < configuration.num →
      (configuration.areas j).base_address < 2 ^ 64 ∧
      (configuration.areas j).size % 4096 = 0 ∧ 0 < (configuration.areas j).size ∧
      (configuration.areas j).size < 2 ^ 64) :
    fdl_inv (fdl_fresh data configuration) := by
  have hsz : ∀ i, i < configuration.num → (configuration.areas i).size < 2 ^ 64 :=
    fun i hi => (hreg i hi).2.2.2
  obtain ⟨f1, f2, -, -, f5⟩ := fdl_fresh_spec data configuration hconf hn1 hn8 hsz
  refine ⟨fdl_fresh_layout data configuration hconf hn1 hn8 hsz, f1, ?_, ?_⟩
  · intro j hj
    rw [f2] at hj
    obtain ⟨g1, g2, -⟩ := f5 j hj
    obtain ⟨r1, r2, r3, r4⟩ := hreg j hj
    rw [g1, g2]
    exact ⟨r1, r3, r2⟩
  · intro j hj
    rw [f2] at hj
    rw [(f5 j hj).2.2.1]
    exact Nat.zero_le _

/-- The lookup gives the same area in every session reached from a given one. -/
theorem run_ram_area {d : vm_vmx_fdl} (hinv : fdl_inv d) (es : List fdl_event) (p : Nat) :
    vmx_fdl_ram_area (fdl_run d es) p = vmx_fdl_ram_area d p := by
  obtain ⟨-, h2, h3, -⟩ := run_inv hinv es
  exact ram_area_congr p h2 (fun j => ⟨(h3 j).1, (h3 j).2.1⟩)

/-! ## Theorems: the log never exceeds its capacity -/

/-- Claim C23: for every session configured with at most 8 regions whose size is a
positive multiple of the page size (64-bit bases and sizes), and every sequence of
operations (calls of the recorder for arbitrary addresses, `GET_AND_RESET_COUNTS`,
`FLUSH` and the other commands) in which only the recorder writes the buffer: in the
session after the sequence the slot limit of every region is `size / 4096`, its log
length is at most `size / 4096`, and no call of the recorder takes the
"stack_max reached" branch.  The sequence is arbitrary, so this holds after every step.
Page alignment of the bases and of the recorded addresses is not needed. -/
theorem C23_log_never_exceeds_capacity (data : vm_vmx_fdl) (configuration : fdl_conf)
    (es : List fdl_event)
    (hconf : data.configured = false) (hn1 : 1 ≤ configuration.num)
    (hn8 : configuration.num ≤ 8)
    (hreg : ∀ j, j < configuration.num →
      (configuration.areas j).base_address < 2 ^ 64 ∧
      (configuration.areas j).size % 4096 = 0 ∧ 0 < (configuration.areas j).size ∧
      (configuration.areas j).size < 2 ^ 64) :
    (∀ j, j < configuration.num →
      ((fdl_run (fdl_fresh data configuration) es).areas j).stack_max
        = (configuration.areas j).size / 4096 ∧
      ((fdl_run (fdl_fresh data configuration) es).areas j).stack_index
        ≤ (configuration.areas j).size / 4096) ∧
    (∀ gpfn, stack_max_reached (fdl_run (fdl_fresh data configuration) es) gpfn = false) ∧
    (∀ slot_dirty gpa,
      stack_max_reached_kvm slot_dirty (fdl_run (fdl_fresh data configuration) es) gpa
        = false) := by
  have hsz : ∀ i, i < configuration.num → (configuration.areas i).size < 2 ^ 64 :=
    fun i hi => (hreg i hi).2.2.2
  obtain ⟨-, f2, -, -, f5⟩ := fdl_fresh_spec data configuration hconf hn1 hn8 hsz
  have h0 := fresh_inv data configuration hconf hn1 hn8 hreg
  obtain ⟨r1, r2, r3, -⟩ := run_inv h0 es
  have hreach : ∀ gpfn,
      stack_max_reached (fdl_run (fdl_fresh data configuration) es) gpfn = false :=
    fun gpfn => (set_addr_inv r1 gpfn).2.2.2.2.1
  refine ⟨?_, hreach, ?_⟩
  · intro j hj
    have hj2 : j < (fdl_run (fdl_fresh data configuration) es).num_areas := by
      rw [r2, f2]; exact hj
    obtain ⟨hl, -, -, hcnt⟩ := r1
    obtain ⟨-, -, -, l4, -⟩ := layout_sep hl hj2 hj2
    have hs : ((fdl_run (fdl_fresh data configuration) es).areas j).size
        = (configuration.areas j).size := by
      rw [(r3 j).2.1, (f5 j hj).2.1]
    rw [hs] at l4
    obtain ⟨-, -, -, a4, a5, -⟩ := layout_sep hl hj2 hj2
    rw [hs] at a5
    exact ⟨a5, l4⟩
  · intro slot_dirty gpa
    simp [stack_max_reached_kvm, hreach]

theorem fdl_conf_two_regions : ∀ j, j < fdl_conf_two.num →
    (fdl_conf_two.areas j).base_address < 2 ^ 64 ∧
    (fdl_conf_two.areas j).size % 4096 = 0 ∧ 0 < (fdl_conf_two.areas j).size ∧
    (fdl_conf_two.areas j).size < 2 ^ 64 := by
  decide

theorem C23_log_never_exceeds_capacity_witness :
    ((fdl_run (fdl_fresh vmx_fdl_setup fdl_conf_two) fdl_events_reset).areas 0).stack_index
      ≤ 0x40000 / 4096 ∧
    stack_max_reached_kvm true (fdl_run (fdl_fresh vmx_fdl_setup fdl_conf_two) fdl_events_reset)
      0x103020 = false :=
  have h := C23_log_never_exceeds_capacity vmx_fdl_setup fdl_conf_two fdl_events_reset rfl
    (by decide) (by decide) fdl_conf_two_regions
  ⟨(h.1 0 (by decide)).2, h.2.2 true 0x103020⟩

/-! ## Theorems: the value the recorder appends -/

/-- The recorder on the page of an address inside a region with a page-aligned base
that no lower-indexed region contains, in a session that satisfies the invariant. -/
theorem record_in_region {d : vm_vmx_fdl} (hinv : fdl_inv d) {i gpa : Nat}
    (hi : i < d.num_areas) (hbase : (d.areas i).base % 4096 = 0)
    (hend : (d.areas i).base + (d.areas i).size ≤ 2 ^ 64)
    (hlo : (d.areas i).base ≤ gpa) (hhi : gpa < (d.areas i).base + (d.areas i).size)
    (hlow : ∀ j, j < i →
      ¬ ((d.areas j).base ≤ gpa &&& 0xFFFFFFFFFFFFF000 ∧
         gpa &&& 0xFFFFFFFFFFFFF000 < (d.areas j).base + (d.areas j).size)) :
    vmx_fdl_ram_area d (gpa &&& 0xFFFFFFFFFFFFF000) = i ∧
    gpa &&& 0xFFFFFFFFFFFFF000 = gpa / 4096 * 4096 ∧
    ((gpa &&& 0xFFFFFFFFFFFFF000) - (d.areas i).base) >>> 12 = (gpa - (d.areas i).base) / 4096 ∧
    (gpa - (d.areas i).base) / 4096 < (d.areas i).size / 0x1000 ∧
    gpa &&& 0xFFFFFFFFFFFFF000 < 2 ^ 64 := by
  have hinv0 := hinv
  obtain ⟨hl, -, hreg, -⟩ := hinv
  obtain ⟨-, hn8, -, h4, -⟩ := hl
  obtain ⟨r1, r2, r3⟩ := hreg i hi
  have hg : gpa < 2 ^ 64 := by omega
  have hm := page_mask_eq gpa hg
  have hin : area_in_range (gpa &&& 0xFFFFFFFFFFFFF000) (d.areas i) = true := by
    rw [in_range_iff hbase r3 r2 hend (by rw [hm]; omega), hm]
    omega
  have hfind : vmx_fdl_ram_area d (gpa &&& 0xFFFFFFFFFFFFF000) = i := by
    apply ram_area_lowest d _ i hn8 hi hin
    intro j hj
    have hjn : j < d.num_areas := by omega
    cases hb : area_in_range (gpa &&& 0xFFFFFFFFFFFFF000) (d.areas j)
    · rfl
    · obtain ⟨s1, s2, s3, -⟩ := inv_nr_lt hinv0 hjn hb
      exact absurd ⟨s2, s3⟩ (hlow j hj)
  have hnr : ((gpa &&& 0xFFFFFFFFFFFFF000) - (d.areas i).base) >>> 12
      = (gpa - (d.areas i).base) / 4096 := by
    rw [shift12_eq, hm]
    omega
  refine ⟨hfind, hm, hnr, ?_, by rw [hm]; omega⟩
  rw [← hnr]
  exact (inv_nr_lt hinv0 hi hin).1

/-- The recorder on a page of region `i` whose bit is clear, in a session that
satisfies the invariant: the page address is stored in the slot at the old log length
and the length goes up by one. -/
theorem record_new_page {d : vm_vmx_fdl} (hinv : fdl_inv d) {i gpa : Nat}
    (hi : i < d.num_areas) (hbase : (d.areas i).base % 4096 = 0)
    (hend : (d.areas i).base + (d.areas i).size ≤ 2 ^ 64)
    (hlo : (d.areas i).base ≤ gpa) (hhi : gpa < (d.areas i).base + (d.areas i).size)
    (hlow : ∀ j, j < i →
      ¬ ((d.areas j).base ≤ gpa &&& 0xFFFFFFFFFFFFF000 ∧
         gpa &&& 0xFFFFFFFFFFFFF000 < (d.areas j).base + (d.areas j).size))
    (hnew : fdl_bit d i ((gpa - (d.areas i).base) / 4096) = false) :
    ((fdl_step d (.record true gpa)).areas i).stack_index = (d.areas i).stack_index + 1 ∧
    fdl_slot (fdl_step d (.record true gpa)) i (d.areas i).stack_index
      = gpa &&& 0xFFFFFFFFFFFFF000 ∧
    fdl_log (fdl_step d (.record true gpa)) i = fdl_log d i ++ [gpa &&& 0xFFFFFFFFFFFFF000] ∧
    fdl_bit (fdl_step d (.record true gpa)) i ((gpa - (d.areas i).base) / 4096) = true ∧
    (∀ j, j < d.num_areas → j ≠ i →
      ((fdl_step d (.record true gpa)).areas j).stack_index = (d.areas j).stack_index ∧
      fdl_log (fdl_step d (.record true gpa)) j = fdl_log d j) := by
  obtain ⟨hfind, -, hnr, hlt, hp⟩ := record_in_region hinv hi hbase hend hlo hhi hlow
  have hinv0 := hinv
  obtain ⟨hl, -, -, hcnt⟩ := hinv
  have hmax : (d.areas i).stack_max = (d.areas i).size / 0x1000 := (layout_sep hl hi hi).2.2.2.2.1
  have hclt := count_lt_of_unset hlt hnew
  have hroom : (d.areas i).stack_index < (d.areas i).stack_max := by
    have := hcnt i hi
    omega
  have hstep : fdl_step d (.record true gpa)
      = vmx_fdl_set_addr d (gpa &&& 0xFFFFFFFFFFFFF000) := rfl
  rw [hstep]
  obtain ⟨p1, -, -, p4, p5, p6, p7, p8⟩ :=
    set_addr_push hl hfind hi (by rw [hnr]; exact hlt) hp (by rw [hnr]; exact hnew) hroom
  refine ⟨p6, ?_, p7, ?_, p8⟩
  · obtain ⟨-, -, ⟨buf1, hbuf1⟩, -, -⟩ := p1
    have hlog := p7
    unfold fdl_log at hlog
    rw [hbuf1] at hlog
    simp only [p6, List.range_succ, List.map_append, List.map_cons, List.map_nil] at hlog
    cases hb0 : d.alloc_buf with
    | none =>
      obtain ⟨-, -, ⟨buf, hbuf⟩, -, -⟩ := hl
      rw [hbuf] at hb0
      exact absurd hb0 (by simp)
    | some buf =>
      rw [hb0] at hlog
      simp only at hlog
      have h2 := (List.append_inj' hlog rfl).2
      simp only [List.cons.injEq, and_true] at h2
      simp only [fdl_slot, hbuf1]
      exact h2
  · have := p5 i ((gpa - (d.areas i).base) / 4096) hi (by
      have := (layout_sep hl hi hi).1
      omega)
    rw [this, hnr]
    simp

/-- Claim C25 (amended): in every session reached from a fresh configuration (at most
8 regions of positive page-multiple size) by recorder calls and commands, for a guest
physical address `gpa` inside region `i` (page-aligned base, end at most 2^64) whose
page lies in no lower-indexed region and whose bit is still clear, the recorder stores
in the slot of the log of region `i` whose index is the previous log length the page
address `gpa & 0xFFFFFFFFFFFFF000`, which is `(gpa >> 12) * 4096` and not the frame
number `gpa >> 12`; the log length of the region goes up by exactly one, the bit of the
page is set, and the other regions keep their lengths and logs. -/
theorem C25_recorder_appends_page_address (data : vm_vmx_fdl) (configuration : fdl_conf)
    (es : List fdl_event) (i gpa : Nat)
    (hconf : data.configured = false) (hn1 : 1 ≤ configuration.num)
    (hn8 : configuration.num ≤ 8)
    (hreg : ∀ j, j < configuration.num →
      (configuration.areas j).base_address < 2 ^ 64 ∧
      (configuration.areas j).size % 4096 = 0 ∧ 0 < (configuration.areas j).size ∧
      (configuration.areas j).size < 2 ^ 64)
    (hi : i < configuration.num)
    (hbase : (configuration.areas i).base_address % 4096 = 0)
    (hend : (configuration.areas i).base_address + (configuration.areas i).size ≤ 2 ^ 64)
    (hlo : (configuration.areas i).base_address ≤ gpa)
    (hhi : gpa < (configuration.areas i).base_address + (configuration.areas i).size)
    (hlow : ∀ j, j < i →
      ¬ ((configuration.areas j).base_address ≤ gpa &&& 0xFFFFFFFFFFFFF000 ∧
         gpa &&& 0xFFFFFFFFFFFFF000
           < (configuration.areas j).base_address + (configuration.areas j).size))
    (hnew : fdl_bit (fdl_run (fdl_fresh data configuration) es) i
      ((gpa - (configuration.areas i).base_address) / 4096) = false) :
    ((fdl_step (fdl_run (fdl_fresh data configuration) es) (.record true gpa)).areas i).stack_index
      = ((fdl_run (fdl_fresh data configuration) es).areas i).stack_index + 1 ∧
    fdl_slot (fdl_step (fdl_run (fdl_fresh data configuration) es) (.record true gpa)) i
        ((fdl_run (fdl_fresh data configuration) es).areas i).stack_index
      = gpa &&& 0xFFFFFFFFFFFFF000 ∧
    gpa &&& 0xFFFFFFFFFFFFF000 = (gpa >>> 12) * 4096 ∧
    fdl_log (fdl_step (fdl_run (fdl_fresh data configuration) es) (.record true gpa)) i
      = fdl_log (fdl_run (fdl_fresh data configuration) es) i ++ [gpa &&& 0xFFFFFFFFFFFFF000] ∧
    fdl_bit (fdl_step (fdl_run (fdl_fresh data configuration) es) (.record true gpa)) i
      ((gpa - (configuration.areas i).base_address) / 4096) = true ∧
    (∀ j, j < configuration.num → j ≠ i →
      ((fdl_step (fdl_run (fdl_fresh data configuration) es) (.record true gpa)).areas j).stack_index
        = ((fdl_run (fdl_fresh data configuration) es).areas j).stack_index ∧
      fdl_log (fdl_step (fdl_run (fdl_fresh data configuration) es) (.record true gpa)) j
        = fdl_log (fdl_run (fdl_fresh data configuration) es) j) := by
  have hsz : ∀ i, i < configuration.num → (configuration.areas i).size < 2 ^ 64 :=
    fun i hi => (hreg i hi).2.2.2
  obtain ⟨-, f2, -, -, f5⟩ := fdl_fresh_spec data configuration hconf hn1 hn8 hsz
  have h0 := fresh_inv data configuration hconf hn1 hn8 hreg
  obtain ⟨r1, r2, r3, -⟩ := run_inv h0 es
  have hb : ∀ j, j < configuration.num →
      ((fdl_run (fdl_fresh data configuration) es).areas j).base
        = (configuration.areas j).base_address ∧
      ((fdl_run (fdl_fresh data configuration) es).areas j).size
        = (configuration.areas j).size := by
    intro j hj
    rw [(r3 j).1, (r3 j).2.1, (f5 j hj).1, (f5 j hj).2.1]
    exact ⟨rfl, rfl⟩
  have hnum : (fdl_run (fdl_fresh data configuration) es).num_areas = configuration.num := by
    rw [r2, f2]
  have hg : gpa < 2 ^ 64 := by omega
  obtain ⟨c1, c2, c3, c4, c5⟩ := @record_new_page (fdl_run (fdl_fresh data configuration) es) r1
    i gpa (by rw [hnum]; exact hi) (by rw [(hb i hi).1]; exact hbase)
    (by rw [(hb i hi).1, (hb i hi).2]; exact hend) (by rw [(hb i hi).1]; exact hlo)
    (by rw [(hb i hi).1, (hb i hi).2]; exact hhi)
    (fun j hj => by
      have hjn : j < configuration.num := by omega
      rw [(hb j hjn).1, (hb j hjn).2]
      exact hlow j hj)
    (by rw [(hb i hi).1]; exact hnew)
  rw [(hb i hi).1] at c4
  refine ⟨c1, c2, ?_, c3, c4, fun j hj hji => c5 j (by rw [hnum]; exact hj) hji⟩
  rw [page_mask_eq gpa hg, shift12_eq]

theorem C25_recorder_appends_page_address_witness :
    fdl_slot (fdl_step (fdl_run (fdl_fresh vmx_fdl_setup fdl_conf_two) fdl_events_reset)
        (.record true 0x107123)) 0
        ((fdl_run (fdl_fresh vmx_fdl_setup fdl_conf_two) fdl_events_reset).areas 0).stack_index
      = 0x107123 &&& 0xFFFFFFFFFFFFF000 ∧
    0x107123 &&& 0xFFFFFFFFFFFFF000 = 0x107000 :=
  have h := C25_recorder_appends_page_address vmx_fdl_setup fdl_conf_two fdl_events_reset 0
    0x107123 rfl (by decide) (by decide) fdl_conf_two_regions (by decide) (by decide)
    (by decide) (by decide) (by decide) (by decide) (by decide)
  ⟨h.2.1, by decide⟩

/-- Claim C25 (counterexample): for the address 0x107123 inside region A
`[0x100000, 0x140000)` of a fresh configuration the recorder stores 0x107000 in slot 0
of the log of region A, and the frame number `0x107123 >> 12` is 0x107. -/
theorem C25_counterexample_log_holds_page_address :
    fdl_conf_two.num = 2 ∧ (fdl_conf_two.areas 0).base_address = 0x100000 ∧
    (fdl_conf_two.areas 0).size = 0x40000 ∧
    fdl_bit (fdl_fresh vmx_fdl_setup fdl_conf_two) 0 ((0x107123 - 0x100000) / 4096) = false ∧
    ((fdl_fresh vmx_fdl_setup fdl_conf_two).areas 0).stack_index = 0 ∧
    ((fdl_step (fdl_fresh vmx_fdl_setup fdl_conf_two) (.record true 0x107123)).areas 0).stack_index
      = 1 ∧
    fdl_slot (fdl_step (fdl_fresh vmx_fdl_setup fdl_conf_two) (.record true 0x107123)) 0 0
      = 0x107000 ∧
    0x107123 >>> 12 = 0x107 ∧
    fdl_slot (fdl_step (fdl_fresh vmx_fdl_setup fdl_conf_two) (.record true 0x107123)) 0 0
      ≠ 0x107123 >>> 12 ∧
    ¬ (∀ (data : vm_vmx_fdl) (configuration : fdl_conf) (i gpa : Nat),
        data.configured = false → 1 ≤ configuration.num → configuration.num ≤ 8 →
        i < configuration.num →
        (configuration.areas i).base_address ≤ gpa →
        gpa < (configuration.areas i).base_address + (configuration.areas i).size →
        fdl_bit (fdl_fresh data configuration) i
          ((gpa - (configuration.areas i).base_address) / 4096) = false →
        fdl_slot (fdl_step (fdl_fresh data configuration) (.record true gpa)) i
          ((fdl_fresh data configuration).areas i).stack_index = gpa >>> 12) := by
  have hslot : fdl_slot (fdl_step (fdl_fresh vmx_fdl_setup fdl_conf_two)
      (.record true 0x107123)) 0 0 = 0x107000 := by decide
  refine ⟨by decide, by decide, by decide, by decide, by decide, by decide, hslot, by decide,
    by rw [hslot]; decide, ?_⟩
  intro hall
  have h := hall vmx_fdl_setup fdl_conf_two 0 0x107123 rfl (by decide) (by decide) (by decide)
    (by decide) (by decide) (by decide)
  have h0 : ((fdl_fresh vmx_fdl_setup fdl_conf_two).areas 0).stack_index = 0 := by decide
  rw [h0, hslot] at h
  exact absurd h (by decide)

/-! ## Theorems: a reset changes only the log lengths -/

/-- Once the recorder has been called for an address that is attributed to a region,
every later call for that address leaves the session unchanged. -/
theorem record_again_unchanged {d : vm_vmx_fdl} (hinv : fdl_inv d) (gpa : Nat)
    (hin : vmx_fdl_ram_area d (gpa &&& 0xFFFFFFFFFFFFF000) ≠ 0xff)
    (es2 : List fdl_event) (slot_dirty : Bool) :
    fdl_step (fdl_run (fdl_step d (.record true gpa)) es2) (.record slot_dirty gpa)
      = fdl_run (fdl_step d (.record true gpa)) es2 := by
  cases slot_dirty
  · rfl
  · have hstep : fdl_step d (.record true gpa)
        = vmx_fdl_set_addr d (gpa &&& 0xFFFFFFFFFFFFF000) := rfl
    obtain ⟨a1, a2, a3, -, -, a6⟩ := set_addr_inv hinv (gpa &&& 0xFFFFFFFFFFFFF000)
    rw [← hstep] at a1 a2 a3 a6
    obtain ⟨hi0, hrange⟩ := ram_area_some d _ hinv.1.2.1 hin
    obtain ⟨hnr, -, -, -⟩ := inv_nr_lt hinv hi0 hrange
    have hset := a6 hin
    generalize hfind : vmx_fdl_ram_area d (gpa &&& 0xFFFFFFFFFFFFF000) = i0 at *
    obtain ⟨r1, r2, r3, r4⟩ := run_inv a1 es2
    have hbit := r4 i0 _ (by rw [a2]; exact hi0) (by rw [(a3 i0).2.1]; exact hnr) hset
    have hfind2 : vmx_fdl_ram_area (fdl_run (fdl_step d (.record true gpa)) es2)
        (gpa &&& 0xFFFFFFFFFFFFF000) = i0 := by
      rw [run_ram_area a1 es2,
        ram_area_congr _ a2 (fun j => ⟨(a3 j).1, (a3 j).2.1⟩), hfind]
    obtain ⟨-, -, ⟨buf, hbuf⟩, -, -⟩ := r1.1
    have hstep2 : fdl_step (fdl_run (fdl_step d (.record true gpa)) es2) (.record true gpa)
        = vmx_fdl_set_addr (fdl_run (fdl_step d (.record true gpa)) es2)
            (gpa &&& 0xFFFFFFFFFFFFF000) := rfl
    rw [hstep2]
    apply set_addr_of_set hbuf hfind2 hin
    rw [← fdl_bit_eq hbuf, (r3 i0).1, (a3 i0).1]
    exact hbit

/-- A command that resets the lengths, on a session that satisfies the invariant. -/
theorem step_reset {d : vm_vmx_fdl} (hinv : fdl_inv d) (cmd : fdl_ioctl_cmd)
    (hcmd : is_reset_cmd cmd = true) :
    fdl_step d (.ioctl cmd) = fdl_reset_lengths d d.num_areas := by
  have h : fdl_step d (.ioctl cmd) = (vmx_fdl_ioctl cmd d).2.1 := rfl
  rw [h, reset_cmd_session cmd d hcmd, hinv.2.1]
  rfl

/-- Claim C30: `GET_AND_RESET_COUNTS` and `FLUSH` change nothing but the log lengths:
in every session the buffer is the same after the call, so every bitmap bit and every
stored log slot of every region is the same, and so are the base, size, pointers and
slot limit of every region.  Consequently, in every session reached from a fresh
configuration (at most 8 regions of positive page-multiple size), once the recorder
has been called for an address attributed to a region, every later call for the same
address leaves the session unchanged, whatever recorder calls and commands lie in
between; right after a reset the log length of that region is 0 and stays 0 when the
address is recorded again.  (In the model only the recorder writes the buffer, so the
bit is never cleared.) -/
theorem C30_reset_changes_only_lengths (data : vm_vmx_fdl) (configuration : fdl_conf)
    (es es2 : List fdl_event) (cmd : fdl_ioctl_cmd) (gpa : Nat)
    (hconf : data.configured = false) (hn1 : 1 ≤ configuration.num)
    (hn8 : configuration.num ≤ 8)
    (hreg : ∀ j, j < configuration.num →
      (configuration.areas j).base_address < 2 ^ 64 ∧
      (configuration.areas j).size % 4096 = 0 ∧ 0 < (configuration.areas j).size ∧
      (configuration.areas j).size < 2 ^ 64)
    (hcmd : is_reset_cmd cmd = true)
    (hin : vmx_fdl_ram_area (fdl_fresh data configuration) (gpa &&& 0xFFFFFFFFFFFFF000) ≠ 0xff) :
    (∀ d : vm_vmx_fdl,
      (vmx_fdl_ioctl cmd d).2.1.alloc_buf = d.alloc_buf ∧
      (vmx_fdl_ioctl cmd d).2.1.num_areas = d.num_areas ∧
      (∀ j nr, fdl_bit (vmx_fdl_ioctl cmd d).2.1 j nr = fdl_bit d j nr) ∧
      (∀ j k, fdl_slot (vmx_fdl_ioctl cmd d).2.1 j k = fdl_slot d j k) ∧
      (∀ j, ((vmx_fdl_ioctl cmd d).2.1.areas j).base = (d.areas j).base ∧
        ((vmx_fdl_ioctl cmd d).2.1.areas j).size = (d.areas j).size ∧
        ((vmx_fdl_ioctl cmd d).2.1.areas j).stack = (d.areas j).stack ∧
        ((vmx_fdl_ioctl cmd d).2.1.areas j).bitmap = (d.areas j).bitmap ∧
        ((vmx_fdl_ioctl cmd d).2.1.areas j).stack_max = (d.areas j).stack_max)) ∧
    (∀ slot_dirty,
      fdl_step (fdl_run (fdl_step (fdl_run (fdl_fresh data configuration) es)
          (.record true gpa)) es2) (.record slot_dirty gpa)
        = fdl_run (fdl_step (fdl_run (fdl_fresh data configuration) es) (.record true gpa)) es2) ∧
    ((fdl_step (fdl_run (fdl_step (fdl_run (fdl_fresh data configuration) es)
        (.record true gpa)) es2) (.ioctl cmd)).areas
          (vmx_fdl_ram_area (fdl_fresh data configuration) (gpa &&& 0xFFFFFFFFFFFFF000))).stack_index
      = 0 ∧
    ((fdl_step (fdl_step (fdl_run (fdl_step (fdl_run (fdl_fresh data configuration) es)
        (.record true gpa)) es2) (.ioctl cmd)) (.record true gpa)).areas
          (vmx_fdl_ram_area (fdl_fresh data configuration) (gpa &&& 0xFFFFFFFFFFFFF000))).stack_index
      = 0 := by
  have h0 := fresh_inv data configuration hconf hn1 hn8 hreg
  obtain ⟨r1, r2, r3, -⟩ := run_inv h0 es
  have hin2 : vmx_fdl_ram_area (fdl_run (fdl_fresh data configuration) es)
      (gpa &&& 0xFFFFFFFFFFFFF000) ≠ 0xff := by
    rw [run_ram_area h0 es]; exact hin
  have hagain := record_again_unchanged r1 gpa hin2
  obtain ⟨hi0, -⟩ := ram_area_some _ _ h0.1.2.1 hin
  refine ⟨?_, fun sd => hagain es2 sd, ?_, ?_⟩
  · intro d
    rw [reset_cmd_session cmd d hcmd]
    cases hc : d.configured
    · simp
    · simp only [if_true]
      refine ⟨rfl, rfl, ?_, ?_, ?_⟩
      · intro j nr
        simp only [fdl_bit, fdl_reset_lengths]
        split_ifs <;> rfl
      · intro j k
        simp only [fdl_slot, fdl_reset_lengths]
        split_ifs <;> rfl
      · intro j
        simp only [fdl_reset_lengths]
        split_ifs <;> simp
  · have hs : fdl_inv (fdl_run (fdl_step (fdl_run (fdl_fresh data configuration) es)
        (.record true gpa)) es2) ∧
        (fdl_run (fdl_step (fdl_run (fdl_fresh data configuration) es)
          (.record true gpa)) es2).num_areas = (fdl_fresh data configuration).num_areas := by
      obtain ⟨s1, s2, -, -⟩ := step_inv r1 (.record true gpa)
      obtain ⟨t1, t2, -, -⟩ := run_inv s1 es2
      exact ⟨t1, t2.trans (s2.trans r2)⟩
    rw [step_reset hs.1 cmd hcmd, hs.2]
    simp [fdl_reset_lengths, hi0]
  · have hcomm : fdl_step (fdl_step (fdl_run (fdl_step (fdl_run (fdl_fresh data configuration) es)
        (.record true gpa)) es2) (.ioctl cmd)) (.record true gpa)
        = fdl_step (fdl_run (fdl_step (fdl_run (fdl_fresh data configuration) es)
            (.record true gpa)) es2) (.ioctl cmd) := by
      have := hagain (es2 ++ [.ioctl cmd]) true
      rw [fdl_run_snoc] at this
      exact this
    rw [hcomm]
    have hs : fdl_inv (fdl_run (fdl_step (fdl_run (fdl_fresh data configuration) es)
        (.record true gpa)) es2) ∧
        (fdl_run (fdl_step (fdl_run (fdl_fresh data configuration) es)
          (.record true gpa)) es2).num_areas = (fdl_fresh data configuration).num_areas := by
      obtain ⟨s1, s2, -, -⟩ := step_inv r1 (.record true gpa)
      obtain ⟨t1, t2, -, -⟩ := run_inv s1 es2
      exact ⟨t1, t2.trans (s2.trans r2)⟩
    rw [step_reset hs.1 cmd hcmd, hs.2]
    simp [fdl_reset_lengths, hi0]

theorem C30_reset_changes_only_lengths_witness :
    fdl_step (fdl_run (fdl_step (fdl_run (fdl_fresh vmx_fdl_setup fdl_conf_two) [])
        (.record true 0x103010))
        [.record true 0x105ff8, .ioctl (.KVM_VMX_FDL_GET_INDEX ⟨0, fun _ => 0⟩ true)])
        (.record true 0x103010)
      = fdl_run (fdl_step (fdl_run (fdl_fresh vmx_fdl_setup fdl_conf_two) [])
          (.record true 0x103010))
          [.record true 0x105ff8, .ioctl (.KVM_VMX_FDL_GET_INDEX ⟨0, fun _ => 0⟩ true)] ∧
    ((fdl_step (fdl_step (fdl_run (fdl_step (fdl_run (fdl_fresh vmx_fdl_setup fdl_conf_two) [])
        (.record true 0x103010)) [.record true 0x105ff8]) (.ioctl .KVM_VMX_FDL_FLUSH))
        (.record true 0x103010)).areas 0).stack_index = 0 ∧
    fdl_bit (fdl_step (fdl_run (fdl_step (fdl_run (fdl_fresh vmx_fdl_setup fdl_conf_two) [])
        (.record true 0x103010)) [.record true 0x105ff8]) (.ioctl .KVM_VMX_FDL_FLUSH)) 0 3
      = true :=
  ⟨(C30_reset_changes_only_lengths vmx_fdl_setup fdl_conf_two []
      [.record true 0x105ff8, .ioctl (.KVM_VMX_FDL_GET_INDEX ⟨0, fun _ => 0⟩ true)]
      .KVM_VMX_FDL_FLUSH 0x103010 rfl (by decide) (by decide) fdl_conf_two_regions rfl
      (by decide)).2.1 true,
   (C30_reset_changes_only_lengths vmx_fdl_setup fdl_conf_two [] [.record true 0x105ff8]
      .KVM_VMX_FDL_FLUSH 0x103010 rfl (by decide) (by decide) fdl_conf_two_regions rfl
      (by decide)).2.2.2,
   by decide⟩

end Nyx
